import Mathlib

/-!
# site-snapshot — formal model of the mirroring engine

A shallow embedding of the website-mirroring service found in the
repository (the `CloneService` in `server/services/clone.ts`, the
`FileManager` whose listing appears in `replit.md`, and the
`PlaywrightService.renderPage` progress callback in
`server/services/playwright.ts`).

Modelling conventions:

* JavaScript floating point progress arithmetic `Math.floor(base +
  (dc / total) * k)` is modelled as the natural-number expression
  `base + dc * k / total`; both are monotone in `dc` and agree on the
  band bounds used by the program.
* External collaborators — the WHATWG `URL` parser, the cheerio markup
  parser, and the two regular-expression scans of
  `parseCSSForResources` — are supplied as oracle fields of an
  environment record `Env`.  Everything downstream of those oracles is
  translated from the source.
* The mutable per-job state (progress log, created file records, the
  CSS visited set and canonical path map, fetch events, pause checks)
  is threaded explicitly through a `RunState` record.  Fields marked
  "ghost" record the event history the theorems talk about; they are
  write-only instrumentation and never influence control flow.
* `processCSS` recurses through the import graph; the recursion is
  bounded by an explicit fuel argument, and a theorem shows the fuel
  `web.length + 1` used by `cloneWebsite` never runs out.
-/

namespace SiteSnapshot

/-- Result of parsing a URL reference against a base, as produced by
the WHATWG `new URL(ref, base)` constructor: we keep the three
components the program reads. -/
structure URLParts where
  href : String
  hostname : String
  pathname : String
deriving DecidableEq, Repr

/-- The `new URL(ref, base)` parser, abstracted: `none` models the
constructor throwing on malformed input. -/
abbrev Resolver := String → String → Option URLParts

/-- `new URL(ref, base).href`. -/
def resolveHref (R : Resolver) (ref base : String) : Option String :=
  (R ref base).map (·.href)

/-! ## Node `path` helpers used by `FileManager.getLocalPath`

The string utilities below are written over character lists with
structural recursion so that the kernel can evaluate them on concrete
inputs. -/

/-- Split a character list at every occurrence of `sep`
(JavaScript `split`, Node path-component splitting). -/
def splitCharAux (sep : Char) : List Char → List Char → List (List Char)
  | [], acc => [acc.reverse]
  | c :: rest, acc =>
    if c = sep then acc.reverse :: splitCharAux sep rest []
    else splitCharAux sep rest (c :: acc)

/-- `s.split(sep)` for a one-character separator. -/
def splitChar (sep : Char) (s : String) : List String :=
  (splitCharAux sep s.toList []).map String.mk

/-- `pat` is a prefix of `s` (JavaScript `startsWith`). -/
def strStarts (s pat : String) : Bool :=
  pat.toList.isPrefixOf s.toList

/-- The basename of a slash-separated path: the component after the
last `/` (Node `path.basename` on the inputs `getLocalPath` builds). -/
def basenameOf (p : String) : String :=
  (splitChar '/' p).getLastD ""

/-- Node `path.extname` on the basename `b`: the suffix starting at
the last `.`, except that a dot in first position (hidden files) or
the special name `..` yields the empty string. -/
def extnameOfBase (b : String) : String :=
  if b = ".." then ""
  else
    let cs := b.toList
    let revNoExt := cs.reverse.takeWhile (fun c => c ≠ '.')
    if revNoExt.length = cs.length then ""
    else
      let dotIdx := cs.length - 1 - revNoExt.length
      if dotIdx = 0 then "" else String.mk (cs.drop dotIdx)

/-- Node `path.extname p`. -/
def extname (p : String) : String :=
  extnameOfBase (basenameOf p)

/-- `pathname.replace(/^\//, "")`: strip one leading slash. -/
def stripLeadingSlash (p : String) : String :=
  match p.toList with
  | '/' :: rest => String.mk rest
  | _ => p

/-- Node `path.join p q` for the shapes `getLocalPath` produces. -/
def joinPath (p q : String) : String :=
  if p = "" then q
  else if p.toList.getLast? = some '/' then p ++ q
  else p ++ "/" ++ q

/-- `FileManager.getLocalPath(url, baseUrl)` (listing in `replit.md`):
resolve `url` against `baseUrl`; the root path maps to `index.html`;
strip the leading slash; an extensionless final segment is treated as
a directory and gets `index.html` joined on; a parse failure falls
back to `index.html`. -/
def getLocalPath (R : Resolver) (url baseUrl : String) : String :=
  match R url baseUrl with
  | none => "index.html"
  | some u =>
    let pathname := u.pathname
    if pathname = "/" ∨ pathname = "" then "index.html"
    else
      let p := stripLeadingSlash pathname
      if extname p = "" then joinPath p "index.html" else p

/-! ## String replacement

`String.prototype.replace` with a global regex built from an escaped
literal is, on the canonical statement forms the rewriter itself
emits, replacement of every occurrence of a literal substring.  We
implement that literal replacement directly so the kernel can
evaluate it. -/

/-- Replace every occurrence of `pat` (non-overlapping, left to
right) by `repl` in a character list.  An empty pattern matches
nothing, mirroring a regex built from a non-empty escaped literal.
The fuel argument makes the recursion structural; each step consumes
at least one character, so fuel equal to the list length (as supplied
by `replaceAll`) never runs out. -/
def replaceAllAux (pat repl : List Char) : Nat → List Char → List Char
  | _, [] => []
  | 0, rest => rest
  | fuel + 1, c :: rest =>
    if pat ≠ [] ∧ pat.isPrefixOf (c :: rest) then
      repl ++ replaceAllAux pat repl fuel ((c :: rest).drop pat.length)
    else
      c :: replaceAllAux pat repl fuel rest

/-- Replace every occurrence of the literal `pat` by `repl` in `s`. -/
def replaceAll (s pat repl : String) : String :=
  String.mk (replaceAllAux pat.toList repl.toList s.toList.length s.toList)

/-! ## CSS rewrite helpers (`CloneService.processCSS`) -/

/-- The single-quote character, written out once. -/
def sq : String := "\x27"

/-- `cssLocalPath.split('/').length - 1`: the directory depth of a
stylesheet's own local path. -/
def dirDepth (p : String) : Nat :=
  (splitChar '/' p).length - 1

/-- The `relativePrefix` computed for `@import` rewrites: one `../`
segment per directory level of the parent stylesheet's local path,
`./` at depth zero. -/
def importRelStart (cssLocalPath : String) : String :=
  let cssDepth := dirDepth cssLocalPath
  if cssDepth > 0 then String.join (List.replicate cssDepth "../") else "./"

/-- The `relativePrefix` computed for `url()` rewrites: one extra
`../` level over the import case, to climb out of the `css/` folder. -/
def urlRelStart (cssLocalPath : String) : String :=
  let cssDepth := dirDepth cssLocalPath
  if cssDepth > 0 then String.join (List.replicate (cssDepth + 1) "../") else "../"

/-- `localPath.split('.').pop()?.toLowerCase()`: the text after the
last dot (the whole name when there is no dot), lower-cased. -/
def lastDotSeg (p : String) : String :=
  let seg := (splitChar '.' p).getLastD ""
  String.mk (seg.toList.map Char.toLower)

/-- The extensions routed to the `fonts/` folder. -/
def fontExts : List String := ["woff", "woff2", "ttf", "otf", "eot"]

/-- The extensions routed to the `images/` folder. -/
def imgExts : List String := ["png", "jpg", "jpeg", "gif", "svg", "webp", "ico"]

/-- The folder a `url()` resource is stored under, chosen by extension. -/
def cssResFolder (ext : String) : String :=
  if ext ∈ fontExts then "fonts"
  else if ext ∈ imgExts then "images"
  else "css"

/-- The file-record `type` recorded for a `url()` resource. -/
def cssResType (ext : String) : String :=
  if ext ∈ fontExts then "font"
  else if ext ∈ imgExts then "image"
  else "other"

/-- The canonical text of an `@import` statement carrying `importPath`
(the normal form of the statements the regex
`@import\s+(?:url\()?['"]?…['"]?\)?[^;]*;` recognises and the rewriter
itself emits). -/
def importPattern (importPath : String) : String :=
  "@import url(" ++ sq ++ importPath ++ sq ++ ");"

/-- The replacement text written for an `@import` of `importLocalPath`
inside a parent stylesheet stored at `cssLocalPath`. -/
def importReplacement (cssLocalPath importLocalPath : String) : String :=
  "@import url(" ++ sq ++ importRelStart cssLocalPath ++ importLocalPath ++ sq ++ ");"

/-- The canonical text of a `url()` reference carrying `urlPath`. -/
def urlPattern (urlPath : String) : String :=
  "url(" ++ sq ++ urlPath ++ sq ++ ")"

/-- The replacement text written for a `url()` reference stored at
`folder/localPath`, seen from a stylesheet stored at `cssLocalPath`. -/
def urlReplacement (cssLocalPath folder localPath : String) : String :=
  "url(" ++ sq ++ urlRelStart cssLocalPath ++ folder ++ "/" ++ localPath ++ sq ++ ")"

/-- The `@import` rewrite step of `processCSS`: replace the statement
importing `importPath` by one importing the relative local path. -/
def rewriteImportStmt (css importPath importLocalPath cssLocalPath : String) : String :=
  replaceAll css (importPattern importPath) (importReplacement cssLocalPath importLocalPath)

/-- The `url()` rewrite step of `processCSS`. -/
def rewriteUrlRef (css urlPath folder localPath cssLocalPath : String) : String :=
  replaceAll css (urlPattern urlPath) (urlReplacement cssLocalPath folder localPath)

/-! ## The run environment -/

/-- The rendering strategy of a job. -/
inductive Method where
  | static
  | playwright
deriving DecidableEq, Repr

/-- What the cheerio selectors extract from a parsed document: the raw
attribute values, in document order, before any dedup or filtering
(the program filters and dedups them itself).  `styleBgRefs` are the
`url(...)` arguments captured inside inline `style` attributes that
contain the substring "background"; `anchorHrefs` are `a[href]`
values. -/
structure Doc where
  cssLinks : List String
  fontLinks : List String
  iconLinks : List String
  jsScripts : List String
  imgSrcs : List String
  styleBgRefs : List String
  anchorHrefs : List String
deriving DecidableEq, Repr

/-- The external world one run observes.  `web` is the set of URLs a
blocking GET can fetch, with their bodies; a URL outside it makes the
fetch throw.  `R` is `new URL(ref, base)`; `parseAbs` is `new
URL(abs)` without a base.  `parseDoc` is the cheerio extraction;
`parseCSSForResources` is the pair of regex scans of a stylesheet
(captured `@import` targets, captured `url()` arguments, in order).
`pausedAt n` is the job's pause flag as sampled by the n-th
`storage.getProject` check of the run.  `renderEvents` is the network
activity the playwright renderer observes during page load: `true`
is a tracked request (stylesheet/script/image/font), `false` is any
response. -/
structure Env where
  R : Resolver
  parseAbs : String → Option URLParts
  web : List (String × String)
  parseDoc : String → Doc
  parseCSSForResources : String → List String × List String
  pausedAt : Nat → Bool
  renderEvents : List Bool

/-- A blocking GET: the body when the URL is fetchable. -/
def lookupWeb (web : List (String × String)) (u : String) : Option String :=
  (web.find? (fun p => p.1 = u)).map (·.2)

/-- Add to an insertion-ordered set (JavaScript `Set.add`). -/
def dedupAdd (l : List String) (x : String) : List String :=
  if x ∈ l then l else l ++ [x]

/-- Fold a raw reference list into an insertion-ordered set, keeping
only entries accepted by `keep` (the per-category guard). -/
def addAll (keep : String → Bool) (init items : List String) : List String :=
  items.foldl (fun acc x => if keep x then dedupAdd acc x else acc) init

/-- `if (href)`: a missing or empty attribute is skipped. -/
def keepSome (s : String) : Bool :=
  !(s == "")

/-- `if (src && !src.startsWith("data:"))`. -/
def keepNonData (s : String) : Bool :=
  !(s == "") && !(strStarts s "data:")

/-- The stylesheet link set of a document. -/
def cssSet (doc : Doc) : List String :=
  addAll keepSome [] doc.cssLinks

/-- The font link set of a document. -/
def fontSet (doc : Doc) : List String :=
  addAll keepSome [] doc.fontLinks

/-- The icon link set of a document (data URIs excluded). -/
def iconSet (doc : Doc) : List String :=
  addAll keepNonData [] doc.iconLinks

/-- The script source set of a document. -/
def jsSet (doc : Doc) : List String :=
  addAll keepSome [] doc.jsScripts

/-- The image set of a document used by `estimateClone`: `img[src]`
values, data URIs excluded. -/
def imgSetEst (doc : Doc) : List String :=
  addAll keepNonData [] doc.imgSrcs

/-- The image set of a full clone run: `img[src]` values plus inline
background `url()` references, data URIs excluded, deduplicated into
one set. -/
def imagesSet (doc : Doc) : List String :=
  addAll keepNonData (addAll keepNonData [] doc.imgSrcs) doc.styleBgRefs

/-! ## Run state

A `RunState` carries everything `cloneWebsite` mutates: the persisted
status and progress, the created file records, the rewrite maps, the
resolver's visited set and canonical path map, and ghost event logs
(`events`, `cssFetches`, `cssWrites`) that record history for the
theorems without influencing control flow.  `ranOut` is a ghost marker
set only when the explicit recursion fuel of `processCSS` is
exhausted; `returned` models an early `return` from `cloneWebsite`. -/

/-- An observable action of the run: a pause-flag sample (with the
sampled value) or a network fetch of an absolute URL. -/
inductive Ev where
  | check (paused : Bool)
  | fetch (url : String)
deriving DecidableEq, Repr

/-- A `storage.createFile` record: the Resource Record of one
persisted file.  `srcUrl` is ghost instrumentation naming the
absolute URL the record was created for (`none` for HTML documents). -/
structure FileRec where
  path : String
  ftype : String
  size : Nat
  srcUrl : Option String
deriving DecidableEq, Repr

structure RunState where
  status : String
  progressLog : List Nat
  events : List Ev
  files : List FileRec
  saves : List String
  linkRewrites : List (String × String)
  imgRewrites : List (String × String)
  styleRewrites : List (String × String)
  downloadedCount : Nat
  failedCount : Nat
  errs : List String
  pauseChecks : Nat
  errorMessage : Option String
  cssVisited : List String
  cssPathMap : List (String × String)
  cssFetches : List String
  cssWrites : List String
  ranOut : Bool
  returned : Bool
deriving DecidableEq, Repr

/-- The state a fresh job starts from. -/
def initState : RunState where
  status := "pending"
  progressLog := []
  events := []
  files := []
  saves := []
  linkRewrites := []
  imgRewrites := []
  styleRewrites := []
  downloadedCount := 0
  failedCount := 0
  errs := []
  pauseChecks := 0
  errorMessage := none
  cssVisited := []
  cssPathMap := []
  cssFetches := []
  cssWrites := []
  ranOut := false
  returned := false

/-- One progress report: the program calls the progress callback and
persists the same `progressPercentage`; the log records the common
value. -/
def report (s : RunState) (v : Nat) : RunState :=
  { s with progressLog := s.progressLog ++ [v] }

/-- Record a network fetch of `u` (ghost). -/
def recordFetch (s : RunState) (u : String) : RunState :=
  { s with events := s.events ++ [.fetch u] }

/-- Sample the pause flag via `storage.getProject` (the n-th sample of
the run reads `pausedAt n`). -/
def pauseCheck (env : Env) (s : RunState) : RunState × Bool :=
  let b := env.pausedAt s.pauseChecks
  ({ s with events := s.events ++ [.check b], pauseChecks := s.pauseChecks + 1 }, b)

/-- A caught per-resource failure: count it, append a diagnostic. -/
def addFailure (s : RunState) (msg : String) : RunState :=
  { s with failedCount := s.failedCount + 1, errs := s.errs ++ [msg] }

/-- `updateProjectStatus(id, "paused")` followed by `return`. -/
def markPaused (s : RunState) : RunState :=
  { s with status := "paused", returned := true }

/-- The top-level catch: `updateProjectStatus(id, "error", msg)`. -/
def markError (s : RunState) (msg : String) : RunState :=
  { s with status := "error", errorMessage := some msg, returned := true }

/-- Association-list lookup (the `cssUrlToLocalPath` map). -/
def lookupAssoc (m : List (String × String)) (k : String) : Option String :=
  (m.find? (fun p => p.1 = k)).map (·.2)

/-! ## `CloneService.processCSS`

The recursive CSS import resolver.  The recursion is bounded by an
explicit `fuel` argument; `cloneWebsite` always supplies
`cssFuel env = env.web.length + 1`, which is proved sufficient (the
`ranOut` marker stays clear).  The `url()` leaf loop `processUrls`
does not recurse. -/

/-- The `url()` reference loop at the end of `processCSS`: fetch each
non-data reference, store it under a folder chosen by extension, and
rewrite the reference to a relative path. -/
def processUrls (env : Env) (s : RunState) (cssUrl cssLocalPath : String)
    (urls : List String) (acc : String) : RunState × String :=
  match urls with
  | [] => (s, acc)
  | urlPath :: rest =>
    match resolveHref env.R urlPath cssUrl with
    | none =>
      processUrls env (addFailure s ("CSS resource: " ++ urlPath)) cssUrl cssLocalPath rest acc
    | some absoluteUrl =>
      match lookupWeb env.web absoluteUrl with
      | none =>
        processUrls env (addFailure s ("CSS resource: " ++ urlPath)) cssUrl cssLocalPath rest acc
      | some content =>
        let s := recordFetch s absoluteUrl
        let localPath := getLocalPath env.R urlPath cssUrl
        let ext := lastDotSeg localPath
        let folder := cssResFolder ext
        let full := folder ++ "/" ++ localPath
        let s := { s with saves := s.saves ++ [full],
                          files := s.files ++
                            [⟨full, cssResType ext, content.length, some absoluteUrl⟩] }
        processUrls env s cssUrl cssLocalPath rest
          (rewriteUrlRef acc urlPath folder localPath cssLocalPath)

/-- The `@import` loop of `processCSS`: per import, resolve it, get or
create its canonical local path, and — when not yet visited — fetch it
and recurse (`recur` is the `processCSS` activation at the next
recursion depth), persisting the recursive result only when it is
non-empty; then rewrite the statement in the parent text.  A resolve
or fetch failure is caught: it is counted and the statement is left
alone. -/
def processImports (env : Env)
    (recur : RunState → String → String → String → RunState × String) (s : RunState)
    (cssUrl cssLocalPath : String) (imports : List String) (acc : String) : RunState × String :=
  match imports with
  | [] => (s, acc)
  | importPath :: rest =>
    match resolveHref env.R importPath cssUrl with
    | none =>
      processImports env recur (addFailure s ("CSS @import: " ++ importPath))
        cssUrl cssLocalPath rest acc
    | some absoluteUrl =>
      let sp : RunState × String :=
        match lookupAssoc s.cssPathMap absoluteUrl with
        | some p => (s, p)
        | none =>
          let p := getLocalPath env.R importPath absoluteUrl
          ({ s with cssPathMap := s.cssPathMap ++ [(absoluteUrl, p)] }, p)
      let s := sp.1
      let importLocalPath := sp.2
      if absoluteUrl ∈ s.cssVisited then
        processImports env recur s cssUrl cssLocalPath rest
          (rewriteImportStmt acc importPath importLocalPath cssLocalPath)
      else
        match lookupWeb env.web absoluteUrl with
        | none =>
          processImports env recur (addFailure s ("CSS @import: " ++ importPath))
            cssUrl cssLocalPath rest acc
        | some importContent =>
          let s := { s with events := s.events ++ [.fetch absoluteUrl],
                            cssFetches := s.cssFetches ++ [absoluteUrl] }
          let res := recur s importContent absoluteUrl importLocalPath
          let s :=
            if res.2 ≠ "" then
              { res.1 with saves := res.1.saves ++ ["css/" ++ importLocalPath],
                           files := res.1.files ++
                             [⟨"css/" ++ importLocalPath, "css", res.2.length, some absoluteUrl⟩],
                           cssWrites := res.1.cssWrites ++ [absoluteUrl] }
            else res.1
          processImports env recur s cssUrl cssLocalPath rest
            (rewriteImportStmt acc importPath importLocalPath cssLocalPath)

/-- `processCSS`: if the stylesheet URL was already visited, return
the empty string so the caller does not write again; otherwise mark it
visited, record its canonical local path, resolve every `@import`
recursively, then process the `url()` references.  The recursion depth
is bounded by the explicit fuel, which `cloneWebsite` always supplies
in sufficient quantity. -/
def processCSS (env : Env) : Nat → RunState → String → String → String → RunState × String
  | 0, s, _, _, _ => ({ s with ranOut := true }, "")
  | fuel + 1, s, cssContent, cssUrl, cssLocalPath =>
    if cssUrl ∈ s.cssVisited then (s, "")
    else
      let s := { s with cssVisited := s.cssVisited ++ [cssUrl],
                        cssPathMap := s.cssPathMap ++ [(cssUrl, cssLocalPath)] }
      let pr := env.parseCSSForResources cssContent
      let res := processImports env (fun s c u p => processCSS env fuel s c u p)
        s cssUrl cssLocalPath pr.1 cssContent
      processUrls env res.1 cssUrl cssLocalPath pr.2 res.2
termination_by structural fuel => fuel

/-- The fuel `cloneWebsite` hands to `processCSS`; proved sufficient
for any import graph over `env.web`. -/
def cssFuel (env : Env) : Nat :=
  env.web.length + 1

/-! ## The five resource phases of `cloneWebsite` -/

/-- One resource-download loop.  Per item: sample the pause flag and
stop at once when it is set; otherwise resolve and fetch the item,
run the per-kind persistence step `handle`, bump the download
counter, and report `base + dc * span / total` (the program's
`Math.floor(base + (dc / total) * span)`). -/
def resourceLoop (env : Env) (pageUrl : String) (total base span : Nat)
    (failTag : String)
    (handle : RunState → String → String → String → RunState)
    (items : List String) (s : RunState) : RunState :=
  match items with
  | [] => s
  | href :: rest =>
    let pc := pauseCheck env s
    if pc.2 then markPaused pc.1
    else
      let s := pc.1
      let s :=
        match resolveHref env.R href pageUrl with
        | none => addFailure s (failTag ++ ": " ++ href)
        | some absoluteUrl =>
          match lookupWeb env.web absoluteUrl with
          | none => addFailure s (failTag ++ ": " ++ href)
          | some content =>
            let s := recordFetch s absoluteUrl
            let s := handle s href absoluteUrl content
            let s := { s with downloadedCount := s.downloadedCount + 1 }
            report s (base + s.downloadedCount * span / total)
      resourceLoop env pageUrl total base span failTag handle rest s

/-- Font phase persistence: save under `fonts/`, record a `font`
file, rewrite the link href. -/
def fontHandler (env : Env) (pageUrl : String)
    (s : RunState) (href _absoluteUrl content : String) : RunState :=
  let localPath := getLocalPath env.R href pageUrl
  { s with saves := s.saves ++ ["fonts/" ++ localPath],
           files := s.files ++ [⟨"fonts/" ++ localPath, "font", content.length, some _absoluteUrl⟩],
           linkRewrites := s.linkRewrites ++ [(href, "./fonts/" ++ localPath)] }

/-- Icon phase persistence (records have type `image`). -/
def iconHandler (env : Env) (pageUrl : String)
    (s : RunState) (href _absoluteUrl content : String) : RunState :=
  let localPath := getLocalPath env.R href pageUrl
  { s with saves := s.saves ++ ["icons/" ++ localPath],
           files := s.files ++ [⟨"icons/" ++ localPath, "image", content.length, some _absoluteUrl⟩],
           linkRewrites := s.linkRewrites ++ [(href, "./icons/" ++ localPath)] }

/-- Stylesheet phase persistence: run the CSS import resolver from
this top-level stylesheet, write its own rewritten text only when the
resolver returns a non-empty result, and rewrite the link href. -/
def cssHandler (env : Env) (pageUrl : String)
    (s : RunState) (href absoluteUrl content : String) : RunState :=
  let localPath := getLocalPath env.R href pageUrl
  let res := processCSS env (cssFuel env) s content absoluteUrl localPath
  let s :=
    if res.2 ≠ "" then
      { res.1 with saves := res.1.saves ++ ["css/" ++ localPath],
                   files := res.1.files ++
                     [⟨"css/" ++ localPath, "css", res.2.length, some absoluteUrl⟩],
                   cssWrites := res.1.cssWrites ++ [absoluteUrl] }
    else res.1
  { s with linkRewrites := s.linkRewrites ++ [(href, "./css/" ++ localPath)] }

/-- Script phase persistence. -/
def jsHandler (env : Env) (pageUrl : String)
    (s : RunState) (src _absoluteUrl content : String) : RunState :=
  let localPath := getLocalPath env.R src pageUrl
  { s with saves := s.saves ++ ["js/" ++ localPath],
           files := s.files ++ [⟨"js/" ++ localPath, "js", content.length, some _absoluteUrl⟩],
           linkRewrites := s.linkRewrites ++ [(src, "./js/" ++ localPath)] }

/-- Image phase persistence: save under `images/`, rewrite the img
src. -/
def imgHandler (env : Env) (pageUrl : String)
    (s : RunState) (src _absoluteUrl content : String) : RunState :=
  let localPath := getLocalPath env.R src pageUrl
  { s with saves := s.saves ++ ["images/" ++ localPath],
           files := s.files ++ [⟨"images/" ++ localPath, "image", content.length, some _absoluteUrl⟩],
           imgRewrites := s.imgRewrites ++ [(src, "./images/" ++ localPath)] }

/-! ## Renderer progress, inline styles, crawling, completion -/

/-- The per-response progress values emitted by
`PlaywrightService.renderPage`: each response bumps the response
count and, once a tracked request exists, emits
`min(responses / requests, 0.95)`; the caller maps a value `p` to
`5 + Math.floor(p * 10)`, so we emit `min(10 * resp / req, 9)`
directly. -/
def renderResponseEmits : List Bool → Nat → Nat → List Nat
  | [], _, _ => []
  | ev :: evs, req, resp =>
    if ev then renderResponseEmits evs (req + 1) resp
    else
      if req > 0 then min (10 * (resp + 1) / req) 9 :: renderResponseEmits evs req (resp + 1)
      else renderResponseEmits evs req (resp + 1)

/-- Every scaled progress value a successful `renderPage` call emits:
the initial `0.1`, the per-response values, and the final `1`. -/
def renderEmits (evs : List Bool) : List Nat :=
  1 :: (renderResponseEmits evs 0 0 ++ [10])

/-- The playwright document phase as observed by `cloneWebsite`'s
progress callback: render emissions are mapped to `5 + v`; a
navigation failure aborts after the partial emissions. -/
def renderPageModel (env : Env) (url : String) (s : RunState) : RunState × Option String :=
  let s := recordFetch s url
  match lookupWeb env.web url with
  | some html =>
    ((renderEmits env.renderEvents).foldl (fun s v => report s (5 + v)) s, some html)
  | none =>
    let s := report s (5 + 1)
    ((renderResponseEmits env.renderEvents 0 0).foldl (fun s v => report s (5 + v)) s, none)

/-- Skip the remaining phases once the run has returned. -/
def seqRun (s : RunState) (f : RunState → RunState) : RunState :=
  if s.returned then s else f s

/-- The per-phase header report, emitted only when the phase has
items; no pause check precedes it. -/
def phaseHeader (s : RunState) (nonempty : Bool) (v : Nat) : RunState :=
  if nonempty then report s v else s

/-- The inline-style rewrite pass: each non-data `url()` reference in
a background style is rewritten to `./images/` plus its canonical
local path, without fetching; a URL the resolver rejects is skipped. -/
def rewriteStylePass (env : Env) (pageUrl : String) (bgRefs : List String)
    (s : RunState) : RunState :=
  bgRefs.foldl (fun s u =>
    if keepNonData u then
      match env.R u pageUrl with
      | none => s
      | some _ =>
        { s with styleRewrites :=
            s.styleRewrites ++ [(u, "./images/" ++ getLocalPath env.R u pageUrl)] }
    else s) s

/-- Persist the final rewritten document. -/
def saveIndexHtml (htmlLen : Nat) (s : RunState) : RunState :=
  { s with saves := s.saves ++ ["index.html"],
           files := s.files ++ [⟨"index.html", "html", htmlLen, none⟩] }

/-- `CloneService.extractLinks`: same-hostname anchors whose pathname
differs from the job URL's, deduplicated; `none` models `new
URL(baseUrl)` throwing. -/
def extractLinks (env : Env) (anchors : List String) (baseUrl : String) :
    Option (List String) :=
  match env.parseAbs baseUrl with
  | none => none
  | some base =>
    some (anchors.foldl (fun links href =>
      if href ≠ "" ∧ ¬strStarts href "#" ∧ ¬strStarts href "mailto:" ∧
          ¬strStarts href "tel:" then
        match env.R href baseUrl with
        | none => links
        | some u =>
          if u.hostname = base.hostname ∧ u.pathname ≠ base.pathname then
            dedupAdd links u.href
          else links
      else links) [])

/-- The sub-page file name: `/` becomes `index`, otherwise the
pathname with its leading slash stripped and every `/` replaced by
`_`. -/
def pagePathOf (u : URLParts) : String :=
  if u.pathname = "/" then "index"
  else String.mk ((stripLeadingSlash u.pathname).toList.map
    (fun c => if c = '/' then '_' else c))

/-- `CloneService.cloneSinglePage`: fetch one sub-page and save it as
a separate HTML file; no resources are downloaded and no references
are rewritten.  Returns whether the page was saved. -/
def cloneSinglePage (env : Env) (url : String) (s : RunState) : RunState × Bool :=
  let s := recordFetch s url
  match lookupWeb env.web url with
  | none => (s, false)
  | some html =>
    match env.parseAbs url with
    | none => (s, false)
    | some u =>
      let name := pagePathOf u ++ ".html"
      ({ s with saves := s.saves ++ [name],
                files := s.files ++ [⟨name, "html", html.length, none⟩] }, true)

/-- The sub-page loop: pause check per page, then report
`90 + (i / n) * 8`, clone the page, and persist the same progress
value on success; a failed sub-page is logged and skipped. -/
def subLoop (env : Env) (links : List String) (n i : Nat) (s : RunState) : RunState :=
  match links with
  | [] => s
  | link :: rest =>
    let pc := pauseCheck env s
    if pc.2 then markPaused pc.1
    else
      let s := pc.1
      let v := 90 + i * 8 / n
      let s := report s v
      let res := cloneSinglePage env link s
      let s := if res.2 then report res.1 v else res.1
      subLoop env rest n (i + 1) s

/-- The crawl phase: when depth > 0, extract same-domain links from
the original document, cap at 10, and mirror each as an independent
single-page fetch. -/
def crawlPhase (env : Env) (url : String) (crawlDepth : Nat) (doc : Doc)
    (s : RunState) : RunState :=
  if crawlDepth > 0 then
    let s := report s 88
    match extractLinks env doc.anchorHrefs url with
    | none => markError s ("Invalid URL: " ++ url)
    | some subLinks =>
      let limitedLinks := subLinks.take 10
      let s := report s 90
      subLoop env limitedLinks limitedLinks.length 0 s
  else s

/-- Completion: mark the job complete and report exactly 100.  (The
human-readable completion message is not modelled; no claim reads
it.) -/
def completeRun (s : RunState) : RunState :=
  report { s with status := "complete" } 100

/-! ## `CloneService.cloneWebsite` -/

/-- The base progress after the document phase: 15 for playwright,
20 for static. -/
def baseProgressOf (method : Method) : Nat :=
  if method = .playwright then 15 else 20

/-- The phase chain of `cloneWebsite` after the document has been
obtained and parsed: the five resource phases with their progress
bands, the inline-style rewrite, the final document write, the
optional crawl, and completion at exactly 100. -/
def clonePhases (env : Env) (url : String) (method : Method) (crawlDepth : Nat)
    (doc : Doc) (htmlLen : Nat) (s : RunState) : RunState :=
  let cssL := cssSet doc
  let fontL := fontSet doc
  let iconL := iconSet doc
  let jsL := jsSet doc
  let imgL := imagesSet doc
  let total := cssL.length + jsL.length + imgL.length + fontL.length + iconL.length
  let s := { s with cssVisited := [], cssPathMap := [] }
  let base := baseProgressOf method
  let s := seqRun s (fun s => phaseHeader s (!fontL.isEmpty) base)
  let s := seqRun s (resourceLoop env url total base 5 "Font" (fontHandler env url) fontL)
  let s := seqRun s (fun s => phaseHeader s (!iconL.isEmpty) (base + 5))
  let s := seqRun s (resourceLoop env url total (base + 5) 5 "Icon" (iconHandler env url) iconL)
  let s := seqRun s (fun s => phaseHeader s (!cssL.isEmpty) (base + 10))
  let s := seqRun s (resourceLoop env url total (base + 10) 15 "CSS" (cssHandler env url) cssL)
  let s := seqRun s (fun s => phaseHeader s (!jsL.isEmpty) (base + 25))
  let s := seqRun s (resourceLoop env url total (base + 25) 20 "JavaScript" (jsHandler env url) jsL)
  let s := seqRun s (fun s => phaseHeader s (!imgL.isEmpty) (base + 45))
  let s := seqRun s (resourceLoop env url total (base + 45) 25 "Image" (imgHandler env url) imgL)
  let s := seqRun s (fun s => report s 88)
  let s := seqRun s (rewriteStylePass env url doc.styleBgRefs)
  let s := seqRun s (fun s => report s 90)
  let s := seqRun s (saveIndexHtml htmlLen)
  let s := seqRun s (crawlPhase env url crawlDepth doc)
  seqRun s completeRun

/-- The top-level mirroring orchestrator: initial pause check,
document fetch/render (failure here is the only path to status
`error`), then the phase chain. -/
def cloneWebsite (env : Env) (url : String) (method : Method) (crawlDepth : Nat) : RunState :=
  let pc := pauseCheck env initState
  if pc.2 then markPaused pc.1
  else
    let s0 := { pc.1 with status := "processing" }
    let docRes : RunState × Option String :=
      match method with
      | .static =>
        let s := report s0 10
        let s := recordFetch s url
        (match lookupWeb env.web url with
         | none => (s, none)
         | some html => (report s 20, some html))
      | .playwright =>
        let s := report s0 2
        let s := report s 5
        renderPageModel env url s
    match docRes.2 with
    | none => markError docRes.1 ("Failed to fetch " ++ url)
    | some html =>
      let s := docRes.1
      let s := if method = .playwright then report s 15 else s
      clonePhases env url method crawlDepth (env.parseDoc html) html.length s

/-! ## `CloneService.estimateClone` -/

/-- The result record of `estimateClone`.  Times and sizes are exact
rationals standing for the JavaScript double computation. -/
structure Estimate where
  estimatedTime : Int
  estimatedSize : Int
  resourceCount : Nat
deriving DecidableEq, Repr

/-- `CloneService.estimateClone`: fetch the page, count the distinct
stylesheet/script/non-data-image references, estimate time and size
from fixed per-kind constants, and fall back to a fixed default
estimate when the fetch fails. -/
def estimateClone (env : Env) (url : String) (method : Method) (crawlDepth : Nat) : Estimate :=
  match lookupWeb env.web url with
  | none =>
    { estimatedTime := if method = .playwright then 30 else 15
      estimatedSize := 2 * 1024 * 1024
      resourceCount := 10 }
  | some html =>
    let doc := env.parseDoc html
    let cssLinks := cssSet doc
    let jsScripts := jsSet doc
    let images := imgSetEst doc
    let totalResources := cssLinks.length + jsScripts.length + images.length
    let estimatedSize : ℚ := (html.length : ℚ)
      + (cssLinks.length : ℚ) * 50 * 1024
      + (jsScripts.length : ℚ) * 100 * 1024
      + (images.length : ℚ) * 200 * 1024
    let estimatedTime : ℚ :=
      (totalResources : ℚ) * (if method = .static then 3 / 10 else 4 / 5)
    let estimatedTime : ℚ :=
      if method = .playwright then estimatedTime + 3 else estimatedTime
    let sizeTime : ℚ × ℚ :=
      if crawlDepth > 0 then
        let estimatedSubPages : ℚ := min 10 ((totalResources : ℚ) / 5)
        (estimatedSize * (1 + estimatedSubPages * (1 / 2)),
         estimatedTime + estimatedSubPages * (if method = .static then 2 else 4))
      else (estimatedSize, estimatedTime)
    { estimatedTime := ⌈sizeTime.2⌉
      estimatedSize := ⌈sizeTime.1⌉
      resourceCount := totalResources + 1 }

/-! ## Observational predicates and concrete environments -/

/-- Does every fetch event come immediately after a pause check?  The
Boolean argument tracks whether the previous event was a check. -/
def guardedFrom : Bool → List Ev → Bool
  | _, [] => true
  | _, .check _ :: rest => guardedFrom true rest
  | ok, .fetch _ :: rest => ok && guardedFrom false rest

/-- `guardedEvents evs` holds when every fetch of the run is
immediately preceded by a pause check. -/
def guardedEvents (evs : List Ev) : Bool :=
  guardedFrom false evs

/-- The number of file records whose source URL is `A`. -/
def fileCount (A : String) (fs : List FileRec) : Nat :=
  fs.countP (fun f => f.srcUrl == some A)

/-- A run segment is quiet for the URL `A`: it fetches `A` no further
time, records no file sourced from `A`, and only appends to the two
image rewrite maps. -/
def QuietA (A : String) (s s' : RunState) : Prop :=
  s'.events.count (Ev.fetch A) = s.events.count (Ev.fetch A) ∧
  fileCount A s'.files = fileCount A s.files ∧
  (∃ t, s'.imgRewrites = s.imgRewrites ++ t) ∧
  (∃ t, s'.styleRewrites = s.styleRewrites ++ t)

/-- A one-page site whose document carries a single image: the static
run reports 90 inside the image band and then 88 at finalization. -/
def envC1 : Env where
  R := fun ref _ =>
    if ref = "i.png" then some ⟨"http://e.com/i.png", "e.com", "/i.png"⟩ else none
  parseAbs := fun u =>
    if u = "http://e.com/" then some ⟨"http://e.com/", "e.com", "/"⟩ else none
  web := [("http://e.com/", "<html>"), ("http://e.com/i.png", "IMG")]
  parseDoc := fun _ => ⟨[], [], [], [], ["i.png"], [], []⟩
  parseCSSForResources := fun _ => ([], [])
  pausedAt := fun _ => false
  renderEvents := []

/-- A resource-free page rendered by playwright with one tracked
request and one response. -/
def envCW : Env where
  R := fun _ _ => none
  parseAbs := fun _ => none
  web := [("http://e.com/", "<html>")]
  parseDoc := fun _ => ⟨[], [], [], [], [], [], []⟩
  parseCSSForResources := fun _ => ([], [])
  pausedAt := fun _ => false
  renderEvents := [true, false]

/-- A site whose only image reference resolves to a URL the web does
not serve: the image fetch fails, the run does not. -/
def envC4 : Env where
  R := fun ref _ =>
    if ref = "x.png" then some ⟨"http://e.com/x.png", "e.com", "/x.png"⟩ else none
  parseAbs := fun _ => none
  web := [("http://e.com/", "<html>")]
  parseDoc := fun _ => ⟨[], [], [], [], ["x.png"], [], []⟩
  parseCSSForResources := fun _ => ([], [])
  pausedAt := fun _ => false
  renderEvents := []

/-- A site with one stylesheet that imports another: the import is
fetched with no pause check in between. -/
def envC5 : Env where
  R := fun ref base =>
    if ref = "s.css" ∧ base = "http://e.com/" then
      some ⟨"http://e.com/s.css", "e.com", "/s.css"⟩
    else if ref = "b.css" then some ⟨"http://e.com/b.css", "e.com", "/b.css"⟩
    else none
  parseAbs := fun _ => none
  web := [("http://e.com/", "<html>"), ("http://e.com/s.css", "@import b"),
          ("http://e.com/b.css", "body{}")]
  parseDoc := fun h =>
    if h = "<html>" then ⟨["s.css"], [], [], [], [], [], []⟩
    else ⟨[], [], [], [], [], [], []⟩
  parseCSSForResources := fun c => if c = "@import b" then (["b.css"], []) else ([], [])
  pausedAt := fun _ => false
  renderEvents := []

/-- An environment whose pause flag is already raised at the first
check. -/
def envPaused : Env where
  R := fun _ _ => none
  parseAbs := fun _ => none
  web := []
  parseDoc := fun _ => ⟨[], [], [], [], [], [], []⟩
  parseCSSForResources := fun _ => ([], [])
  pausedAt := fun _ => true
  renderEvents := []

/-- A document whose anchors mix a same-domain link, a foreign-domain
link, an empty href, a fragment and the page itself. -/
def docC9 : Doc :=
  ⟨[], [], [], [], [], [], ["/a", "http://other.com/x", "", "#frag", "/"]⟩

/-- The environment for the crawl claims: one same-domain sub-page. -/
def envC9 : Env where
  R := fun ref _ =>
    if ref = "/a" then some ⟨"http://e.com/a", "e.com", "/a"⟩
    else if ref = "http://other.com/x" then some ⟨"http://other.com/x", "other.com", "/x"⟩
    else if ref = "/" then some ⟨"http://e.com/", "e.com", "/"⟩
    else none
  parseAbs := fun u =>
    if u = "http://e.com/" then some ⟨"http://e.com/", "e.com", "/"⟩
    else if u = "http://e.com/a" then some ⟨"http://e.com/a", "e.com", "/a"⟩
    else none
  web := [("http://e.com/", "<html>"), ("http://e.com/a", "<sub>")]
  parseDoc := fun h => if h = "<html>" then docC9 else ⟨[], [], [], [], [], [], []⟩
  parseCSSForResources := fun _ => ([], [])
  pausedAt := fun _ => false
  renderEvents := []

/-- A site whose document references the same image once via
`img[src]` and once inside an inline background style. -/
def envC3 : Env where
  R := fun ref _ =>
    if ref = "i.png" then some ⟨"http://e.com/i.png", "e.com", "/i.png"⟩ else none
  parseAbs := fun _ => none
  web := [("http://e.com/", "<html>"), ("http://e.com/i.png", "IMG")]
  parseDoc := fun h =>
    if h = "<html>" then ⟨[], [], [], [], ["i.png"], ["i.png"], []⟩
    else ⟨[], [], [], [], [], [], []⟩
  parseCSSForResources := fun _ => ([], [])
  pausedAt := fun _ => false
  renderEvents := []

/-! ## Specification-level predicates and contracts -/

/-- The `cloneWebsite` fields `processCSS` never touches. -/
def Pres1 (s' s : RunState) : Prop :=
  s'.progressLog = s.progressLog ∧ s'.downloadedCount = s.downloadedCount ∧
  s'.returned = s.returned ∧ s'.status = s.status ∧
  s'.pauseChecks = s.pauseChecks ∧ s'.errorMessage = s.errorMessage ∧
  s'.imgRewrites = s.imgRewrites ∧ s'.styleRewrites = s.styleRewrites ∧
  s'.linkRewrites = s.linkRewrites

/-- `v` is the resolution of some `@import` or `url()` reference
occurring in some stylesheet body of the web. -/
def WebCssRef (env : Env) (v : String) : Prop :=
  ∃ w c r b, (w, c) ∈ env.web ∧
    (r ∈ (env.parseCSSForResources c).1 ∨ r ∈ (env.parseCSSForResources c).2) ∧
    resolveHref env.R r b = some v

/-- A URL `processCSS` may fetch or record a file for, when started on
the body `cssContent` at `cssUrl`: either a reference of some web
stylesheet, or a reference of `cssContent` itself resolved against
`cssUrl`. -/
def CssTgt (env : Env) (cssContent cssUrl v : String) : Prop :=
  WebCssRef env v ∨
    ∃ r, (r ∈ (env.parseCSSForResources cssContent).1 ∨
          r ∈ (env.parseCSSForResources cssContent).2) ∧
      resolveHref env.R r cssUrl = some v

/-- What one `processCSS` activation may do to the state: preserve the
orchestrator's fields, only append to the visited set, and only append
fetch events and file records whose targets are CSS references. -/
def CssStep (env : Env) (cssContent cssUrl : String) (s s' : RunState) : Prop :=
  Pres1 s' s ∧
  (∃ t, s'.cssVisited = s.cssVisited ++ t) ∧
  (∃ t, s'.events = s.events ++ t ∧
    ∀ e ∈ t, ∃ v, e = Ev.fetch v ∧ CssTgt env cssContent cssUrl v) ∧
  (∃ t, s'.files = s.files ++ t ∧
    ∀ f ∈ t, ∃ v, f.srcUrl = some v ∧ CssTgt env cssContent cssUrl v)

/-- The fuel-free effect contract of `processCSS` at a given fuel:
its state change is a `CssStep`; with any non-zero fuel the entry URL
ends up visited; and a visited entry URL returns immediately with the
empty string. -/
def PcssProp (env : Env) (fuel : Nat) : Prop :=
  ∀ (s : RunState) (c u p : String),
    CssStep env c u s (processCSS env fuel s c u p).1 ∧
    (fuel ≠ 0 → u ∈ (processCSS env fuel s c u p).1.cssVisited) ∧
    (u ∈ s.cssVisited → fuel ≠ 0 → processCSS env fuel s c u p = (s, ""))

/-- The corresponding contract of the `@import` loop. -/
def PimpProp (env : Env) (fuel : Nat) : Prop :=
  ∀ (imports : List String) (s : RunState) (c cu cp acc : String),
    (∀ r ∈ imports, r ∈ (env.parseCSSForResources c).1) →
    CssStep env c cu s (processImports env (fun s c u p => processCSS env fuel s c u p) s cu cp imports acc).1

/-- The set of fetchable URLs. -/
def webDomain (env : Env) : Finset String :=
  (env.web.map Prod.fst).toFinset

/-- How many fetchable URLs are not yet visited. -/
def unvisited (env : Env) (s : RunState) : Nat :=
  ((webDomain env).filter (fun w => w ∉ s.cssVisited)).card

/-- How many fetchable URLs are neither visited nor the entry URL. -/
def unvisitedExcl (env : Env) (s : RunState) (u : String) : Nat :=
  ((webDomain env).filter (fun w => w ∉ s.cssVisited ∧ w ≠ u)).card

/-- Precondition of a `processCSS` activation on `u`: ghost fetches
are distinct and all visited (except possibly `u` itself, whose fetch
the caller has just recorded); ghost writes are distinct and visited. -/
def CssPre (s : RunState) (u : String) : Prop :=
  s.cssFetches.Nodup ∧ (∀ v ∈ s.cssFetches, v ∈ s.cssVisited ∨ v = u) ∧
  s.cssWrites.Nodup ∧ (∀ v ∈ s.cssWrites, v ∈ s.cssVisited)

/-- The stable invariant between activations: ghost fetches and
writes are distinct and contained in the visited set. -/
def CssGood (s : RunState) : Prop :=
  s.cssFetches.Nodup ∧ (∀ v ∈ s.cssFetches, v ∈ s.cssVisited) ∧
  s.cssWrites.Nodup ∧ (∀ v ∈ s.cssWrites, v ∈ s.cssVisited)

/-- Invariant contract of `processCSS` under sufficient fuel. -/
def QcssProp (env : Env) (fuel : Nat) : Prop :=
  ∀ (s : RunState) (c u p : String),
    fuel ≥ 1 + unvisitedExcl env s u →
    (processCSS env fuel s c u p).1.ranOut = s.ranOut ∧
    (CssPre s u → CssGood (processCSS env fuel s c u p).1) ∧
    (∀ v ∈ (processCSS env fuel s c u p).1.cssWrites,
      v ∈ s.cssWrites ∨ (v ∉ s.cssVisited ∧ v ≠ u))

/-- Invariant contract of the `@import` loop under sufficient fuel. -/
def QimpProp (env : Env) (fuel : Nat) : Prop :=
  ∀ (imports : List String) (s : RunState) (cu cp acc : String),
    fuel ≥ unvisited env s →
    (processImports env (fun s c u p => processCSS env fuel s c u p) s cu cp imports acc).1.ranOut = s.ranOut ∧
    (CssGood s → CssGood (processImports env (fun s c u p => processCSS env fuel s c u p) s cu cp imports acc).1) ∧
    (∀ v ∈ (processImports env (fun s c u p => processCSS env fuel s c u p) s cu cp imports acc).1.cssWrites,
      v ∈ s.cssWrites ∨ v ∉ s.cssVisited)

/-- The pause flag is never raised during the run. -/
def NoPause (env : Env) : Prop :=
  ∀ n, env.pausedAt n = false

/-- The conditions under which a run that has obtained its document
proceeds undisturbed: the pause flag is never raised and, when a
crawl is requested, the job URL parses. -/
def GoodRun (env : Env) (url : String) (crawlDepth : Nat) : Prop :=
  NoPause env ∧ (crawlDepth > 0 → (env.parseAbs url).isSome)

/-- The only post-document error cause: a crawl was requested but
`new URL(baseUrl)` throws on the job URL. -/
def CrawlErrCause (env : Env) (url : String) (crawlDepth : Nat) : Prop :=
  crawlDepth > 0 ∧ env.parseAbs url = none

/-- A handler is tame when it never touches the loop's own
bookkeeping: the progress log, the download counter, the return flag,
the status and the pause-check counter. -/
def Tame (handle : RunState → String → String → String → RunState) : Prop :=
  ∀ s h a c,
    (handle s h a c).progressLog = s.progressLog ∧
    (handle s h a c).downloadedCount = s.downloadedCount ∧
    (handle s h a c).returned = s.returned ∧
    (handle s h a c).status = s.status ∧
    (handle s h a c).pauseChecks = s.pauseChecks

/-- The bookkeeping contract every phase step obeys: the log only
grows; under the good conditions `P` the status and return flag are
untouched; the status can otherwise only move to `paused` or `error`;
a returned state is frozen; and a pause leaves the triggering check
as the last event. -/
def WeakOk (P E : Prop) (s s' : RunState) : Prop :=
  (∃ t, s'.progressLog = s.progressLog ++ t) ∧
  (P → s'.returned = s.returned ∧ s'.status = s.status) ∧
  (s'.status = s.status ∨ s'.status = "paused" ∨
    (s'.status = "error" ∧ E ∧ s'.errorMessage ≠ none ∧ s'.returned = true)) ∧
  (s'.returned = s.returned ∨ s'.returned = true) ∧
  (s.returned = true → s' = s) ∧
  (s'.status = "paused" → s.status ≠ "paused" →
    s'.returned = true ∧ s'.events.getLast? = some (.check true))

/-- The full contract of a progress phase: `WeakOk`, plus the log
growth is a non-decreasing run anchored at `lo` and bounded by `hi`
(as long as the download budget `K` fits in `total`), and the
download counter grows by at most `K`. -/
def PhaseOk (P E : Prop) (total K lo hi : Nat) (s s' : RunState) : Prop :=
  WeakOk P E s s' ∧
  (∃ d, s'.progressLog = s.progressLog ++ d ∧
    (s.downloadedCount + K ≤ total →
      List.Chain' (· ≤ ·) (lo :: d) ∧ ∀ x ∈ d, x ≤ hi)) ∧
  s'.downloadedCount ≤ s.downloadedCount + K

/-- The state after the initial (negative) pause check and the status
update to `processing`. -/
def startedState : RunState :=
  { initState with events := [Ev.check false], pauseChecks := 1, status := "processing" }

/-- A two-stylesheet web with a cyclic import graph: `a.css` imports
`b.css` and `b.css` imports `a.css`. -/
def cycEnv : Env where
  R := fun ref _ =>
    if ref = "b.css" then some ⟨"http://e.com/b.css", "e.com", "/b.css"⟩
    else if ref = "a.css" then some ⟨"http://e.com/a.css", "e.com", "/a.css"⟩
    else none
  parseAbs := fun _ => none
  web := [("http://e.com/a.css", "ACSS"), ("http://e.com/b.css", "BCSS")]
  parseDoc := fun _ => ⟨[], [], [], [], [], [], []⟩
  parseCSSForResources := fun c =>
    if c = "ACSS" then (["b.css"], [])
    else if c = "BCSS" then (["a.css"], [])
    else ([], [])
  pausedAt := fun _ => false
  renderEvents := []

/-- Concrete environment for the estimate witnesses: a fixture page
with 3 stylesheets, 2 scripts and 5 images. -/
def estEnv : Env where
  R := fun _ _ => none
  parseAbs := fun _ => none
  web := [("http://e.com/", "page")]
  parseDoc := fun _ =>
    { cssLinks := ["a.css", "b.css", "c.css"]
      fontLinks := []
      iconLinks := []
      jsScripts := ["a.js", "b.js"]
      imgSrcs := ["1.png", "2.png", "3.png", "4.png", "5.png"]
      styleBgRefs := []
      anchorHrefs := [] }
  parseCSSForResources := fun _ => ([], [])
  pausedAt := fun _ => false
  renderEvents := []

/-- Concrete resolver used by the C6 witness. -/
def wRes : Resolver := fun r _ =>
  if r = "guide" then some ⟨"http://e.com/docs/guide", "e.com", "/docs/guide"⟩
  else if r = "root" then some ⟨"http://e.com/", "e.com", "/"⟩
  else if r = "app" then some ⟨"http://e.com/a/app.css", "e.com", "/a/app.css"⟩
  else none

/-! ## Set-counting lemmas -/

theorem mem_dedupAdd {l : List String} {x y : String} :
    y ∈ dedupAdd l x ↔ y ∈ l ∨ y = x := by
  unfold dedupAdd
  split
  · next h => constructor
              · exact fun hy => Or.inl hy
              · rintro (hy | rfl)
                · exact hy
                · exact h
  · simp

theorem nodup_dedupAdd {l : List String} (hl : l.Nodup) (x : String) :
    (dedupAdd l x).Nodup := by
  unfold dedupAdd
  split
  · exact hl
  · next h =>
    rw [List.nodup_append]
    refine ⟨hl, List.nodup_singleton _, ?_⟩
    intro a ha hax
    simp only [List.mem_singleton] at hax
    exact h (hax ▸ ha)

theorem addAll_cons (keep : String → Bool) (init : List String) (x : String)
    (rest : List String) :
    addAll keep init (x :: rest) =
      addAll keep (if keep x then dedupAdd init x else init) rest := rfl

theorem mem_addAll (keep : String → Bool) (items : List String) (init : List String)
    (y : String) :
    y ∈ addAll keep init items ↔ y ∈ init ∨ (y ∈ items ∧ keep y) := by
  induction items generalizing init with
  | nil => simp [addAll]
  | cons x rest ih =>
    rw [addAll_cons]
    by_cases hk : keep x
    · rw [if_pos hk, ih]
      simp only [mem_dedupAdd, List.mem_cons]
      constructor
      · rintro ((hy | rfl) | ⟨hy, hkeep⟩)
        · exact Or.inl hy
        · exact Or.inr ⟨Or.inl rfl, hk⟩
        · exact Or.inr ⟨Or.inr hy, hkeep⟩
      · rintro (hy | ⟨(rfl | hy), hkeep⟩)
        · exact Or.inl (Or.inl hy)
        · exact Or.inl (Or.inr rfl)
        · exact Or.inr ⟨hy, hkeep⟩
    · rw [if_neg hk, ih]
      simp only [List.mem_cons]
      constructor
      · rintro (hy | ⟨hy, hkeep⟩)
        · exact Or.inl hy
        · exact Or.inr ⟨Or.inr hy, hkeep⟩
      · rintro (hy | ⟨(rfl | hy), hkeep⟩)
        · exact Or.inl hy
        · exact absurd hkeep hk
        · exact Or.inr ⟨hy, hkeep⟩

theorem nodup_addAll (keep : String → Bool) (items : List String) {init : List String}
    (hinit : init.Nodup) : (addAll keep init items).Nodup := by
  induction items generalizing init with
  | nil => simpa [addAll]
  | cons x rest ih =>
    rw [addAll_cons]
    by_cases hk : keep x
    · rw [if_pos hk]
      exact ih (nodup_dedupAdd hinit x)
    · rw [if_neg hk]
      exact ih hinit

/-- The length of a deduplicated set equals the number of distinct
accepted raw references. -/
theorem addAll_length_eq_card (keep : String → Bool) (items : List String) :
    (addAll keep [] items).length = (items.filter keep).toFinset.card := by
  have hnd : (addAll keep [] items).Nodup := nodup_addAll keep items (by simp)
  have hset : (addAll keep [] items).toFinset = (items.filter keep).toFinset := by
    ext y
    simp only [List.mem_toFinset, List.mem_filter, mem_addAll, List.not_mem_nil, false_or]
  calc (addAll keep [] items).length
      = (addAll keep [] items).toFinset.card := (List.toFinset_card_of_nodup hnd).symm
    _ = (items.filter keep).toFinset.card := by rw [hset]

/-! ## Effect lemmas for the CSS import resolver -/

theorem pres1_refl (s : RunState) : Pres1 s s :=
  ⟨rfl, rfl, rfl, rfl, rfl, rfl, rfl, rfl, rfl⟩

theorem pres1_trans {s₁ s₂ s₃ : RunState} (h₁ : Pres1 s₂ s₁) (h₂ : Pres1 s₃ s₂) :
    Pres1 s₃ s₁ := by
  obtain ⟨a1, a2, a3, a4, a5, a6, a7, a8, a9⟩ := h₁
  obtain ⟨b1, b2, b3, b4, b5, b6, b7, b8, b9⟩ := h₂
  exact ⟨b1.trans a1, b2.trans a2, b3.trans a3, b4.trans a4, b5.trans a5,
    b6.trans a6, b7.trans a7, b8.trans a8, b9.trans a9⟩

theorem cssStep_refl (env : Env) (c u : String) (s : RunState) : CssStep env c u s s :=
  ⟨pres1_refl s, ⟨[], by simp⟩, ⟨[], by simp⟩, ⟨[], by simp⟩⟩

theorem cssStep_trans {env : Env} {c u : String} {s₁ s₂ s₃ : RunState}
    (h₁ : CssStep env c u s₁ s₂) (h₂ : CssStep env c u s₂ s₃) :
    CssStep env c u s₁ s₃ := by
  obtain ⟨p1, ⟨t1, ht1⟩, ⟨e1, he1, he1'⟩, ⟨f1, hf1, hf1'⟩⟩ := h₁
  obtain ⟨p2, ⟨t2, ht2⟩, ⟨e2, he2, he2'⟩, ⟨f2, hf2, hf2'⟩⟩ := h₂
  refine ⟨pres1_trans p1 p2, ⟨t1 ++ t2, by rw [ht2, ht1, List.append_assoc]⟩,
    ⟨e1 ++ e2, by rw [he2, he1, List.append_assoc], ?_⟩,
    ⟨f1 ++ f2, by rw [hf2, hf1, List.append_assoc], ?_⟩⟩
  · intro e he
    rcases List.mem_append.mp he with h | h
    · exact he1' e h
    · exact he2' e h
  · intro f hf
    rcases List.mem_append.mp hf with h | h
    · exact hf1' f h
    · exact hf2' f h

/-- Strengthen a `CssStep` whose target set is contained in another. -/
theorem cssStep_mono {env : Env} {c u c' u' : String} {s s' : RunState}
    (h : CssStep env c u s s')
    (himp : ∀ v, CssTgt env c u v → CssTgt env c' u' v) :
    CssStep env c' u' s s' := by
  obtain ⟨p, hv, ⟨e, he, he'⟩, ⟨f, hf, hf'⟩⟩ := h
  refine ⟨p, hv, ⟨e, he, ?_⟩, ⟨f, hf, ?_⟩⟩
  · intro x hx
    obtain ⟨v, hev, htgt⟩ := he' x hx
    exact ⟨v, hev, himp v htgt⟩
  · intro x hx
    obtain ⟨v, hev, htgt⟩ := hf' x hx
    exact ⟨v, hev, himp v htgt⟩

/-- A target of a stylesheet fetched from the web is a `WebCssRef`,
hence a target of any other activation. -/
theorem CssTgt_of_web {env : Env} {w c : String} (hwc : (w, c) ∈ env.web)
    {cc cu v : String} (h : CssTgt env c w v) : CssTgt env cc cu v := by
  rcases h with h | ⟨r, hr, hres⟩
  · exact Or.inl h
  · exact Or.inl ⟨w, c, r, w, hwc, hr, hres⟩

/-- A body returned by `lookupWeb` is a body of the web. -/
theorem lookupWeb_mem {web : List (String × String)} {u c : String}
    (h : lookupWeb web u = some c) : (u, c) ∈ web := by
  unfold lookupWeb at h
  cases hf : web.find? (fun p => p.1 = u) with
  | none =>
    rw [hf] at h
    exact Option.noConfusion h
  | some p =>
    rw [hf] at h
    have hc : p.2 = c := Option.some.inj h
    have hmem := List.mem_of_find?_eq_some hf
    have hp := List.find?_some hf
    simp only [decide_eq_true_eq] at hp
    have : p = (u, c) := by
      cases p
      simp only at hp hc
      simp [hp, hc]
    rwa [this] at hmem

/-- Fields of the state `processUrls` never changes, and its
`CssStep`. -/
theorem processUrls_step (env : Env) (urls : List String) :
    ∀ (s : RunState) (cu cp acc : String) (c : String),
      (∀ r ∈ urls, r ∈ (env.parseCSSForResources c).2) →
      CssStep env c cu s (processUrls env s cu cp urls acc).1 ∧
      (processUrls env s cu cp urls acc).1.cssVisited = s.cssVisited ∧
      (processUrls env s cu cp urls acc).1.cssFetches = s.cssFetches ∧
      (processUrls env s cu cp urls acc).1.cssWrites = s.cssWrites ∧
      (processUrls env s cu cp urls acc).1.cssPathMap = s.cssPathMap ∧
      (processUrls env s cu cp urls acc).1.ranOut = s.ranOut := by
  induction urls with
  | nil =>
    intro s cu cp acc c _
    exact ⟨cssStep_refl env c cu s, rfl, rfl, rfl, rfl, rfl⟩
  | cons urlPath rest ih =>
    intro s cu cp acc c hsub
    have hrest : ∀ r ∈ rest, r ∈ (env.parseCSSForResources c).2 :=
      fun r hr => hsub r (List.mem_cons_of_mem _ hr)
    have hhead : urlPath ∈ (env.parseCSSForResources c).2 :=
      hsub urlPath (List.mem_cons_self _ _)
    cases hres : resolveHref env.R urlPath cu with
    | none =>
      have heq : processUrls env s cu cp (urlPath :: rest) acc =
          processUrls env (addFailure s ("CSS resource: " ++ urlPath)) cu cp rest acc := by
        simp only [processUrls, hres]
      rw [heq]
      have h := ih (addFailure s ("CSS resource: " ++ urlPath)) cu cp acc c hrest
      have hstep : CssStep env c cu s (addFailure s ("CSS resource: " ++ urlPath)) :=
        ⟨⟨rfl, rfl, rfl, rfl, rfl, rfl, rfl, rfl, rfl⟩,
          ⟨[], by simp [addFailure]⟩,
          ⟨[], ⟨by simp [addFailure], by simp⟩⟩,
          ⟨[], ⟨by simp [addFailure], by simp⟩⟩⟩
      exact ⟨cssStep_trans hstep h.1, h.2.1, h.2.2.1, h.2.2.2.1, h.2.2.2.2.1, h.2.2.2.2.2⟩
    | some absoluteUrl =>
      cases hweb : lookupWeb env.web absoluteUrl with
      | none =>
        have heq : processUrls env s cu cp (urlPath :: rest) acc =
            processUrls env (addFailure s ("CSS resource: " ++ urlPath)) cu cp rest acc := by
          simp only [processUrls, hres, hweb]
        rw [heq]
        have h := ih (addFailure s ("CSS resource: " ++ urlPath)) cu cp acc c hrest
        have hstep : CssStep env c cu s (addFailure s ("CSS resource: " ++ urlPath)) :=
          ⟨⟨rfl, rfl, rfl, rfl, rfl, rfl, rfl, rfl, rfl⟩,
            ⟨[], by simp [addFailure]⟩,
            ⟨[], ⟨by simp [addFailure], by simp⟩⟩,
            ⟨[], ⟨by simp [addFailure], by simp⟩⟩⟩
        exact ⟨cssStep_trans hstep h.1, h.2.1, h.2.2.1, h.2.2.2.1, h.2.2.2.2.1, h.2.2.2.2.2⟩
      | some content =>
        have htgt : CssTgt env c cu absoluteUrl := Or.inr ⟨urlPath, Or.inr hhead, hres⟩
        -- the state after the fetch and the two persistence appends
        set lp := getLocalPath env.R urlPath cu with hlp
        set fol := cssResFolder (lastDotSeg lp) with hfol
        set s₁ : RunState :=
          { recordFetch s absoluteUrl with
              saves := (recordFetch s absoluteUrl).saves ++ [fol ++ "/" ++ lp],
              files := (recordFetch s absoluteUrl).files ++
                [⟨fol ++ "/" ++ lp, cssResType (lastDotSeg lp), content.length,
                  some absoluteUrl⟩] } with hs₁
        have heq : processUrls env s cu cp (urlPath :: rest) acc =
            processUrls env s₁ cu cp rest (rewriteUrlRef acc urlPath fol lp cp) := by
          simp only [processUrls, hres, hweb, hs₁]
        rw [heq]
        have h := ih s₁ cu cp (rewriteUrlRef acc urlPath fol lp cp) c hrest
        have hstep : CssStep env c cu s s₁ := by
          refine ⟨⟨rfl, rfl, rfl, rfl, rfl, rfl, rfl, rfl, rfl⟩,
            ⟨[], by simp [hs₁, recordFetch]⟩,
            ⟨[Ev.fetch absoluteUrl], ⟨by simp [hs₁, recordFetch], ?_⟩⟩,
            ⟨[⟨fol ++ "/" ++ lp, cssResType (lastDotSeg lp), content.length,
                some absoluteUrl⟩], ⟨by simp [hs₁, recordFetch], ?_⟩⟩⟩
          · intro e he
            simp only [List.mem_singleton] at he
            exact ⟨absoluteUrl, he, htgt⟩
          · intro f hf
            simp only [List.mem_singleton] at hf
            exact ⟨absoluteUrl, by rw [hf], htgt⟩
        have hfields : s₁.cssVisited = s.cssVisited ∧ s₁.cssFetches = s.cssFetches ∧
            s₁.cssWrites = s.cssWrites ∧ s₁.cssPathMap = s.cssPathMap ∧
            s₁.ranOut = s.ranOut := by
          refine ⟨?_, ?_, ?_, ?_, ?_⟩ <;> simp [hs₁, recordFetch]
        exact ⟨cssStep_trans hstep h.1,
          h.2.1.trans hfields.1,
          h.2.2.1.trans hfields.2.1,
          h.2.2.2.1.trans hfields.2.2.1,
          h.2.2.2.2.1.trans hfields.2.2.2.1,
          h.2.2.2.2.2.trans hfields.2.2.2.2⟩

theorem mem_of_cssStep_visited {env : Env} {c cu : String} {s s' : RunState}
    (h : CssStep env c cu s s') {u : String} (hu : u ∈ s.cssVisited) :
    u ∈ s'.cssVisited := by
  obtain ⟨-, ⟨t, ht⟩, -, -⟩ := h
  rw [ht]
  exact List.mem_append_left t hu

theorem pcss_zero (env : Env) : PcssProp env 0 := by
  intro s c u p
  refine ⟨?_, fun h0 => absurd rfl h0, fun _ h0 => absurd rfl h0⟩
  have heq : processCSS env 0 s c u p = ({ s with ranOut := true }, "") := by
    simp only [processCSS]
  rw [heq]
  exact ⟨⟨rfl, rfl, rfl, rfl, rfl, rfl, rfl, rfl, rfl⟩,
    ⟨[], by simp⟩, ⟨[], ⟨by simp, by simp⟩⟩, ⟨[], ⟨by simp, by simp⟩⟩⟩

theorem pimp_of_pcss (env : Env) (fuel : Nat) (hcss : PcssProp env fuel) :
    PimpProp env fuel := by
  intro imports
  induction imports with
  | nil =>
    intro s c cu cp acc _
    have heq : processImports env (fun s c u p => processCSS env fuel s c u p) s cu cp [] acc = (s, acc) := by
      simp only [processImports]
    rw [heq]
    exact cssStep_refl env c cu s
  | cons importPath rest ih =>
    intro s c cu cp acc hsub
    have hrest : ∀ r ∈ rest, r ∈ (env.parseCSSForResources c).1 :=
      fun r hr => hsub r (List.mem_cons_of_mem _ hr)
    have hhead : importPath ∈ (env.parseCSSForResources c).1 :=
      hsub importPath (List.mem_cons_self _ _)
    cases hres : resolveHref env.R importPath cu with
    | none =>
      have heq : processImports env (fun s c u p => processCSS env fuel s c u p) s cu cp (importPath :: rest) acc =
          processImports env (fun s c u p => processCSS env fuel s c u p) (addFailure s ("CSS @import: " ++ importPath)) cu cp rest acc := by
        simp only [processImports, hres]
      rw [heq]
      have hstep : CssStep env c cu s (addFailure s ("CSS @import: " ++ importPath)) :=
        ⟨⟨rfl, rfl, rfl, rfl, rfl, rfl, rfl, rfl, rfl⟩,
          ⟨[], by simp [addFailure]⟩,
          ⟨[], ⟨by simp [addFailure], by simp⟩⟩,
          ⟨[], ⟨by simp [addFailure], by simp⟩⟩⟩
      exact cssStep_trans hstep (ih _ c cu cp acc hrest)
    | some absoluteUrl =>
      -- the get-or-create of the canonical path only touches `cssPathMap`
      cases hpm : lookupAssoc s.cssPathMap absoluteUrl with
      | some p0 =>
        have hpath : CssStep env c cu s s :=
          cssStep_refl env c cu s
        by_cases hv : absoluteUrl ∈ s.cssVisited
        · have heq : processImports env (fun s c u p => processCSS env fuel s c u p) s cu cp (importPath :: rest) acc =
              processImports env (fun s c u p => processCSS env fuel s c u p) s cu cp rest
                (rewriteImportStmt acc importPath p0 cp) := by
            simp only [processImports, hres, hpm, if_pos hv]
          rw [heq]
          exact ih _ c cu cp _ hrest
        · cases hweb : lookupWeb env.web absoluteUrl with
          | none =>
            have heq : processImports env (fun s c u p => processCSS env fuel s c u p) s cu cp (importPath :: rest) acc =
                processImports env (fun s c u p => processCSS env fuel s c u p) (addFailure s ("CSS @import: " ++ importPath)) cu cp rest acc := by
              simp only [processImports, hres, hpm, if_neg hv, hweb]
            rw [heq]
            have hstep : CssStep env c cu s (addFailure s ("CSS @import: " ++ importPath)) :=
              ⟨⟨rfl, rfl, rfl, rfl, rfl, rfl, rfl, rfl, rfl⟩,
                ⟨[], by simp [addFailure]⟩,
                ⟨[], ⟨by simp [addFailure], by simp⟩⟩,
                ⟨[], ⟨by simp [addFailure], by simp⟩⟩⟩
            exact cssStep_trans hstep (ih _ c cu cp acc hrest)
          | some importContent =>
            set s₁ : RunState :=
              { s with events := s.events ++ [.fetch absoluteUrl],
                       cssFetches := s.cssFetches ++ [absoluteUrl] } with hs₁
            have hstep₁ : CssStep env c cu s s₁ := by
              refine ⟨⟨rfl, rfl, rfl, rfl, rfl, rfl, rfl, rfl, rfl⟩,
                ⟨[], by simp [hs₁]⟩,
                ⟨[Ev.fetch absoluteUrl], ⟨by simp [hs₁], ?_⟩⟩,
                ⟨[], ⟨by simp [hs₁], by simp⟩⟩⟩
              intro e he
              simp only [List.mem_singleton] at he
              exact ⟨absoluteUrl, he, Or.inr ⟨importPath, Or.inl hhead, hres⟩⟩
            have hcssStep := (hcss s₁ importContent absoluteUrl p0).1
            have hwmem := lookupWeb_mem hweb
            have hcssStep' : CssStep env c cu s₁
                (processCSS env fuel s₁ importContent absoluteUrl p0).1 :=
              cssStep_mono hcssStep (fun v hv' => CssTgt_of_web hwmem hv')
            set res := processCSS env fuel s₁ importContent absoluteUrl p0 with hres2
            by_cases hne : res.2 ≠ ""
            · set s₂ : RunState :=
                { res.1 with saves := res.1.saves ++ ["css/" ++ p0],
                             files := res.1.files ++
                               [⟨"css/" ++ p0, "css", res.2.length, some absoluteUrl⟩],
                             cssWrites := res.1.cssWrites ++ [absoluteUrl] } with hs₂
              have heq : processImports env (fun s c u p => processCSS env fuel s c u p) s cu cp (importPath :: rest) acc =
                  processImports env (fun s c u p => processCSS env fuel s c u p) s₂ cu cp rest
                    (rewriteImportStmt acc importPath p0 cp) := by
                simp only [processImports, hres, hpm, if_neg hv, hweb, hs₂, hs₁, ← hres2,
                  if_pos hne]
              rw [heq]
              have hstep₂ : CssStep env c cu res.1 s₂ := by
                refine ⟨⟨rfl, rfl, rfl, rfl, rfl, rfl, rfl, rfl, rfl⟩,
                  ⟨[], by simp [hs₂]⟩,
                  ⟨[], ⟨by simp [hs₂], by simp⟩⟩,
                  ⟨[⟨"css/" ++ p0, "css", res.2.length, some absoluteUrl⟩],
                    ⟨by simp [hs₂], ?_⟩⟩⟩
                intro f hf
                simp only [List.mem_singleton] at hf
                exact ⟨absoluteUrl, by rw [hf], Or.inr ⟨importPath, Or.inl hhead, hres⟩⟩
              exact cssStep_trans (cssStep_trans (cssStep_trans hstep₁ hcssStep') hstep₂) (ih _ c cu cp _ hrest)
            · have heq : processImports env (fun s c u p => processCSS env fuel s c u p) s cu cp (importPath :: rest) acc =
                  processImports env (fun s c u p => processCSS env fuel s c u p) res.1 cu cp rest
                    (rewriteImportStmt acc importPath p0 cp) := by
                simp only [processImports, hres, hpm, if_neg hv, hweb, hs₁, ← hres2,
                  if_neg hne]
              rw [heq]
              exact cssStep_trans (cssStep_trans hstep₁ hcssStep') (ih _ c cu cp _ hrest)
      | none =>
        set s₀ : RunState :=
          { s with cssPathMap := s.cssPathMap ++
              [(absoluteUrl, getLocalPath env.R importPath absoluteUrl)] } with hs₀
        set p0 := getLocalPath env.R importPath absoluteUrl with hp0
        have hstep₀ : CssStep env c cu s s₀ :=
          ⟨⟨rfl, rfl, rfl, rfl, rfl, rfl, rfl, rfl, rfl⟩,
            ⟨[], by simp [hs₀]⟩,
            ⟨[], ⟨by simp [hs₀], by simp⟩⟩,
            ⟨[], ⟨by simp [hs₀], by simp⟩⟩⟩
        by_cases hv : absoluteUrl ∈ s₀.cssVisited
        · have heq : processImports env (fun s c u p => processCSS env fuel s c u p) s cu cp (importPath :: rest) acc =
              processImports env (fun s c u p => processCSS env fuel s c u p) s₀ cu cp rest
                (rewriteImportStmt acc importPath p0 cp) := by
            simp only [processImports, hres, hpm, hs₀, hp0] at hv ⊢
            simp only [if_pos hv]
          rw [heq]
          exact cssStep_trans hstep₀ (ih _ c cu cp _ hrest)
        · cases hweb : lookupWeb env.web absoluteUrl with
          | none =>
            have heq : processImports env (fun s c u p => processCSS env fuel s c u p) s cu cp (importPath :: rest) acc =
                processImports env (fun s c u p => processCSS env fuel s c u p) (addFailure s₀ ("CSS @import: " ++ importPath)) cu cp rest acc := by
              simp only [processImports, hres, hpm, hs₀, hp0] at hv ⊢
              simp only [if_neg hv, hweb]
            rw [heq]
            have hstep : CssStep env c cu s₀ (addFailure s₀ ("CSS @import: " ++ importPath)) :=
              ⟨⟨rfl, rfl, rfl, rfl, rfl, rfl, rfl, rfl, rfl⟩,
                ⟨[], by simp [addFailure]⟩,
                ⟨[], ⟨by simp [addFailure], by simp⟩⟩,
                ⟨[], ⟨by simp [addFailure], by simp⟩⟩⟩
            exact cssStep_trans (cssStep_trans hstep₀ hstep) (ih _ c cu cp acc hrest)
          | some importContent =>
            set s₁ : RunState :=
              { s₀ with events := s₀.events ++ [.fetch absoluteUrl],
                        cssFetches := s₀.cssFetches ++ [absoluteUrl] } with hs₁
            have hstep₁ : CssStep env c cu s₀ s₁ := by
              refine ⟨⟨rfl, rfl, rfl, rfl, rfl, rfl, rfl, rfl, rfl⟩,
                ⟨[], by simp [hs₁]⟩,
                ⟨[Ev.fetch absoluteUrl], ⟨by simp [hs₁], ?_⟩⟩,
                ⟨[], ⟨by simp [hs₁], by simp⟩⟩⟩
              intro e he
              simp only [List.mem_singleton] at he
              exact ⟨absoluteUrl, he, Or.inr ⟨importPath, Or.inl hhead, hres⟩⟩
            have hcssStep := (hcss s₁ importContent absoluteUrl p0).1
            have hwmem := lookupWeb_mem hweb
            have hcssStep' : CssStep env c cu s₁
                (processCSS env fuel s₁ importContent absoluteUrl p0).1 :=
              cssStep_mono hcssStep (fun v hv' => CssTgt_of_web hwmem hv')
            set res := processCSS env fuel s₁ importContent absoluteUrl p0 with hres2
            by_cases hne : res.2 ≠ ""
            · set s₂ : RunState :=
                { res.1 with saves := res.1.saves ++ ["css/" ++ p0],
                             files := res.1.files ++
                               [⟨"css/" ++ p0, "css", res.2.length, some absoluteUrl⟩],
                             cssWrites := res.1.cssWrites ++ [absoluteUrl] } with hs₂
              have heq : processImports env (fun s c u p => processCSS env fuel s c u p) s cu cp (importPath :: rest) acc =
                  processImports env (fun s c u p => processCSS env fuel s c u p) s₂ cu cp rest
                    (rewriteImportStmt acc importPath p0 cp) := by
                simp only [processImports, hres, hpm, hs₀, hp0] at hv ⊢
                simp only [if_neg hv, hweb, hs₂, hs₁, hs₀, hp0, ← hres2, if_pos hne]
              rw [heq]
              have hstep₂ : CssStep env c cu res.1 s₂ := by
                refine ⟨⟨rfl, rfl, rfl, rfl, rfl, rfl, rfl, rfl, rfl⟩,
                  ⟨[], by simp [hs₂]⟩,
                  ⟨[], ⟨by simp [hs₂], by simp⟩⟩,
                  ⟨[⟨"css/" ++ p0, "css", res.2.length, some absoluteUrl⟩],
                    ⟨by simp [hs₂], ?_⟩⟩⟩
                intro f hf
                simp only [List.mem_singleton] at hf
                exact ⟨absoluteUrl, by rw [hf], Or.inr ⟨importPath, Or.inl hhead, hres⟩⟩
              exact cssStep_trans
                (cssStep_trans (cssStep_trans (cssStep_trans hstep₀ hstep₁) hcssStep')
                  hstep₂)
                (ih _ c cu cp _ hrest)
            · have heq : processImports env (fun s c u p => processCSS env fuel s c u p) s cu cp (importPath :: rest) acc =
                  processImports env (fun s c u p => processCSS env fuel s c u p) res.1 cu cp rest
                    (rewriteImportStmt acc importPath p0 cp) := by
                simp only [processImports, hres, hpm, hs₀, hp0] at hv ⊢
                simp only [if_neg hv, hweb, hs₁, hs₀, hp0, ← hres2, if_neg hne]
              rw [heq]
              exact cssStep_trans (cssStep_trans (cssStep_trans hstep₀ hstep₁) hcssStep') (ih _ c cu cp _ hrest)

theorem pcss_succ (env : Env) (fuel : Nat) (himp : PimpProp env fuel) :
    PcssProp env (fuel + 1) := by
  intro s c u p
  by_cases hv : u ∈ s.cssVisited
  · have heq : processCSS env (fuel + 1) s c u p = (s, "") := by
      simp only [processCSS, if_pos hv]
    rw [heq]
    exact ⟨cssStep_refl env c u s, fun _ => hv, fun _ _ => rfl⟩
  · set s₁ : RunState :=
      { s with cssVisited := s.cssVisited ++ [u],
               cssPathMap := s.cssPathMap ++ [(u, p)] } with hs₁
    set pr := env.parseCSSForResources c with hpr
    set res := processImports env (fun s c u p => processCSS env fuel s c u p) s₁ u p pr.1 c with hres
    have heq : processCSS env (fuel + 1) s c u p =
        processUrls env res.1 u p pr.2 res.2 := by
      simp only [processCSS, if_neg hv, hs₁, hpr, ← hres]
    have hstep₁ : CssStep env c u s s₁ :=
      ⟨⟨rfl, rfl, rfl, rfl, rfl, rfl, rfl, rfl, rfl⟩,
        ⟨[u], by simp [hs₁]⟩,
        ⟨[], ⟨by simp [hs₁], by simp⟩⟩,
        ⟨[], ⟨by simp [hs₁], by simp⟩⟩⟩
    have hstep₂ : CssStep env c u s₁ res.1 := by
      rw [hres]
      exact himp pr.1 s₁ c u p c (fun r hr => by rw [hpr] at hr; exact hr)
    have hurls := processUrls_step env pr.2 res.1 u p res.2 c
      (fun r hr => by rw [hpr] at hr; exact hr)
    have hstep₃ : CssStep env c u res.1 (processUrls env res.1 u p pr.2 res.2).1 :=
      hurls.1
    have humem : u ∈ (processUrls env res.1 u p pr.2 res.2).1.cssVisited := by
      have h1 : u ∈ s₁.cssVisited := by simp [hs₁]
      exact mem_of_cssStep_visited hstep₃ (mem_of_cssStep_visited hstep₂ h1)
    refine ⟨?_, fun _ => ?_, fun hvv _ => absurd hvv hv⟩
    · rw [heq]
      exact cssStep_trans (cssStep_trans hstep₁ hstep₂) hstep₃
    · rw [heq]
      exact humem

/-- The combined fuel-free effect contract at every fuel. -/
theorem processCSS_stepA (env : Env) (fuel : Nat) :
    PcssProp env fuel ∧ PimpProp env fuel := by
  induction fuel with
  | zero => exact ⟨pcss_zero env, pimp_of_pcss env 0 (pcss_zero env)⟩
  | succ fuel ih =>
    have hc := pcss_succ env fuel ih.2
    exact ⟨hc, pimp_of_pcss env (fuel + 1) hc⟩

/-! ## Termination and at-most-once invariants of the resolver -/

theorem mem_webDomain_of_lookup {env : Env} {u c : String}
    (h : lookupWeb env.web u = some c) : u ∈ webDomain env := by
  have := lookupWeb_mem h
  simp only [webDomain, List.mem_toFinset, List.mem_map]
  exact ⟨(u, c), this, rfl⟩

theorem unvisited_congr {env : Env} {s s' : RunState}
    (h : s'.cssVisited = s.cssVisited) : unvisited env s' = unvisited env s := by
  simp only [unvisited, h]

theorem unvisitedExcl_congr {env : Env} {s s' : RunState} {u : String}
    (h : s'.cssVisited = s.cssVisited) :
    unvisitedExcl env s' u = unvisitedExcl env s u := by
  simp only [unvisitedExcl, h]

theorem unvisited_mono {env : Env} {s s' : RunState}
    (h : ∃ t, s'.cssVisited = s.cssVisited ++ t) :
    unvisited env s' ≤ unvisited env s := by
  obtain ⟨t, ht⟩ := h
  apply Finset.card_le_card
  intro w hw
  simp only [unvisited, Finset.mem_filter, ht, List.mem_append] at hw ⊢
  exact ⟨hw.1, fun hmem => hw.2 (Or.inl hmem)⟩

theorem unvisited_marked {env : Env} {s s' : RunState} {u : String}
    (h : s'.cssVisited = s.cssVisited ++ [u]) :
    unvisited env s' = unvisitedExcl env s u := by
  unfold unvisited unvisitedExcl
  congr 1
  ext w
  simp only [Finset.mem_filter, h, List.mem_append, List.mem_singleton]
  constructor
  · rintro ⟨hd, hw⟩
    exact ⟨hd, fun hm => hw (Or.inl hm), fun he => hw (Or.inr he)⟩
  · rintro ⟨hd, h1, h2⟩
    refine ⟨hd, fun hm => ?_⟩
    rcases hm with hm | hm
    · exact h1 hm
    · exact h2 hm

theorem unvisitedExcl_lt {env : Env} {s : RunState} {u : String}
    (hd : u ∈ webDomain env) (hv : u ∉ s.cssVisited) :
    unvisitedExcl env s u + 1 ≤ unvisited env s := by
  have hsub : (webDomain env).filter (fun w => w ∉ s.cssVisited ∧ w ≠ u) ⊆
      ((webDomain env).filter (fun w => w ∉ s.cssVisited)).erase u := by
    intro w hw
    simp only [Finset.mem_filter, Finset.mem_erase] at hw ⊢
    exact ⟨hw.2.2, hw.1, hw.2.1⟩
  have hmem : u ∈ (webDomain env).filter (fun w => w ∉ s.cssVisited) := by
    simp only [Finset.mem_filter]
    exact ⟨hd, hv⟩
  calc unvisitedExcl env s u + 1
      ≤ (((webDomain env).filter (fun w => w ∉ s.cssVisited)).erase u).card + 1 :=
        Nat.add_le_add_right (Finset.card_le_card hsub) 1
    _ = unvisited env s := by
        rw [Finset.card_erase_of_mem hmem]
        have : 0 < unvisited env s := Finset.card_pos.mpr ⟨u, hmem⟩
        unfold unvisited at this ⊢
        omega

theorem qcss_zero (env : Env) : QcssProp env 0 := by
  intro s c u p hfuel
  omega

theorem qimp_of_qcss (env : Env) (fuel : Nat)
    (hcssA : PcssProp env fuel) (hQ : QcssProp env fuel) : QimpProp env fuel := by
  intro imports
  induction imports with
  | nil =>
    intro s cu cp acc _
    have heq : processImports env (fun s c u p => processCSS env fuel s c u p) s cu cp [] acc = (s, acc) := by
      simp only [processImports]
    rw [heq]
    exact ⟨rfl, fun h => h, fun v hv => Or.inl hv⟩
  | cons importPath rest ih =>
    intro s cu cp acc hfuel
    cases hres : resolveHref env.R importPath cu with
    | none =>
      have heq : processImports env (fun s c u p => processCSS env fuel s c u p) s cu cp (importPath :: rest) acc =
          processImports env (fun s c u p => processCSS env fuel s c u p) (addFailure s ("CSS @import: " ++ importPath)) cu cp rest acc := by
        simp only [processImports, hres]
      rw [heq]
      have hih := ih (addFailure s ("CSS @import: " ++ importPath)) cu cp acc hfuel
      exact ⟨hih.1, fun hg => hih.2.1 hg, fun v hv => hih.2.2 v hv⟩
    | some absoluteUrl =>
      -- common continuation once the import is fetched and recursed into
      have hcommon : ∀ (sA : RunState) (p0 acc' importContent : String),
          sA.cssVisited = s.cssVisited → sA.cssFetches = s.cssFetches →
          sA.cssWrites = s.cssWrites → sA.ranOut = s.ranOut →
          absoluteUrl ∉ s.cssVisited →
          lookupWeb env.web absoluteUrl = some importContent →
          (processImports env (fun s c u p => processCSS env fuel s c u p)
            (if (processCSS env fuel
                  { sA with events := sA.events ++ [.fetch absoluteUrl],
                            cssFetches := sA.cssFetches ++ [absoluteUrl] }
                  importContent absoluteUrl p0).2 ≠ "" then
              { (processCSS env fuel
                  { sA with events := sA.events ++ [.fetch absoluteUrl],
                            cssFetches := sA.cssFetches ++ [absoluteUrl] }
                  importContent absoluteUrl p0).1 with
                  saves := (processCSS env fuel
                    { sA with events := sA.events ++ [.fetch absoluteUrl],
                              cssFetches := sA.cssFetches ++ [absoluteUrl] }
                    importContent absoluteUrl p0).1.saves ++ ["css/" ++ p0],
                  files := (processCSS env fuel
                    { sA with events := sA.events ++ [.fetch absoluteUrl],
                              cssFetches := sA.cssFetches ++ [absoluteUrl] }
                    importContent absoluteUrl p0).1.files ++
                    [⟨"css/" ++ p0, "css",
                      (processCSS env fuel
                        { sA with events := sA.events ++ [.fetch absoluteUrl],
                                  cssFetches := sA.cssFetches ++ [absoluteUrl] }
                        importContent absoluteUrl p0).2.length, some absoluteUrl⟩],
                  cssWrites := (processCSS env fuel
                    { sA with events := sA.events ++ [.fetch absoluteUrl],
                              cssFetches := sA.cssFetches ++ [absoluteUrl] }
                    importContent absoluteUrl p0).1.cssWrites ++ [absoluteUrl] }
            else (processCSS env fuel
                  { sA with events := sA.events ++ [.fetch absoluteUrl],
                            cssFetches := sA.cssFetches ++ [absoluteUrl] }
                  importContent absoluteUrl p0).1)
            cu cp rest acc').1.ranOut = s.ranOut ∧
          (CssGood s →
            CssGood (processImports env (fun s c u p => processCSS env fuel s c u p)
              (if (processCSS env fuel
                    { sA with events := sA.events ++ [.fetch absoluteUrl],
                              cssFetches := sA.cssFetches ++ [absoluteUrl] }
                    importContent absoluteUrl p0).2 ≠ "" then
                { (processCSS env fuel
                    { sA with events := sA.events ++ [.fetch absoluteUrl],
                              cssFetches := sA.cssFetches ++ [absoluteUrl] }
                    importContent absoluteUrl p0).1 with
                    saves := (processCSS env fuel
                      { sA with events := sA.events ++ [.fetch absoluteUrl],
                                cssFetches := sA.cssFetches ++ [absoluteUrl] }
                      importContent absoluteUrl p0).1.saves ++ ["css/" ++ p0],
                    files := (processCSS env fuel
                      { sA with events := sA.events ++ [.fetch absoluteUrl],
                                cssFetches := sA.cssFetches ++ [absoluteUrl] }
                      importContent absoluteUrl p0).1.files ++
                      [⟨"css/" ++ p0, "css",
                        (processCSS env fuel
                          { sA with events := sA.events ++ [.fetch absoluteUrl],
                                    cssFetches := sA.cssFetches ++ [absoluteUrl] }
                          importContent absoluteUrl p0).2.length, some absoluteUrl⟩],
                    cssWrites := (processCSS env fuel
                      { sA with events := sA.events ++ [.fetch absoluteUrl],
                                cssFetches := sA.cssFetches ++ [absoluteUrl] }
                      importContent absoluteUrl p0).1.cssWrites ++ [absoluteUrl] }
              else (processCSS env fuel
                    { sA with events := sA.events ++ [.fetch absoluteUrl],
                              cssFetches := sA.cssFetches ++ [absoluteUrl] }
                    importContent absoluteUrl p0).1)
              cu cp rest acc').1) ∧
          (∀ v ∈ (processImports env (fun s c u p => processCSS env fuel s c u p)
              (if (processCSS env fuel
                    { sA with events := sA.events ++ [.fetch absoluteUrl],
                              cssFetches := sA.cssFetches ++ [absoluteUrl] }
                    importContent absoluteUrl p0).2 ≠ "" then
                { (processCSS env fuel
                    { sA with events := sA.events ++ [.fetch absoluteUrl],
                              cssFetches := sA.cssFetches ++ [absoluteUrl] }
                    importContent absoluteUrl p0).1 with
                    saves := (processCSS env fuel
                      { sA with events := sA.events ++ [.fetch absoluteUrl],
                                cssFetches := sA.cssFetches ++ [absoluteUrl] }
                      importContent absoluteUrl p0).1.saves ++ ["css/" ++ p0],
                    files := (processCSS env fuel
                      { sA with events := sA.events ++ [.fetch absoluteUrl],
                                cssFetches := sA.cssFetches ++ [absoluteUrl] }
                      importContent absoluteUrl p0).1.files ++
                      [⟨"css/" ++ p0, "css",
                        (processCSS env fuel
                          { sA with events := sA.events ++ [.fetch absoluteUrl],
                                    cssFetches := sA.cssFetches ++ [absoluteUrl] }
                          importContent absoluteUrl p0).2.length, some absoluteUrl⟩],
                    cssWrites := (processCSS env fuel
                      { sA with events := sA.events ++ [.fetch absoluteUrl],
                                cssFetches := sA.cssFetches ++ [absoluteUrl] }
                      importContent absoluteUrl p0).1.cssWrites ++ [absoluteUrl] }
              else (processCSS env fuel
                    { sA with events := sA.events ++ [.fetch absoluteUrl],
                              cssFetches := sA.cssFetches ++ [absoluteUrl] }
                    importContent absoluteUrl p0).1)
              cu cp rest acc').1.cssWrites,
            v ∈ s.cssWrites ∨ v ∉ s.cssVisited) := by
        intro sA p0 acc' importContent hV hF hW hR hv hweb
        set sF : RunState :=
          { sA with events := sA.events ++ [.fetch absoluteUrl],
                    cssFetches := sA.cssFetches ++ [absoluteUrl] } with hsF
        have hsFv : sF.cssVisited = s.cssVisited := hV
        have hdom := mem_webDomain_of_lookup hweb
        have hfz : fuel ≠ 0 := by
          have hpos : 0 < unvisited env s := by
            apply Finset.card_pos.mpr
            exact ⟨absoluteUrl, by simp only [Finset.mem_filter]; exact ⟨hdom, hv⟩⟩
          omega
        have huE : fuel ≥ 1 + unvisitedExcl env sF absoluteUrl := by
          have h1 : unvisitedExcl env sF absoluteUrl = unvisitedExcl env s absoluteUrl :=
            unvisitedExcl_congr hsFv
          have h2 := unvisitedExcl_lt hdom hv
          omega
        have hq := hQ sF importContent absoluteUrl p0 huE
        have hA := hcssA sF importContent absoluteUrl p0
        have hamem : absoluteUrl ∈
            (processCSS env fuel sF importContent absoluteUrl p0).1.cssVisited :=
          hA.2.1 hfz
        obtain ⟨-, ⟨tg, htg⟩, -, -⟩ := hA.1
        set res := processCSS env fuel sF importContent absoluteUrl p0 with hres2
        have hresv : res.1.cssVisited = s.cssVisited ++ tg := by
          rw [← hsFv]; exact htg
        -- the state passed to the loop continuation
        have hpre : CssGood s → CssPre sF absoluteUrl := by
          intro hg
          refine ⟨?_, ?_, ?_, ?_⟩
          · have : sF.cssFetches = s.cssFetches ++ [absoluteUrl] := by
              rw [hsF]; simp [hF]
            rw [this, List.nodup_append]
            refine ⟨hg.1, List.nodup_singleton _, ?_⟩
            intro a ha hax
            simp only [List.mem_singleton] at hax
            subst hax
            exact hv (hg.2.1 a ha)
          · intro v hvv
            have : sF.cssFetches = s.cssFetches ++ [absoluteUrl] := by
              rw [hsF]; simp [hF]
            rw [this, List.mem_append, List.mem_singleton] at hvv
            rcases hvv with hvv | hvv
            · exact Or.inl (by rw [hsFv]; exact hg.2.1 v hvv)
            · exact Or.inr hvv
          · have : sF.cssWrites = s.cssWrites := hW
            rw [this]; exact hg.2.2.1
          · intro v hvv
            have hws : sF.cssWrites = s.cssWrites := hW
            rw [hws] at hvv
            rw [hsFv]
            exact hg.2.2.2 v hvv
        by_cases hne : res.2 ≠ ""
        · rw [if_pos hne]
          set s₂ : RunState :=
            { res.1 with saves := res.1.saves ++ ["css/" ++ p0],
                         files := res.1.files ++
                           [⟨"css/" ++ p0, "css", res.2.length, some absoluteUrl⟩],
                         cssWrites := res.1.cssWrites ++ [absoluteUrl] } with hs₂
          have hs₂v : s₂.cssVisited = res.1.cssVisited := rfl
          have hfuel₂ : fuel ≥ unvisited env s₂ := by
            have : unvisited env s₂ ≤ unvisited env s := by
              apply unvisited_mono
              exact ⟨tg, by rw [hs₂v, hresv]⟩
            omega
          have hih := ih s₂ cu cp acc' hfuel₂
          have hnw : ∀ v ∈ res.1.cssWrites, v ∈ s.cssWrites ∨ (v ∉ s.cssVisited ∧ v ≠ absoluteUrl) := by
            intro v hvv
            have := hq.2.2 v hvv
            rcases this with h1 | h1
            · exact Or.inl (by rw [hW] at h1; exact h1)
            · exact Or.inr ⟨by rw [hsFv] at h1; exact h1.1, h1.2⟩
          refine ⟨?_, ?_, ?_⟩
          · rw [hih.1]
            show res.1.ranOut = s.ranOut
            rw [hq.1]
            show sA.ranOut = s.ranOut
            exact hR
          · intro hg
            apply hih.2.1
            have hgr : CssGood res.1 := hq.2.1 (hpre hg)
            have hnwa : absoluteUrl ∉ res.1.cssWrites := by
              intro hmem
              rcases hnw absoluteUrl hmem with h1 | h1
              · exact hv (hg.2.2.2 absoluteUrl h1)
              · exact h1.2 rfl
            refine ⟨hgr.1, ?_, ?_, ?_⟩
            · intro v hvv
              rw [hs₂v]
              exact hgr.2.1 v hvv
            · show (res.1.cssWrites ++ [absoluteUrl]).Nodup
              rw [List.nodup_append]
              refine ⟨hgr.2.2.1, List.nodup_singleton _, ?_⟩
              intro a ha hax
              simp only [List.mem_singleton] at hax
              subst hax
              exact hnwa ha
            · intro v hvv
              show v ∈ res.1.cssVisited
              rcases List.mem_append.mp hvv with h1 | h1
              · exact hgr.2.2.2 v h1
              · simp only [List.mem_singleton] at h1
                subst h1
                exact hamem
          · intro v hvv
            rcases hih.2.2 v hvv with h1 | h1
            · rcases List.mem_append.mp h1 with h2 | h2
              · rcases hnw v h2 with h3 | h3
                · exact Or.inl h3
                · exact Or.inr h3.1
              · simp only [List.mem_singleton] at h2
                subst h2
                exact Or.inr hv
            · rw [hs₂v, hresv] at h1
              exact Or.inr (fun hm => h1 (List.mem_append_left tg hm))
        · rw [if_neg hne]
          have hfuel₂ : fuel ≥ unvisited env res.1 := by
            have : unvisited env res.1 ≤ unvisited env s := by
              apply unvisited_mono
              exact ⟨tg, hresv⟩
            omega
          have hih := ih res.1 cu cp acc' hfuel₂
          refine ⟨?_, ?_, ?_⟩
          · rw [hih.1, hq.1]
            exact hR
          · intro hg
            exact hih.2.1 (hq.2.1 (hpre hg))
          · intro v hvv
            rcases hih.2.2 v hvv with h1 | h1
            · rcases hq.2.2 v h1 with h2 | h2
              · exact Or.inl (by rw [hW] at h2; exact h2)
              · exact Or.inr (by rw [hsFv] at h2; exact h2.1)
            · rw [hresv] at h1
              exact Or.inr (fun hm => h1 (List.mem_append_left tg hm))
      -- now the actual branches
      cases hpm : lookupAssoc s.cssPathMap absoluteUrl with
      | some p0 =>
        by_cases hv : absoluteUrl ∈ s.cssVisited
        · have heq : processImports env (fun s c u p => processCSS env fuel s c u p) s cu cp (importPath :: rest) acc =
              processImports env (fun s c u p => processCSS env fuel s c u p) s cu cp rest
                (rewriteImportStmt acc importPath p0 cp) := by
            simp only [processImports, hres, hpm, if_pos hv]
          rw [heq]
          exact ih s cu cp _ hfuel
        · cases hweb : lookupWeb env.web absoluteUrl with
          | none =>
            have heq : processImports env (fun s c u p => processCSS env fuel s c u p) s cu cp (importPath :: rest) acc =
                processImports env (fun s c u p => processCSS env fuel s c u p) (addFailure s ("CSS @import: " ++ importPath)) cu cp rest acc := by
              simp only [processImports, hres, hpm, if_neg hv, hweb]
            rw [heq]
            have hih := ih (addFailure s ("CSS @import: " ++ importPath)) cu cp acc hfuel
            exact ⟨hih.1, fun hg => hih.2.1 hg, fun v hv' => hih.2.2 v hv'⟩
          | some importContent =>
            have heq : processImports env (fun s c u p => processCSS env fuel s c u p) s cu cp (importPath :: rest) acc =
                processImports env (fun s c u p => processCSS env fuel s c u p)
                  (if (processCSS env fuel
                        { s with events := s.events ++ [.fetch absoluteUrl],
                                 cssFetches := s.cssFetches ++ [absoluteUrl] }
                        importContent absoluteUrl p0).2 ≠ "" then
                    { (processCSS env fuel
                        { s with events := s.events ++ [.fetch absoluteUrl],
                                 cssFetches := s.cssFetches ++ [absoluteUrl] }
                        importContent absoluteUrl p0).1 with
                        saves := (processCSS env fuel
                          { s with events := s.events ++ [.fetch absoluteUrl],
                                   cssFetches := s.cssFetches ++ [absoluteUrl] }
                          importContent absoluteUrl p0).1.saves ++ ["css/" ++ p0],
                        files := (processCSS env fuel
                          { s with events := s.events ++ [.fetch absoluteUrl],
                                   cssFetches := s.cssFetches ++ [absoluteUrl] }
                          importContent absoluteUrl p0).1.files ++
                          [⟨"css/" ++ p0, "css",
                            (processCSS env fuel
                              { s with events := s.events ++ [.fetch absoluteUrl],
                                       cssFetches := s.cssFetches ++ [absoluteUrl] }
                              importContent absoluteUrl p0).2.length, some absoluteUrl⟩],
                        cssWrites := (processCSS env fuel
                          { s with events := s.events ++ [.fetch absoluteUrl],
                                   cssFetches := s.cssFetches ++ [absoluteUrl] }
                          importContent absoluteUrl p0).1.cssWrites ++ [absoluteUrl] }
                  else (processCSS env fuel
                        { s with events := s.events ++ [.fetch absoluteUrl],
                                 cssFetches := s.cssFetches ++ [absoluteUrl] }
                        importContent absoluteUrl p0).1)
                  cu cp rest (rewriteImportStmt acc importPath p0 cp) := by
              simp only [processImports, hres, hpm, if_neg hv, hweb]
            rw [heq]
            exact hcommon s p0 (rewriteImportStmt acc importPath p0 cp) importContent
              rfl rfl rfl rfl hv hweb
      | none =>
        set p0 := getLocalPath env.R importPath absoluteUrl with hp0
        set s₀ : RunState :=
          { s with cssPathMap := s.cssPathMap ++ [(absoluteUrl, p0)] } with hs₀
        have hs₀v : s₀.cssVisited = s.cssVisited := rfl
        by_cases hv : absoluteUrl ∈ s.cssVisited
        · have heq : processImports env (fun s c u p => processCSS env fuel s c u p) s cu cp (importPath :: rest) acc =
              processImports env (fun s c u p => processCSS env fuel s c u p) s₀ cu cp rest
                (rewriteImportStmt acc importPath p0 cp) := by
            simp only [processImports, hres, hpm, hs₀, hp0, if_pos hv]
          rw [heq]
          have hih := ih s₀ cu cp (rewriteImportStmt acc importPath p0 cp) hfuel
          exact ⟨hih.1, fun hg => hih.2.1 hg, fun v hv' => hih.2.2 v hv'⟩
        · cases hweb : lookupWeb env.web absoluteUrl with
          | none =>
            have heq : processImports env (fun s c u p => processCSS env fuel s c u p) s cu cp (importPath :: rest) acc =
                processImports env (fun s c u p => processCSS env fuel s c u p) (addFailure s₀ ("CSS @import: " ++ importPath)) cu cp rest acc := by
              simp only [processImports, hres, hpm, hs₀, hp0, if_neg hv, hweb]
            rw [heq]
            have hih := ih (addFailure s₀ ("CSS @import: " ++ importPath)) cu cp acc hfuel
            exact ⟨hih.1, fun hg => hih.2.1 hg, fun v hv' => hih.2.2 v hv'⟩
          | some importContent =>
            have heq : processImports env (fun s c u p => processCSS env fuel s c u p) s cu cp (importPath :: rest) acc =
                processImports env (fun s c u p => processCSS env fuel s c u p)
                  (if (processCSS env fuel
                        { s₀ with events := s₀.events ++ [.fetch absoluteUrl],
                                  cssFetches := s₀.cssFetches ++ [absoluteUrl] }
                        importContent absoluteUrl p0).2 ≠ "" then
                    { (processCSS env fuel
                        { s₀ with events := s₀.events ++ [.fetch absoluteUrl],
                                  cssFetches := s₀.cssFetches ++ [absoluteUrl] }
                        importContent absoluteUrl p0).1 with
                        saves := (processCSS env fuel
                          { s₀ with events := s₀.events ++ [.fetch absoluteUrl],
                                    cssFetches := s₀.cssFetches ++ [absoluteUrl] }
                          importContent absoluteUrl p0).1.saves ++ ["css/" ++ p0],
                        files := (processCSS env fuel
                          { s₀ with events := s₀.events ++ [.fetch absoluteUrl],
                                    cssFetches := s₀.cssFetches ++ [absoluteUrl] }
                          importContent absoluteUrl p0).1.files ++
                          [⟨"css/" ++ p0, "css",
                            (processCSS env fuel
                              { s₀ with events := s₀.events ++ [.fetch absoluteUrl],
                                        cssFetches := s₀.cssFetches ++ [absoluteUrl] }
                              importContent absoluteUrl p0).2.length, some absoluteUrl⟩],
                        cssWrites := (processCSS env fuel
                          { s₀ with events := s₀.events ++ [.fetch absoluteUrl],
                                    cssFetches := s₀.cssFetches ++ [absoluteUrl] }
                          importContent absoluteUrl p0).1.cssWrites ++ [absoluteUrl] }
                  else (processCSS env fuel
                        { s₀ with events := s₀.events ++ [.fetch absoluteUrl],
                                  cssFetches := s₀.cssFetches ++ [absoluteUrl] }
                        importContent absoluteUrl p0).1)
                  cu cp rest (rewriteImportStmt acc importPath p0 cp) := by
              simp only [processImports, hres, hpm, hs₀, hp0, if_neg hv, hweb]
            rw [heq]
            exact hcommon s₀ p0 (rewriteImportStmt acc importPath p0 cp) importContent
              rfl rfl rfl rfl hv hweb

theorem qcss_succ (env : Env) (fuel : Nat) (hQi : QimpProp env fuel) :
    QcssProp env (fuel + 1) := by
  intro s c u p hfuel
  by_cases hv : u ∈ s.cssVisited
  · have heq : processCSS env (fuel + 1) s c u p = (s, "") := by
      simp only [processCSS, if_pos hv]
    rw [heq]
    refine ⟨rfl, fun hpre => ⟨hpre.1, ?_, hpre.2.2.1, hpre.2.2.2⟩, fun v hv' => Or.inl hv'⟩
    intro v hvv
    rcases hpre.2.1 v hvv with h1 | h1
    · exact h1
    · exact h1 ▸ hv
  · set s₁ : RunState :=
      { s with cssVisited := s.cssVisited ++ [u],
               cssPathMap := s.cssPathMap ++ [(u, p)] } with hs₁
    set pr := env.parseCSSForResources c with hpr
    set res := processImports env (fun s c u p => processCSS env fuel s c u p) s₁ u p pr.1 c with hresI
    have heq : processCSS env (fuel + 1) s c u p =
        processUrls env res.1 u p pr.2 res.2 := by
      simp only [processCSS, if_neg hv, hs₁, hpr, ← hresI]
    rw [heq]
    have hfuel₁ : fuel ≥ unvisited env s₁ := by
      have h1 : unvisited env s₁ = unvisitedExcl env s u := unvisited_marked (by rw [hs₁])
      omega
    have hqi := hQi pr.1 s₁ u p c hfuel₁
    have hurls := processUrls_step env pr.2 res.1 u p res.2 c
      (fun r hr => by rw [hpr] at hr; exact hr)
    refine ⟨?_, ?_, ?_⟩
    · rw [hurls.2.2.2.2.2, hqi.1]
    · intro hpre
      have hg₁ : CssGood s₁ := by
        refine ⟨hpre.1, ?_, hpre.2.2.1, ?_⟩
        · intro v hvv
          show v ∈ s.cssVisited ++ [u]
          rw [List.mem_append, List.mem_singleton]
          exact hpre.2.1 v hvv
        · intro v hvv
          show v ∈ s.cssVisited ++ [u]
          rw [List.mem_append, List.mem_singleton]
          exact Or.inl (hpre.2.2.2 v hvv)
      have hgr := hqi.2.1 hg₁
      exact ⟨by rw [hurls.2.2.1]; exact hgr.1,
        by intro v hvv; rw [hurls.2.2.1] at hvv; rw [hurls.2.1]; exact hgr.2.1 v hvv,
        by rw [hurls.2.2.2.1]; exact hgr.2.2.1,
        by intro v hvv; rw [hurls.2.2.2.1] at hvv; rw [hurls.2.1]; exact hgr.2.2.2 v hvv⟩
    · intro v hvv
      rw [hurls.2.2.2.1] at hvv
      rcases hqi.2.2 v hvv with h1 | h1
      · exact Or.inl h1
      · right
        rw [hs₁] at h1
        simp only [List.mem_append, List.mem_singleton, not_or] at h1
        exact h1

/-- The combined invariant contract at every fuel. -/
theorem processCSS_invariants (env : Env) (fuel : Nat) :
    QcssProp env fuel ∧ QimpProp env fuel := by
  induction fuel with
  | zero =>
    exact ⟨qcss_zero env, qimp_of_qcss env 0 (processCSS_stepA env 0).1 (qcss_zero env)⟩
  | succ fuel ih =>
    have hq := qcss_succ env fuel ih.2
    exact ⟨hq, qimp_of_qcss env (fuel + 1) (processCSS_stepA env (fuel + 1)).1 hq⟩

/-! ## Effect lemmas for the resource phases -/

/-- What one resource phase does to the loop bookkeeping: the
progress log grows by a non-decreasing run of band values, the
download counter grows by at most the item count, the status and
return flag change only to `paused`, and a pause exit leaves the
triggering check as the last event. -/
theorem resourceLoop_log (env : Env) (pageUrl : String) (total base span : Nat)
    (failTag : String) (handle : RunState → String → String → String → RunState)
    (Htame : Tame handle) :
    ∀ (items : List String) (s : RunState),
      ∃ d, (resourceLoop env pageUrl total base span failTag handle items s).progressLog
          = s.progressLog ++ d ∧
        List.Chain' (· ≤ ·) ((base + s.downloadedCount * span / total) :: d) ∧
        (∀ x ∈ d, base ≤ x) ∧
        (s.downloadedCount + items.length ≤ total → ∀ x ∈ d, x ≤ base + span) ∧
        (resourceLoop env pageUrl total base span failTag handle items s).downloadedCount
          ≤ s.downloadedCount + items.length ∧
        (NoPause env →
          (resourceLoop env pageUrl total base span failTag handle items s).returned
            = s.returned ∧
          (resourceLoop env pageUrl total base span failTag handle items s).status
            = s.status) ∧
        ((resourceLoop env pageUrl total base span failTag handle items s).status
            = s.status ∨
          (resourceLoop env pageUrl total base span failTag handle items s).status
            = "paused") ∧
        ((resourceLoop env pageUrl total base span failTag handle items s).returned
            = s.returned ∨
          (resourceLoop env pageUrl total base span failTag handle items s).returned
            = true) ∧
        ((resourceLoop env pageUrl total base span failTag handle items s).status
            = "paused" → s.status ≠ "paused" →
          (resourceLoop env pageUrl total base span failTag handle items s).returned
            = true ∧
          (resourceLoop env pageUrl total base span failTag handle items s).events.getLast?
            = some (.check true)) := by
  intro items
  induction items with
  | nil =>
    intro s
    have heq : resourceLoop env pageUrl total base span failTag handle [] s = s := rfl
    rw [heq]
    refine ⟨[], by simp, ?_, by simp, by simp, by omega, fun _ => ⟨rfl, rfl⟩,
      Or.inl rfl, Or.inl rfl, fun hp hs => absurd hp hs⟩
    exact List.chain'_singleton _
  | cons href rest ih =>
    intro s
    cases hb : env.pausedAt s.pauseChecks with
    | true =>
      have heq : resourceLoop env pageUrl total base span failTag handle (href :: rest) s =
          markPaused
            { s with events := s.events ++ [.check true], pauseChecks := s.pauseChecks + 1 } := by
        simp [resourceLoop, pauseCheck, hb]
      rw [heq]
      refine ⟨[], by simp [markPaused], List.chain'_singleton _, by simp, by simp,
        by exact Nat.le_add_right _ _, ?_, Or.inr rfl, Or.inr rfl, ?_⟩
      · intro hnp
        exact absurd hb (by simp [hnp s.pauseChecks])
      · intro _ _
        refine ⟨rfl, ?_⟩
        show (s.events ++ [Ev.check true]).getLast? = some (.check true)
        simp
    | false =>
      set s₁ : RunState :=
        { s with events := s.events ++ [.check false], pauseChecks := s.pauseChecks + 1 }
        with hs₁
      cases hres : resolveHref env.R href pageUrl with
      | none =>
        have heq : resourceLoop env pageUrl total base span failTag handle (href :: rest) s =
            resourceLoop env pageUrl total base span failTag handle rest
              (addFailure s₁ (failTag ++ ": " ++ href)) := by
          simp [resourceLoop, pauseCheck, hb, hres, hs₁]
        rw [heq]
        obtain ⟨d, hd, hchain, hlo, hhi, hdc, hnp, hst, hret, hpa⟩ :=
          ih (addFailure s₁ (failTag ++ ": " ++ href))
        refine ⟨d, hd, hchain, hlo, ?_, ?_, hnp, hst, hret, hpa⟩
        · intro hle
          apply hhi
          show s.downloadedCount + rest.length ≤ total
          simp only [List.length_cons] at hle
          omega
        · have h2 : (addFailure s₁ (failTag ++ ": " ++ href)).downloadedCount
              = s.downloadedCount := rfl
          rw [h2] at hdc
          simp only [List.length_cons]
          omega
      | some absoluteUrl =>
        cases hlook : lookupWeb env.web absoluteUrl with
        | none =>
          have heq : resourceLoop env pageUrl total base span failTag handle (href :: rest) s =
              resourceLoop env pageUrl total base span failTag handle rest
                (addFailure s₁ (failTag ++ ": " ++ href)) := by
            simp [resourceLoop, pauseCheck, hb, hres, hlook, hs₁]
          rw [heq]
          obtain ⟨d, hd, hchain, hlo, hhi, hdc, hnp, hst, hret, hpa⟩ :=
            ih (addFailure s₁ (failTag ++ ": " ++ href))
          refine ⟨d, hd, hchain, hlo, ?_, ?_, hnp, hst, hret, hpa⟩
          · intro hle
            apply hhi
            show s.downloadedCount + rest.length ≤ total
            simp only [List.length_cons] at hle
            omega
          · have h2 : (addFailure s₁ (failTag ++ ": " ++ href)).downloadedCount
                = s.downloadedCount := rfl
            rw [h2] at hdc
            simp only [List.length_cons]
            omega
        | some content =>
          set sh := handle (recordFetch s₁ absoluteUrl) href absoluteUrl content with hsh
          have htame := Htame (recordFetch s₁ absoluteUrl) href absoluteUrl content
          rw [← hsh] at htame
          set v := base + (sh.downloadedCount + 1) * span / total with hv
          set s₂ : RunState :=
            report { sh with downloadedCount := sh.downloadedCount + 1 } v with hs₂
          have hdceq : sh.downloadedCount = s.downloadedCount := htame.2.1
          have hv' : v = base + (s.downloadedCount + 1) * span / total := by
            rw [hv, hdceq]
          have heq : resourceLoop env pageUrl total base span failTag handle (href :: rest) s =
              resourceLoop env pageUrl total base span failTag handle rest s₂ := by
            simp [resourceLoop, pauseCheck, hb, hres, hlook, hs₂, hv, hsh, hs₁, report]
          rw [heq]
          have hlog₂ : s₂.progressLog = s.progressLog ++ [v] := by
            have h1 : sh.progressLog = s.progressLog := htame.1
            show sh.progressLog ++ [v] = s.progressLog ++ [v]
            rw [h1]
          have hdc₂ : s₂.downloadedCount = s.downloadedCount + 1 := by
            show sh.downloadedCount + 1 = s.downloadedCount + 1
            omega
          have hst₂ : s₂.status = s.status := htame.2.2.2.1
          have hret₂ : s₂.returned = s.returned := htame.2.2.1
          obtain ⟨d, hd, hchain, hlo, hhi, hdc, hnp, hst, hret, hpa⟩ := ih s₂
          refine ⟨v :: d, ?_, ?_, ?_, ?_, ?_, ?_, ?_, ?_, ?_⟩
          · rw [hd, hlog₂, List.append_assoc]
            rfl
          · rw [hdc₂, ← hv'] at hchain
            refine List.chain'_cons.mpr ⟨?_, hchain⟩
            rw [hv']
            have h1 : s.downloadedCount * span ≤ (s.downloadedCount + 1) * span :=
              Nat.mul_le_mul_right span (by omega)
            have h2 : s.downloadedCount * span / total ≤ (s.downloadedCount + 1) * span / total :=
              Nat.div_le_div_right h1
            omega
          · intro x hx
            rcases List.mem_cons.mp hx with rfl | hx
            · rw [hv']
              exact Nat.le_add_right _ _
            · exact hlo x hx
          · intro hle x hx
            simp only [List.length_cons] at hle
            have htot : 0 < total := by omega
            rcases List.mem_cons.mp hx with rfl | hx
            · rw [hv']
              have h1 : (s.downloadedCount + 1) * span ≤ total * span :=
                Nat.mul_le_mul_right span (by omega)
              have h2 : (s.downloadedCount + 1) * span / total ≤ total * span / total :=
                Nat.div_le_div_right h1
              have h3 : total * span / total = span := Nat.mul_div_cancel_left span htot
              omega
            · apply hhi _ x hx
              rw [hdc₂]
              omega
          · rw [hdc₂] at hdc
            simp only [List.length_cons]
            omega
          · intro hNP
            obtain ⟨h1, h2⟩ := hnp hNP
            exact ⟨h1.trans hret₂, h2.trans hst₂⟩
          · rcases hst with h | h
            · exact Or.inl (h.trans hst₂)
            · exact Or.inr h
          · rcases hret with h | h
            · exact Or.inl (h.trans hret₂)
            · exact Or.inr h
          · intro hp hsne
            exact hpa hp (by rw [hst₂]; exact hsne)

theorem tame_fontHandler (env : Env) (pageUrl : String) : Tame (fontHandler env pageUrl) :=
  fun _ _ _ _ => ⟨rfl, rfl, rfl, rfl, rfl⟩

theorem tame_iconHandler (env : Env) (pageUrl : String) : Tame (iconHandler env pageUrl) :=
  fun _ _ _ _ => ⟨rfl, rfl, rfl, rfl, rfl⟩

theorem tame_jsHandler (env : Env) (pageUrl : String) : Tame (jsHandler env pageUrl) :=
  fun _ _ _ _ => ⟨rfl, rfl, rfl, rfl, rfl⟩

theorem tame_imgHandler (env : Env) (pageUrl : String) : Tame (imgHandler env pageUrl) :=
  fun _ _ _ _ => ⟨rfl, rfl, rfl, rfl, rfl⟩

theorem tame_cssHandler (env : Env) (pageUrl : String) : Tame (cssHandler env pageUrl) := by
  intro s h a c
  obtain ⟨hp, -, -, -⟩ :=
    ((processCSS_stepA env (cssFuel env)).1 s c a (getLocalPath env.R h pageUrl)).1
  obtain ⟨h1, h2, h3, h4, h5, -, -, -, -⟩ := hp
  refine ⟨?_, ?_, ?_, ?_, ?_⟩ <;>
    · simp only [cssHandler]
      split <;> assumption

/-- A progress-report fold only appends to the log. -/
theorem foldl_report (f : Nat → Nat) : ∀ (vals : List Nat) (s : RunState),
    vals.foldl (fun s v => report s (f v)) s =
      { s with progressLog := s.progressLog ++ vals.map f } := by
  intro vals
  induction vals with
  | nil => intro s; simp
  | cons v rest ih =>
    intro s
    rw [List.foldl_cons, ih]
    simp [report]

/-- The bookkeeping facts of the sub-page loop: it only appends
progress values in the 90–98 band, pauses cleanly, and leaves status
and return flag alone otherwise. -/
theorem subLoop_log (env : Env) :
    ∀ (links : List String) (n i : Nat) (s : RunState),
      (∃ t, (subLoop env links n i s).progressLog = s.progressLog ++ t) ∧
      (NoPause env →
        (subLoop env links n i s).returned = s.returned ∧
        (subLoop env links n i s).status = s.status) ∧
      ((subLoop env links n i s).status = s.status ∨
        (subLoop env links n i s).status = "paused") ∧
      ((subLoop env links n i s).returned = s.returned ∨
        (subLoop env links n i s).returned = true) ∧
      ((subLoop env links n i s).status = "paused" → s.status ≠ "paused" →
        (subLoop env links n i s).returned = true ∧
        (subLoop env links n i s).events.getLast? = some (.check true)) := by
  intro links
  induction links with
  | nil =>
    intro n i s
    exact ⟨⟨[], by simp [subLoop]⟩, fun _ => ⟨rfl, rfl⟩, Or.inl rfl, Or.inl rfl,
      fun hp hs => absurd hp hs⟩
  | cons link rest ih =>
    intro n i s
    cases hb : env.pausedAt s.pauseChecks with
    | true =>
      have heq : subLoop env (link :: rest) n i s =
          markPaused
            { s with events := s.events ++ [.check true], pauseChecks := s.pauseChecks + 1 } := by
        simp [subLoop, pauseCheck, hb]
      rw [heq]
      refine ⟨⟨[], by simp [markPaused]⟩, ?_, Or.inr rfl, Or.inr rfl, ?_⟩
      · intro hnp
        exact absurd hb (by simp [hnp s.pauseChecks])
      · intro _ _
        refine ⟨rfl, ?_⟩
        show (s.events ++ [Ev.check true]).getLast? = some (.check true)
        simp
    | false =>
      set s₁ : RunState :=
        { s with events := s.events ++ [.check false], pauseChecks := s.pauseChecks + 1 }
        with hs₁
      set v := 90 + i * 8 / n with hv
      set s₂ := report s₁ v with hs₂
      set res := cloneSinglePage env link s₂ with hres
      set s₃ := if res.2 then report res.1 v else res.1 with hs₃
      have heq : subLoop env (link :: rest) n i s = subLoop env rest n (i + 1) s₃ := by
        simp only [subLoop, pauseCheck, hb, hs₃, hres, hs₂, hv, hs₁]
        simp
      rw [heq]
      have h₃ : s₃.returned = s.returned ∧ s₃.status = s.status := by
        rw [hs₃]
        have hcs : res.1.returned = s.returned ∧ res.1.status = s.status := by
          rw [hres]
          unfold cloneSinglePage
          cases lookupWeb env.web link with
          | none => exact ⟨rfl, rfl⟩
          | some html =>
            cases env.parseAbs link with
            | none => exact ⟨rfl, rfl⟩
            | some u => exact ⟨rfl, rfl⟩
        split
        · exact ⟨hcs.1, hcs.2⟩
        · exact hcs
      have h₃log : ∃ t, s₃.progressLog = s.progressLog ++ t := by
        rw [hs₃]
        have hclog : res.1.progressLog = s₂.progressLog := by
          rw [hres]
          unfold cloneSinglePage
          cases lookupWeb env.web link with
          | none => rfl
          | some html =>
            cases env.parseAbs link with
            | none => rfl
            | some u => rfl
        split
        · exact ⟨[v] ++ [v], by simp [report, hclog, hs₂]⟩
        · exact ⟨[v], by simp [hclog, hs₂, report]⟩
      obtain ⟨hlog, hnp, hst, hret, hpa⟩ := ih n (i + 1) s₃
      refine ⟨?_, ?_, ?_, ?_, ?_⟩
      · obtain ⟨t₁, ht₁⟩ := h₃log
        obtain ⟨t₂, ht₂⟩ := hlog
        exact ⟨t₁ ++ t₂, by rw [ht₂, ht₁, List.append_assoc]⟩
      · intro hNP
        obtain ⟨h1, h2⟩ := hnp hNP
        exact ⟨h1.trans h₃.1, h2.trans h₃.2⟩
      · rcases hst with h | h
        · exact Or.inl (h.trans h₃.2)
        · exact Or.inr h
      · rcases hret with h | h
        · exact Or.inl (h.trans h₃.1)
        · exact Or.inr h
      · intro hp hsne
        exact hpa hp (by rw [h₃.2]; exact hsne)

/-- The crawl phase keeps the status inside the expected set and
pauses cleanly; with the pause flag never raised and a parsable job
URL it cannot change status or return flag. -/
theorem crawlPhase_log (env : Env) (url : String) (crawlDepth : Nat) (doc : Doc)
    (s : RunState) :
    (∃ t, (crawlPhase env url crawlDepth doc s).progressLog = s.progressLog ++ t) ∧
    (NoPause env → (crawlDepth > 0 → (env.parseAbs url).isSome) →
      (crawlPhase env url crawlDepth doc s).returned = s.returned ∧
      (crawlPhase env url crawlDepth doc s).status = s.status) ∧
    ((crawlPhase env url crawlDepth doc s).status = s.status ∨
      (crawlPhase env url crawlDepth doc s).status = "paused" ∨
      (crawlPhase env url crawlDepth doc s).status = "error") ∧
    ((crawlPhase env url crawlDepth doc s).status = "paused" → s.status ≠ "paused" →
      (crawlPhase env url crawlDepth doc s).returned = true ∧
      (crawlPhase env url crawlDepth doc s).events.getLast? = some (.check true)) := by
  by_cases hcd : crawlDepth > 0
  · cases hpa : env.parseAbs url with
    | none =>
      have heq : crawlPhase env url crawlDepth doc s =
          markError (report s 88) ("Invalid URL: " ++ url) := by
        simp [crawlPhase, hcd, extractLinks, hpa]
      rw [heq]
      refine ⟨⟨[88], by simp [markError, report]⟩, ?_, Or.inr (Or.inr rfl), ?_⟩
      · intro _ hps
        have h2 := hps hcd
        simp at h2
      · intro hp
        simp [markError, report] at hp
    | some base =>
      rcases hex : extractLinks env doc.anchorHrefs url with _ | links
      · exfalso
        unfold extractLinks at hex
        rw [hpa] at hex
        simp at hex
      · have heq : crawlPhase env url crawlDepth doc s =
            subLoop env (links.take 10) (links.take 10).length 0
              (report (report s 88) 90) := by
          simp [crawlPhase, hcd, hex]
        rw [heq]
        obtain ⟨⟨t, ht⟩, hnp, hst, -, hpa'⟩ :=
          subLoop_log env (links.take 10) (links.take 10).length 0
            (report (report s 88) 90)
        refine ⟨⟨[88] ++ [90] ++ t, by rw [ht]; simp [report]⟩, ?_, ?_, ?_⟩
        · intro hNP _
          obtain ⟨h1, h2⟩ := hnp hNP
          exact ⟨h1, h2⟩
        · rcases hst with h | h
          · exact Or.inl h
          · exact Or.inr (Or.inl h)
        · intro hp hsne
          exact hpa' hp (by show s.status ≠ "paused"; exact hsne)
  · have heq : crawlPhase env url crawlDepth doc s = s := by
      simp [crawlPhase, hcd]
    rw [heq]
    exact ⟨⟨[], by simp⟩, fun _ _ => ⟨rfl, rfl⟩, Or.inl rfl, fun hp hs => absurd hp hs⟩

/-! ## Phase composition -/

theorem weakOk_refl (P E : Prop) (s : RunState) : WeakOk P E s s :=
  ⟨⟨[], by simp⟩, fun _ => ⟨rfl, rfl⟩, Or.inl rfl, Or.inl rfl, fun _ => rfl,
    fun hp hs => absurd hp hs⟩

theorem weakOk_mono {P E₁ E₂ : Prop} {s s' : RunState}
    (h : WeakOk P E₁ s s') (hE : E₁ → E₂) : WeakOk P E₂ s s' := by
  obtain ⟨hl, hp, hst, hret, hfr, hpa⟩ := h
  refine ⟨hl, hp, ?_, hret, hfr, hpa⟩
  rcases hst with h | h | ⟨he, hc, hm, hr⟩
  · exact Or.inl h
  · exact Or.inr (Or.inl h)
  · exact Or.inr (Or.inr ⟨he, hE hc, hm, hr⟩)

theorem weakOk_trans {P E : Prop} {s₁ s₂ s₃ : RunState}
    (h₁ : WeakOk P E s₁ s₂) (h₂ : WeakOk P E s₂ s₃) : WeakOk P E s₁ s₃ := by
  obtain ⟨⟨t₁, hl₁⟩, hp₁, hst₁, hret₁, hfr₁, hpa₁⟩ := h₁
  obtain ⟨⟨t₂, hl₂⟩, hp₂, hst₂, hret₂, hfr₂, hpa₂⟩ := h₂
  refine ⟨⟨t₁ ++ t₂, by rw [hl₂, hl₁, List.append_assoc]⟩, ?_, ?_, ?_, ?_, ?_⟩
  · intro hP
    obtain ⟨a1, a2⟩ := hp₁ hP
    obtain ⟨b1, b2⟩ := hp₂ hP
    exact ⟨b1.trans a1, b2.trans a2⟩
  · rcases hst₂ with h | h | ⟨he, hc, hm, hr⟩
    · rcases hst₁ with h1 | h1 | ⟨he1, hc1, hm1, hr1⟩
      · exact Or.inl (h.trans h1)
      · exact Or.inr (Or.inl (h.trans h1))
      · have h32 : s₃ = s₂ := hfr₂ hr1
        exact Or.inr (Or.inr ⟨by rw [h32]; exact he1, hc1,
          by rw [h32]; exact hm1, by rw [h32]; exact hr1⟩)
    · exact Or.inr (Or.inl h)
    · exact Or.inr (Or.inr ⟨he, hc, hm, hr⟩)
  · rcases hret₂ with h | h
    · rw [h]; exact hret₁
    · exact Or.inr h
  · intro hr
    rw [hfr₂ (by rw [hfr₁ hr]; exact hr), hfr₁ hr]
  · intro hp3 hs1
    by_cases hs2 : s₂.status = "paused"
    · obtain ⟨hr2, hev2⟩ := hpa₁ hs2 hs1
      have h32 : s₃ = s₂ := hfr₂ hr2
      rw [h32]
      exact ⟨hr2, hev2⟩
    · obtain ⟨hr3, hev3⟩ := hpa₂ hp3 hs2
      exact ⟨hr3, hev3⟩

theorem chain'_anchor_mono {a lo : Nat} {d : List Nat}
    (h : List.Chain' (· ≤ ·) (a :: d)) (hla : lo ≤ a) :
    List.Chain' (· ≤ ·) (lo :: d) := by
  rcases d with _ | ⟨x, d⟩
  · exact List.chain'_singleton _
  · rw [List.chain'_cons] at h ⊢
    exact ⟨hla.trans h.1, h.2⟩

theorem chain_seg_append {b c : Nat} {d e : List Nat}
    (h1 : List.Chain' (· ≤ ·) (b :: d)) (h2 : List.Chain' (· ≤ ·) (c :: e))
    (hd : ∀ x ∈ d, x ≤ c) (hbc : b ≤ c) :
    List.Chain' (· ≤ ·) (b :: (d ++ e)) := by
  have hsplit : b :: (d ++ e) = (b :: d) ++ e := by simp
  rw [hsplit]
  apply List.Chain'.append h1 (h2.tail)
  intro x hx y hy
  have hxl : x ∈ b :: d := List.mem_of_mem_getLast? hx
  have hxc : x ≤ c := by
    rcases List.mem_cons.mp hxl with rfl | hxd
    · exact hbc
    · exact hd x hxd
  have hcy : c ≤ y := (List.chain'_cons'.mp h2).1 y hy
  omega

theorem phaseOk_trans {P E : Prop} {total K₁ K₂ lo₁ hi₁ lo₂ hi₂ : Nat} {s₁ s₂ s₃ : RunState}
    (h₁ : PhaseOk P E total K₁ lo₁ hi₁ s₁ s₂) (h₂ : PhaseOk P E total K₂ lo₂ hi₂ s₂ s₃)
    (h12 : hi₁ ≤ lo₂) (hlo : lo₁ ≤ lo₂) (hhi : hi₁ ≤ hi₂) (hlohi : lo₂ ≤ hi₂) :
    PhaseOk P E total (K₁ + K₂) lo₁ hi₂ s₁ s₃ := by
  obtain ⟨hw₁, ⟨d₁, hd₁, hcb₁⟩, hk₁⟩ := h₁
  obtain ⟨hw₂, ⟨d₂, hd₂, hcb₂⟩, hk₂⟩ := h₂
  refine ⟨weakOk_trans hw₁ hw₂, ⟨d₁ ++ d₂, by rw [hd₂, hd₁, List.append_assoc], ?_⟩, by omega⟩
  intro hfit
  obtain ⟨hc₁, hb₁⟩ := hcb₁ (by omega)
  obtain ⟨hc₂, hb₂⟩ := hcb₂ (by omega)
  constructor
  · exact chain_seg_append hc₁ (chain'_anchor_mono hc₂ le_rfl)
      (fun x hx => (hb₁ x hx).trans h12) (hlo.trans le_rfl)
  · intro x hx
    rcases List.mem_append.mp hx with hx | hx
    · exact (hb₁ x hx).trans hhi
    · exact hb₂ x hx

/-- Lift a phase contract through `seqRun`. -/
theorem seqRun_ok {P E : Prop} {total K lo hi : Nat}
    (f : RunState → RunState)
    (hf : ∀ s, s.returned = false → PhaseOk P E total K lo hi s (f s)) :
    ∀ s, PhaseOk P E total K lo hi s (seqRun s f) := by
  intro s
  cases hr : s.returned with
  | true =>
    have heq : seqRun s f = s := by simp [seqRun, hr]
    rw [heq]
    exact ⟨weakOk_refl P E s, ⟨[], by simp, fun _ => ⟨List.chain'_singleton _, by simp⟩⟩,
      by omega⟩
  | false =>
    have heq : seqRun s f = f s := by simp [seqRun, hr]
    rw [heq]
    exact hf s hr

/-- The identity step satisfies any zero-budget phase contract. -/
theorem phaseOk_refl (P E : Prop) (total v : Nat) (s : RunState) :
    PhaseOk P E total 0 v v s s :=
  ⟨weakOk_refl P E s, ⟨[], by simp, fun _ => ⟨List.chain'_singleton _, by simp⟩⟩, by omega⟩

/-- Lift a bookkeeping contract through `seqRun`. -/
theorem seqRun_weak {P E : Prop} (f : RunState → RunState)
    (hf : ∀ s, s.returned = false → WeakOk P E s (f s)) :
    ∀ s, WeakOk P E s (seqRun s f) := by
  intro s
  cases hr : s.returned with
  | true =>
    have heq : seqRun s f = s := by simp [seqRun, hr]
    rw [heq]
    exact weakOk_refl P E s
  | false =>
    have heq : seqRun s f = f s := by simp [seqRun, hr]
    rw [heq]
    exact hf s hr

/-- A bare progress report is a degenerate phase at its own value. -/
theorem report_ok (P E : Prop) (total v : Nat) (s : RunState) (hr : s.returned = false) :
    PhaseOk P E total 0 v v s (report s v) := by
  refine ⟨⟨⟨[v], rfl⟩, fun _ => ⟨rfl, rfl⟩, Or.inl rfl, Or.inl rfl, ?_, ?_⟩,
    ⟨[v], rfl, fun _ => ⟨List.chain'_pair.mpr le_rfl, by simp⟩⟩, ?_⟩
  · intro h
    rw [hr] at h
    cases h
  · intro hp hs
    exact absurd hp hs
  · show s.downloadedCount ≤ s.downloadedCount + 0
    omega

/-- The per-phase header report is a degenerate phase. -/
theorem phaseHeader_ok (P E : Prop) (total v : Nat) (b : Bool) (s : RunState)
    (hr : s.returned = false) :
    PhaseOk P E total 0 v v s (phaseHeader s b v) := by
  cases b with
  | false => exact phaseOk_refl P E total v s
  | true => exact report_ok P E total v s hr

/-- A resource loop over `items` is a phase of its band, with download
budget the item count. -/
theorem resourceLoop_ok (P E : Prop) (env : Env) (pageUrl : String)
    (total base span : Nat) (failTag : String)
    (handle : RunState → String → String → String → RunState) (Htame : Tame handle)
    (items : List String) (hP : P → NoPause env) (s : RunState)
    (hr : s.returned = false) :
    PhaseOk P E total items.length base (base + span) s
      (resourceLoop env pageUrl total base span failTag handle items s) := by
  obtain ⟨d, hd, hchain, hlo, hhi, hdc, hnp, hst, hret, hpa⟩ :=
    resourceLoop_log env pageUrl total base span failTag handle Htame items s
  refine ⟨⟨⟨d, hd⟩, fun hp => hnp (hP hp), ?_, hret, ?_, hpa⟩,
    ⟨d, hd, fun hfit => ⟨chain'_anchor_mono hchain (Nat.le_add_right base _), hhi hfit⟩⟩, hdc⟩
  · rcases hst with h | h
    · exact Or.inl h
    · exact Or.inr (Or.inl h)
  · intro h
    rw [hr] at h
    cases h

/-- The inline-style rewrite pass touches nothing but the rewrite
list. -/
theorem rewriteStylePass_fields (env : Env) (pageUrl : String) :
    ∀ (refs : List String) (s : RunState),
      (rewriteStylePass env pageUrl refs s).progressLog = s.progressLog ∧
      (rewriteStylePass env pageUrl refs s).status = s.status ∧
      (rewriteStylePass env pageUrl refs s).returned = s.returned ∧
      (rewriteStylePass env pageUrl refs s).downloadedCount = s.downloadedCount ∧
      (rewriteStylePass env pageUrl refs s).events = s.events := by
  intro refs
  induction refs with
  | nil =>
    intro s
    exact ⟨rfl, rfl, rfl, rfl, rfl⟩
  | cons u rest ih =>
    intro s
    have key : rewriteStylePass env pageUrl (u :: rest) s =
        rewriteStylePass env pageUrl rest
          (if keepNonData u then
            match env.R u pageUrl with
            | none => s
            | some _ =>
              { s with styleRewrites := s.styleRewrites ++
                  [(u, "./images/" ++ getLocalPath env.R u pageUrl)] }
          else s) := rfl
    rw [key]
    by_cases hk : keepNonData u
    · cases hR : env.R u pageUrl with
      | none =>
        rw [if_pos hk]
        exact ih s
      | some w =>
        rw [if_pos hk]
        exact ih _
    · rw [if_neg hk]
      exact ih s

/-- The inline-style rewrite pass is a degenerate phase. -/
theorem rewriteStylePass_ok (P E : Prop) (env : Env) (pageUrl : String)
    (total v : Nat) (refs : List String) (s : RunState) (hr : s.returned = false) :
    PhaseOk P E total 0 v v s (rewriteStylePass env pageUrl refs s) := by
  obtain ⟨h1, h2, h3, h4, h5⟩ := rewriteStylePass_fields env pageUrl refs s
  refine ⟨⟨⟨[], by rw [h1]; simp⟩, fun _ => ⟨h3, h2⟩, Or.inl h2, Or.inl h3, ?_, ?_⟩,
    ⟨[], by rw [h1]; simp, fun _ => ⟨List.chain'_singleton _, by simp⟩⟩, by omega⟩
  · intro h
    rw [hr] at h
    cases h
  · intro hp hs
    rw [h2] at hp
    exact absurd hp hs

/-- Writing the final document is a degenerate phase. -/
theorem saveIndexHtml_ok (P E : Prop) (htmlLen total v : Nat) (s : RunState)
    (hr : s.returned = false) :
    PhaseOk P E total 0 v v s (saveIndexHtml htmlLen s) := by
  refine ⟨⟨⟨[], by simp [saveIndexHtml]⟩, fun _ => ⟨rfl, rfl⟩, Or.inl rfl, Or.inl rfl,
    ?_, ?_⟩, ⟨[], by simp [saveIndexHtml], fun _ => ⟨List.chain'_singleton _, by simp⟩⟩, ?_⟩
  · intro h
    rw [hr] at h
    cases h
  · intro hp hs
    exact absurd hp hs
  · show s.downloadedCount ≤ s.downloadedCount + 0
    omega

/-- With crawl depth 0 the crawl phase is the identity. -/
theorem crawl0_ok (P E : Prop) (env : Env) (url : String) (doc : Doc)
    (total v : Nat) (s : RunState) :
    PhaseOk P E total 0 v v s (crawlPhase env url 0 doc s) := by
  have heq : crawlPhase env url 0 doc s = s := by simp [crawlPhase]
  rw [heq]
  exact phaseOk_refl P E total v s

/-- The crawl phase obeys the bookkeeping contract; an error out of it
certifies that the crawl was requested on an unparsable job URL and
that the message was recorded. -/
theorem crawlPhase_weak (P : Prop) (env : Env) (url : String) (crawlDepth : Nat)
    (doc : Doc) (s : RunState)
    (hP : P → NoPause env ∧ (crawlDepth > 0 → (env.parseAbs url).isSome))
    (hr : s.returned = false) :
    WeakOk P (crawlDepth > 0 ∧ env.parseAbs url = none) s
      (crawlPhase env url crawlDepth doc s) := by
  by_cases hcd : crawlDepth > 0
  · cases hpa : env.parseAbs url with
    | none =>
      have heq : crawlPhase env url crawlDepth doc s =
          markError (report s 88) ("Invalid URL: " ++ url) := by
        simp [crawlPhase, hcd, extractLinks, hpa]
      rw [heq]
      refine ⟨⟨[88], by simp [markError, report]⟩, ?_, ?_, Or.inr rfl, ?_, ?_⟩
      · intro hp
        exfalso
        have h2 := (hP hp).2 hcd
        rw [hpa] at h2
        simp at h2
      · exact Or.inr (Or.inr ⟨rfl, ⟨hcd, hpa ▸ hpa⟩, by simp [markError], rfl⟩)
      · intro h
        rw [hr] at h
        cases h
      · intro hp
        simp [markError] at hp
    | some base =>
      rcases hex : extractLinks env doc.anchorHrefs url with _ | links
      · exfalso
        unfold extractLinks at hex
        rw [hpa] at hex
        simp at hex
      · have heq : crawlPhase env url crawlDepth doc s =
            subLoop env (links.take 10) (links.take 10).length 0
              (report (report s 88) 90) := by
          simp [crawlPhase, hcd, hex]
        rw [heq]
        obtain ⟨⟨t, ht⟩, hnp, hst, hretOr, hpa'⟩ :=
          subLoop_log env (links.take 10) (links.take 10).length 0
            (report (report s 88) 90)
        refine ⟨⟨[88] ++ [90] ++ t, by rw [ht]; simp [report]⟩, ?_, ?_, ?_, ?_, ?_⟩
        · intro hp
          exact hnp (hP hp).1
        · rcases hst with h | h
          · exact Or.inl h
          · exact Or.inr (Or.inl h)
        · exact hretOr
        · intro h
          rw [hr] at h
          cases h
        · intro hp hsne
          exact hpa' hp (show s.status ≠ "paused" from hsne)
  · have heq : crawlPhase env url crawlDepth doc s = s := by simp [crawlPhase, hcd]
    rw [heq]
    exact weakOk_refl P _ s

/-- The master contract of the phase chain: (i) reaching `complete`
means the last reported value is exactly 100; (ii) an undisturbed run
completes; (iii) a post-document error certifies a crawl on an
unparsable job URL, with the message recorded; (iv) a pause returns
with the triggering check as the last event; (v) for the playwright
method without crawl, the progress values appended are non-decreasing
from 15. -/
theorem clonePhases_spec (env : Env) (url : String) (method : Method) (crawlDepth : Nat)
    (doc : Doc) (htmlLen : Nat) (s : RunState)
    (hr : s.returned = false) (hdc : s.downloadedCount = 0)
    (hst : s.status = "processing") :
    ((clonePhases env url method crawlDepth doc htmlLen s).status = "complete" →
      (clonePhases env url method crawlDepth doc htmlLen s).progressLog.getLast?
        = some 100) ∧
    (GoodRun env url crawlDepth →
      (clonePhases env url method crawlDepth doc htmlLen s).status = "complete") ∧
    ((clonePhases env url method crawlDepth doc htmlLen s).status = "error" →
      CrawlErrCause env url crawlDepth ∧
      (clonePhases env url method crawlDepth doc htmlLen s).errorMessage ≠ none) ∧
    ((clonePhases env url method crawlDepth doc htmlLen s).status = "paused" →
      (clonePhases env url method crawlDepth doc htmlLen s).returned = true ∧
      (clonePhases env url method crawlDepth doc htmlLen s).events.getLast?
        = some (.check true)) ∧
    (method = .playwright → crawlDepth = 0 →
      ∃ d, (clonePhases env url method crawlDepth doc htmlLen s).progressLog
          = s.progressLog ++ d ∧ List.Chain' (· ≤ ·) (15 :: d)) := by
  set total := (cssSet doc).length + (jsSet doc).length + (imagesSet doc).length
      + (fontSet doc).length + (iconSet doc).length with htot
  set base := baseProgressOf method with hbase
  set s0 : RunState := { s with cssVisited := [], cssPathMap := [] } with hs0
  set s1 := seqRun s0 (fun t => phaseHeader t (!(fontSet doc).isEmpty) base) with hs1
  set s2 := seqRun s1
    (resourceLoop env url total base 5 "Font" (fontHandler env url) (fontSet doc)) with hs2
  set s3 := seqRun s2 (fun t => phaseHeader t (!(iconSet doc).isEmpty) (base + 5)) with hs3
  set s4 := seqRun s3
    (resourceLoop env url total (base + 5) 5 "Icon" (iconHandler env url)
      (iconSet doc)) with hs4
  set s5 := seqRun s4 (fun t => phaseHeader t (!(cssSet doc).isEmpty) (base + 10)) with hs5
  set s6 := seqRun s5
    (resourceLoop env url total (base + 10) 15 "CSS" (cssHandler env url)
      (cssSet doc)) with hs6
  set s7 := seqRun s6 (fun t => phaseHeader t (!(jsSet doc).isEmpty) (base + 25)) with hs7
  set s8 := seqRun s7
    (resourceLoop env url total (base + 25) 20 "JavaScript" (jsHandler env url)
      (jsSet doc)) with hs8
  set s9 := seqRun s8 (fun t => phaseHeader t (!(imagesSet doc).isEmpty) (base + 45)) with hs9
  set s10 := seqRun s9
    (resourceLoop env url total (base + 45) 25 "Image" (imgHandler env url)
      (imagesSet doc)) with hs10
  set s11 := seqRun s10 (fun t => report t 88) with hs11
  set s12 := seqRun s11 (rewriteStylePass env url doc.styleBgRefs) with hs12
  set s13 := seqRun s12 (fun t => report t 90) with hs13
  set s14 := seqRun s13 (saveIndexHtml htmlLen) with hs14
  set s15 := seqRun s14 (crawlPhase env url crawlDepth doc) with hs15
  have hmain : clonePhases env url method crawlDepth doc htmlLen s
      = seqRun s15 completeRun := rfl
  rw [hmain]
  have hr0 : s0.returned = false := hr
  have hst0 : s0.status = "processing" := hst
  have hdc0 : s0.downloadedCount = 0 := hdc
  have w1 : WeakOk (GoodRun env url crawlDepth) (CrawlErrCause env url crawlDepth) s0 s1 :=
    seqRun_weak _ (fun t ht => (phaseHeader_ok _ _ total base _ t ht).1) s0
  have w2 : WeakOk (GoodRun env url crawlDepth) (CrawlErrCause env url crawlDepth) s1 s2 :=
    seqRun_weak _ (fun t ht => (resourceLoop_ok _ _ env url total base 5 "Font" _
      (tame_fontHandler env url) _ (fun hp => hp.1) t ht).1) s1
  have w3 : WeakOk (GoodRun env url crawlDepth) (CrawlErrCause env url crawlDepth) s2 s3 :=
    seqRun_weak _ (fun t ht => (phaseHeader_ok _ _ total (base + 5) _ t ht).1) s2
  have w4 : WeakOk (GoodRun env url crawlDepth) (CrawlErrCause env url crawlDepth) s3 s4 :=
    seqRun_weak _ (fun t ht => (resourceLoop_ok _ _ env url total (base + 5) 5 "Icon" _
      (tame_iconHandler env url) _ (fun hp => hp.1) t ht).1) s3
  have w5 : WeakOk (GoodRun env url crawlDepth) (CrawlErrCause env url crawlDepth) s4 s5 :=
    seqRun_weak _ (fun t ht => (phaseHeader_ok _ _ total (base + 10) _ t ht).1) s4
  have w6 : WeakOk (GoodRun env url crawlDepth) (CrawlErrCause env url crawlDepth) s5 s6 :=
    seqRun_weak _ (fun t ht => (resourceLoop_ok _ _ env url total (base + 10) 15 "CSS" _
      (tame_cssHandler env url) _ (fun hp => hp.1) t ht).1) s5
  have w7 : WeakOk (GoodRun env url crawlDepth) (CrawlErrCause env url crawlDepth) s6 s7 :=
    seqRun_weak _ (fun t ht => (phaseHeader_ok _ _ total (base + 25) _ t ht).1) s6
  have w8 : WeakOk (GoodRun env url crawlDepth) (CrawlErrCause env url crawlDepth) s7 s8 :=
    seqRun_weak _ (fun t ht => (resourceLoop_ok _ _ env url total (base + 25) 20
      "JavaScript" _ (tame_jsHandler env url) _ (fun hp => hp.1) t ht).1) s7
  have w9 : WeakOk (GoodRun env url crawlDepth) (CrawlErrCause env url crawlDepth) s8 s9 :=
    seqRun_weak _ (fun t ht => (phaseHeader_ok _ _ total (base + 45) _ t ht).1) s8
  have w10 : WeakOk (GoodRun env url crawlDepth) (CrawlErrCause env url crawlDepth) s9 s10 :=
    seqRun_weak _ (fun t ht => (resourceLoop_ok _ _ env url total (base + 45) 25 "Image" _
      (tame_imgHandler env url) _ (fun hp => hp.1) t ht).1) s9
  have w11 : WeakOk (GoodRun env url crawlDepth) (CrawlErrCause env url crawlDepth) s10 s11 :=
    seqRun_weak _ (fun t ht => (report_ok _ _ total 88 t ht).1) s10
  have w12 : WeakOk (GoodRun env url crawlDepth) (CrawlErrCause env url crawlDepth) s11 s12 :=
    seqRun_weak _ (fun t ht => (rewriteStylePass_ok _ _ env url total 88
      doc.styleBgRefs t ht).1) s11
  have w13 : WeakOk (GoodRun env url crawlDepth) (CrawlErrCause env url crawlDepth) s12 s13 :=
    seqRun_weak _ (fun t ht => (report_ok _ _ total 90 t ht).1) s12
  have w14 : WeakOk (GoodRun env url crawlDepth) (CrawlErrCause env url crawlDepth) s13 s14 :=
    seqRun_weak _ (fun t ht => (saveIndexHtml_ok _ _ htmlLen total 90 t ht).1) s13
  have w15 : WeakOk (GoodRun env url crawlDepth) (CrawlErrCause env url crawlDepth) s14 s15 :=
    seqRun_weak _ (fun t ht => crawlPhase_weak _ env url crawlDepth doc t
      (fun hp => ⟨hp.1, hp.2⟩) ht) s14
  have W : WeakOk (GoodRun env url crawlDepth) (CrawlErrCause env url crawlDepth) s0 s15 :=
    (weakOk_trans (weakOk_trans (weakOk_trans (weakOk_trans (weakOk_trans (weakOk_trans (weakOk_trans (weakOk_trans (weakOk_trans (weakOk_trans (weakOk_trans (weakOk_trans (weakOk_trans (weakOk_trans w1 w2) w3) w4) w5) w6) w7) w8) w9) w10) w11) w12) w13) w14) w15)
  have hfin : (s15.returned = true ∧ seqRun s15 completeRun = s15) ∨
      (s15.returned = false ∧ seqRun s15 completeRun
        = report { s15 with status := "complete" } 100) := by
    cases h : s15.returned with
    | true => exact Or.inl ⟨rfl, by simp [seqRun, h]⟩
    | false => exact Or.inr ⟨rfl, by simp [seqRun, h, completeRun]⟩
  refine ⟨?_, ?_, ?_, ?_, ?_⟩
  · intro hc
    rcases hfin with ⟨h15, heq⟩ | ⟨h15, heq⟩
    · rw [heq] at hc
      rcases W.2.2.1 with h | h | ⟨he, hE2, hm2, hr2⟩
      · rw [hst0, hc] at h
        exact absurd h (by decide)
      · rw [hc] at h
        exact absurd h (by decide)
      · rw [hc] at he
        exact absurd he (by decide)
    · rw [heq]
      show (s15.progressLog ++ [100]).getLast? = some 100
      simp
  · intro hg
    rcases hfin with ⟨h15, heq⟩ | ⟨h15, heq⟩
    · exfalso
      have hWr := (W.2.1 hg).1
      rw [hWr, hr0] at h15
      cases h15
    · rw [heq]
      rfl
  · intro herr
    rcases hfin with ⟨h15, heq⟩ | ⟨h15, heq⟩
    · rw [heq] at herr ⊢
      rcases W.2.2.1 with h | h | ⟨he, hE2, hm2, hr2⟩
      · rw [hst0, herr] at h
        exact absurd h (by decide)
      · rw [herr] at h
        exact absurd h (by decide)
      · exact ⟨hE2, hm2⟩
    · rw [heq] at herr
      exact absurd (show "complete" = "error" from herr) (by decide)
  · intro hp
    rcases hfin with ⟨h15, heq⟩ | ⟨h15, heq⟩
    · rw [heq] at hp ⊢
      have hres := W.2.2.2.2.2 hp (by rw [hst0]; decide)
      exact hres
    · rw [heq] at hp
      exact absurd (show "complete" = "paused" from hp) (by decide)
  · intro hm hcd
    subst hm
    subst hcd
    have hb15 : base = 15 := by rw [hbase]; rfl
    have q1 := seqRun_ok _ (fun t ht => phaseHeader_ok (GoodRun env url 0)
      (CrawlErrCause env url 0) total base (!(fontSet doc).isEmpty) t ht) s0
    have q2 := seqRun_ok _ (fun t ht => resourceLoop_ok (GoodRun env url 0)
      (CrawlErrCause env url 0) env url total base 5 "Font" _
      (tame_fontHandler env url) (fontSet doc) (fun hp => hp.1) t ht) s1
    have q3 := seqRun_ok _ (fun t ht => phaseHeader_ok (GoodRun env url 0)
      (CrawlErrCause env url 0) total (base + 5) (!(iconSet doc).isEmpty) t ht) s2
    have q4 := seqRun_ok _ (fun t ht => resourceLoop_ok (GoodRun env url 0)
      (CrawlErrCause env url 0) env url total (base + 5) 5 "Icon" _
      (tame_iconHandler env url) (iconSet doc) (fun hp => hp.1) t ht) s3
    have q5 := seqRun_ok _ (fun t ht => phaseHeader_ok (GoodRun env url 0)
      (CrawlErrCause env url 0) total (base + 10) (!(cssSet doc).isEmpty) t ht) s4
    have q6 := seqRun_ok _ (fun t ht => resourceLoop_ok (GoodRun env url 0)
      (CrawlErrCause env url 0) env url total (base + 10) 15 "CSS" _
      (tame_cssHandler env url) (cssSet doc) (fun hp => hp.1) t ht) s5
    have q7 := seqRun_ok _ (fun t ht => phaseHeader_ok (GoodRun env url 0)
      (CrawlErrCause env url 0) total (base + 25) (!(jsSet doc).isEmpty) t ht) s6
    have q8 := seqRun_ok _ (fun t ht => resourceLoop_ok (GoodRun env url 0)
      (CrawlErrCause env url 0) env url total (base + 25) 20 "JavaScript" _
      (tame_jsHandler env url) (jsSet doc) (fun hp => hp.1) t ht) s7
    have q9 := seqRun_ok _ (fun t ht => phaseHeader_ok (GoodRun env url 0)
      (CrawlErrCause env url 0) total (base + 45) (!(imagesSet doc).isEmpty) t ht) s8
    have q10 := seqRun_ok _ (fun t ht => resourceLoop_ok (GoodRun env url 0)
      (CrawlErrCause env url 0) env url total (base + 45) 25 "Image" _
      (tame_imgHandler env url) (imagesSet doc) (fun hp => hp.1) t ht) s9
    have q11 := seqRun_ok _ (fun t ht => report_ok (GoodRun env url 0)
      (CrawlErrCause env url 0) total 88 t ht) s10
    have q12 := seqRun_ok _ (fun t ht => rewriteStylePass_ok (GoodRun env url 0)
      (CrawlErrCause env url 0) env url total 88 doc.styleBgRefs t ht) s11
    have q13 := seqRun_ok _ (fun t ht => report_ok (GoodRun env url 0)
      (CrawlErrCause env url 0) total 90 t ht) s12
    have q14 := seqRun_ok _ (fun t ht => saveIndexHtml_ok (GoodRun env url 0)
      (CrawlErrCause env url 0) htmlLen total 90 t ht) s13
    have q15 := seqRun_ok _ (fun t _ => crawl0_ok (GoodRun env url 0)
      (CrawlErrCause env url 0) env url doc total 90 t) s14
    have Q2 := phaseOk_trans q1 q2 le_rfl le_rfl (by omega) (by omega)
    have Q3 := phaseOk_trans Q2 q3 (by omega) (by omega) (by omega) (by omega)
    have Q4 := phaseOk_trans Q3 q4 (by omega) (by omega) (by omega) (by omega)
    have Q5 := phaseOk_trans Q4 q5 (by omega) (by omega) (by omega) (by omega)
    have Q6 := phaseOk_trans Q5 q6 (by omega) (by omega) (by omega) (by omega)
    have Q7 := phaseOk_trans Q6 q7 (by omega) (by omega) (by omega) (by omega)
    have Q8 := phaseOk_trans Q7 q8 (by omega) (by omega) (by omega) (by omega)
    have Q9 := phaseOk_trans Q8 q9 (by omega) (by omega) (by omega) (by omega)
    have Q10 := phaseOk_trans Q9 q10 (by omega) (by omega) (by omega) (by omega)
    have Q11 := phaseOk_trans Q10 q11 (by omega) (by omega) (by omega)
      (by omega)
    have Q12 := phaseOk_trans Q11 q12 (by omega) (by omega) (by omega) (by omega)
    have Q13 := phaseOk_trans Q12 q13 (by omega) (by omega) (by omega) (by omega)
    have Q14 := phaseOk_trans Q13 q14 (by omega) (by omega) (by omega) (by omega)
    have Q15 := phaseOk_trans Q14 q15 (by omega) (by omega) (by omega) (by omega)
    obtain ⟨-, ⟨d, hd, hcb⟩, -⟩ := Q15
    have hbud := hcb (by rw [hdc0]; omega)
    obtain ⟨hchain, hhi90⟩ := hbud
    rw [hb15] at hchain
    rcases hfin with ⟨h15, heq⟩ | ⟨h15, heq⟩
    · rw [heq]
      exact ⟨d, hd, hchain⟩
    · rw [heq]
      refine ⟨d ++ [100], ?_, ?_⟩
      · show s15.progressLog ++ [100] = s.progressLog ++ (d ++ [100])
        rw [hd]
        have h0 : s0.progressLog = s.progressLog := rfl
        rw [h0, List.append_assoc]
      · exact chain_seg_append hchain (List.chain'_pair.mpr le_rfl)
          (fun x hx => by have := hhi90 x hx; omega) (by omega)

/-- Every per-response scaled value is at most 9. -/
theorem renderResponseEmits_le (evs : List Bool) :
    ∀ r q, ∀ x ∈ renderResponseEmits evs r q, x ≤ 9 := by
  induction evs with
  | nil =>
    intro r q x hx
    simp [renderResponseEmits] at hx
  | cons ev rest ih =>
    intro r q x hx
    unfold renderResponseEmits at hx
    cases ev with
    | true =>
      rw [if_pos rfl] at hx
      exact ih (r + 1) q x hx
    | false =>
      rw [if_neg (by simp)] at hx
      by_cases hr : r > 0
      · rw [if_pos hr] at hx
        rcases List.mem_cons.mp hx with rfl | hx
        · exact Nat.min_le_right _ 9
        · exact ih r (q + 1) x hx
      · rw [if_neg hr] at hx
        exact ih r (q + 1) x hx

/-- Every scaled render-progress value is at most 10. -/
theorem renderEmits_le (evs : List Bool) : ∀ x ∈ renderEmits evs, x ≤ 10 := by
  intro x hx
  unfold renderEmits at hx
  rcases List.mem_cons.mp hx with rfl | hx
  · omega
  · rcases List.mem_append.mp hx with hx | hx
    · have h9 := renderResponseEmits_le evs 0 0 x hx
      omega
    · simp at hx
      omega

/-- A successful render always finishes with value 10 (scaled 1.0). -/
theorem renderEmits_getLast (evs : List Bool) : (renderEmits evs).getLast? = some 10 := by
  show ((1 :: renderResponseEmits evs 0 0) ++ [10]).getLast? = some 10
  rw [List.getLast?_concat]

/-- The master contract of `cloneWebsite`: (i) reaching `complete`
means the last progress value is exactly 100; (ii) with the pause
flag down, the document obtainable and any requested crawl on a
parsable URL, the run completes; (iii) status `error` certifies a
recorded message and one of the two top-level failure causes; (iv) a
pause returns immediately after the triggering check; (v) under the
playwright method without crawl, a successful document fetch and
monotone render emissions, the whole progress log is non-decreasing. -/
theorem cloneWebsite_spec (env : Env) (url : String) (method : Method) (crawlDepth : Nat) :
    ((cloneWebsite env url method crawlDepth).status = "complete" →
      (cloneWebsite env url method crawlDepth).progressLog.getLast? = some 100) ∧
    (env.pausedAt 0 = false → (lookupWeb env.web url).isSome → GoodRun env url crawlDepth →
      (cloneWebsite env url method crawlDepth).status = "complete") ∧
    ((cloneWebsite env url method crawlDepth).status = "error" →
      (cloneWebsite env url method crawlDepth).errorMessage ≠ none ∧
      (lookupWeb env.web url = none ∨ CrawlErrCause env url crawlDepth)) ∧
    ((cloneWebsite env url method crawlDepth).status = "paused" →
      (cloneWebsite env url method crawlDepth).returned = true ∧
      (cloneWebsite env url method crawlDepth).events.getLast? = some (.check true)) ∧
    (method = .playwright → crawlDepth = 0 → (lookupWeb env.web url).isSome →
      List.Chain' (· ≤ ·) (renderEmits env.renderEvents) →
      List.Chain' (· ≤ ·) (cloneWebsite env url method crawlDepth).progressLog) := by
  cases hb : env.pausedAt 0 with
  | true =>
    have heq : cloneWebsite env url method crawlDepth =
        markPaused { initState with events := [Ev.check true], pauseChecks := 1 } := by
      simp [cloneWebsite, pauseCheck, initState, hb]
    rw [heq]
    refine ⟨?_, ?_, ?_, ?_, ?_⟩
    · intro hc
      exact absurd (show "paused" = "complete" from hc) (by decide)
    · intro hP0 _ _
      exact absurd hP0 (by decide)
    · intro he
      exact absurd (show "paused" = "error" from he) (by decide)
    · intro _
      exact ⟨rfl, rfl⟩
    · intro _ _ _ _
      show List.Chain' (· ≤ ·) ([] : List Nat)
      simp
  | false =>
    cases method with
    | static =>
      cases hlook : lookupWeb env.web url with
      | none =>
        have heq : cloneWebsite env url .static crawlDepth =
            markError
              (recordFetch (report startedState 10) url)
              ("Failed to fetch " ++ url) := by
          simp [cloneWebsite, pauseCheck, initState, startedState, hb, hlook]
        rw [heq]
        refine ⟨?_, ?_, ?_, ?_, ?_⟩
        · intro hc
          exact absurd (show "error" = "complete" from hc) (by decide)
        · intro _ h2 _
          simp at h2
        · intro _
          exact ⟨by simp [markError], Or.inl rfl⟩
        · intro hp
          exact absurd (show "error" = "paused" from hp) (by decide)
        · intro hm
          exact absurd hm (by decide)
      | some html =>
        have heq : cloneWebsite env url .static crawlDepth =
            clonePhases env url .static crawlDepth (env.parseDoc html) html.length
              (report (recordFetch (report startedState 10) url) 20) := by
          simp [cloneWebsite, pauseCheck, initState, startedState, hb, hlook]
        obtain ⟨c1, c2, c3, c4, c5⟩ := clonePhases_spec env url .static crawlDepth
          (env.parseDoc html) html.length
          (report (recordFetch (report startedState 10) url) 20) rfl rfl rfl
        rw [heq]
        refine ⟨c1, fun _ _ hg => c2 hg, fun herr => ?_, c4, fun hm => absurd hm (by decide)⟩
        obtain ⟨hcause, hmsg⟩ := c3 herr
        exact ⟨hmsg, Or.inr hcause⟩
    | playwright =>
      cases hlook : lookupWeb env.web url with
      | none =>
        have heq : cloneWebsite env url .playwright crawlDepth =
            markError
              ((renderResponseEmits env.renderEvents 0 0).foldl (fun t v => report t (5 + v))
                (report (recordFetch (report (report { initState with
                  events := [Ev.check false], pauseChecks := 1,
                  status := "processing" } 2) 5) url) (5 + 1)))
              ("Failed to fetch " ++ url) := by
          simp [cloneWebsite, pauseCheck, initState, startedState, renderPageModel, hb, hlook]
        rw [heq]
        refine ⟨?_, ?_, ?_, ?_, ?_⟩
        · intro hc
          exact absurd (show "error" = "complete" from hc) (by decide)
        · intro _ h2 _
          simp at h2
        · intro _
          exact ⟨by simp [markError], Or.inl rfl⟩
        · intro hp
          exact absurd (show "error" = "paused" from hp) (by decide)
        · intro _ _ h2 _
          simp at h2
      | some html =>
        have heq : cloneWebsite env url .playwright crawlDepth =
            clonePhases env url .playwright crawlDepth (env.parseDoc html) html.length
              (report ((renderEmits env.renderEvents).foldl (fun t v => report t (5 + v))
                (recordFetch (report (report startedState 2) 5) url)) 15) := by
          simp [cloneWebsite, pauseCheck, initState, startedState, renderPageModel, hb, hlook]
        rw [foldl_report (fun v => 5 + v) (renderEmits env.renderEvents)
          (recordFetch (report (report startedState 2) 5) url)] at heq
        obtain ⟨c1, c2, c3, c4, c5⟩ := clonePhases_spec env url .playwright crawlDepth
          (env.parseDoc html) html.length
          (report { recordFetch (report (report startedState 2) 5) url with
            progressLog :=
              (recordFetch (report (report startedState 2) 5) url).progressLog ++
              (renderEmits env.renderEvents).map (fun v => 5 + v) } 15) rfl rfl rfl
        rw [heq]
        refine ⟨c1, fun _ _ hg => c2 hg, fun herr => ?_, c4, fun _ hcd _ hmono => ?_⟩
        · obtain ⟨hcause, hmsg⟩ := c3 herr
          exact ⟨hmsg, Or.inr hcause⟩
        · obtain ⟨d, hd, hchain⟩ := c5 rfl hcd
          rw [hd]
          have hML : (renderEmits env.renderEvents).map (fun v => 5 + v)
              = 6 :: ((renderResponseEmits env.renderEvents 0 0).map (fun v => 5 + v)
                ++ [15]) := by
            simp [renderEmits]
          have hml : List.Chain' (· ≤ ·)
              ((renderEmits env.renderEvents).map (fun v => 5 + v)) :=
            (List.chain'_map _).mpr (hmono.imp (fun a b h => by omega))
          have hml_last : ((renderEmits env.renderEvents).map
              (fun v => 5 + v)).getLast? = some 15 := by
            rw [List.getLast?_map, renderEmits_getLast]
            rfl
          have hch2 : List.Chain' (· ≤ ·)
              ((renderEmits env.renderEvents).map (fun v => 5 + v) ++ 15 :: d) := by
            apply List.Chain'.append hml hchain
            intro x hx y hy
            rw [hml_last] at hx
            simp at hx hy
            omega
          have hch3 : List.Chain' (· ≤ ·)
              (5 :: ((renderEmits env.renderEvents).map (fun v => 5 + v) ++ 15 :: d)) := by
            refine List.chain'_cons'.mpr ⟨?_, hch2⟩
            intro y hy
            rw [hML] at hy
            simp at hy
            omega
          have hch4 : List.Chain' (· ≤ ·)
              (2 :: 5 :: ((renderEmits env.renderEvents).map (fun v => 5 + v) ++ 15 :: d)) :=
            List.chain'_cons.mpr ⟨by omega, hch3⟩
          have hre : (([2, 5] ++ (renderEmits env.renderEvents).map (fun v => 5 + v))
                ++ [15]) ++ d
              = 2 :: 5 :: ((renderEmits env.renderEvents).map (fun v => 5 + v)
                ++ 15 :: d) := by
            simp [List.append_assoc]
          show List.Chain' (· ≤ ·)
            ((([2, 5] ++ (renderEmits env.renderEvents).map (fun v => 5 + v)) ++ [15]) ++ d)
          rw [hre]
          exact hch4

/-! ## Counting the fetches of one image URL -/

theorem quietA_refl (A : String) (s : RunState) : QuietA A s s :=
  ⟨rfl, rfl, ⟨[], by simp⟩, ⟨[], by simp⟩⟩

theorem quietA_trans {A : String} {s₁ s₂ s₃ : RunState}
    (h₁ : QuietA A s₁ s₂) (h₂ : QuietA A s₂ s₃) : QuietA A s₁ s₃ := by
  obtain ⟨a1, a2, ⟨t1, ht1⟩, ⟨u1, hu1⟩⟩ := h₁
  obtain ⟨b1, b2, ⟨t2, ht2⟩, ⟨u2, hu2⟩⟩ := h₂
  exact ⟨b1.trans a1, b2.trans a2,
    ⟨t1 ++ t2, by rw [ht2, ht1, List.append_assoc]⟩,
    ⟨u1 ++ u2, by rw [hu2, hu1, List.append_assoc]⟩⟩

/-- Appending events none of which fetches `A` leaves its count. -/
theorem count_fetch_append (A : String) (l t : List Ev)
    (h : ∀ e ∈ t, e ≠ Ev.fetch A) :
    (l ++ t).count (Ev.fetch A) = l.count (Ev.fetch A) := by
  rw [List.count_append]
  have h0 : t.count (Ev.fetch A) = 0 :=
    List.count_eq_zero.mpr (fun hmem => (h _ hmem) rfl)
  omega

/-- Appending records none of which is sourced from `A` leaves the
file count. -/
theorem fileCount_append (A : String) (l t : List FileRec)
    (h : ∀ f ∈ t, f.srcUrl ≠ some A) :
    fileCount A (l ++ t) = fileCount A l := by
  unfold fileCount
  rw [List.countP_append]
  have h0 : t.countP (fun f => f.srcUrl == some A) = 0 := by
    rw [List.countP_eq_zero]
    intro f hf
    simpa using h f hf
  omega

/-- The font step is quiet for any URL other than its own target. -/
theorem quietA_fontHandler (env : Env) (pageUrl A : String) :
    ∀ s h a c, a ≠ A → lookupWeb env.web a = some c →
      QuietA A s (fontHandler env pageUrl s h a c) := by
  intro s h a c hne _
  refine ⟨rfl, ?_, ⟨[], by simp [fontHandler]⟩, ⟨[], by simp [fontHandler]⟩⟩
  exact fileCount_append A s.files
    [⟨"fonts/" ++ getLocalPath env.R h pageUrl, "font", c.length, some a⟩]
    (by intro f hf; simp at hf; subst hf; intro hcon; exact hne (Option.some.inj hcon))

/-- The icon step is quiet for any URL other than its own target. -/
theorem quietA_iconHandler (env : Env) (pageUrl A : String) :
    ∀ s h a c, a ≠ A → lookupWeb env.web a = some c →
      QuietA A s (iconHandler env pageUrl s h a c) := by
  intro s h a c hne _
  refine ⟨rfl, ?_, ⟨[], by simp [iconHandler]⟩, ⟨[], by simp [iconHandler]⟩⟩
  exact fileCount_append A s.files
    [⟨"icons/" ++ getLocalPath env.R h pageUrl, "image", c.length, some a⟩]
    (by intro f hf; simp at hf; subst hf; intro hcon; exact hne (Option.some.inj hcon))

/-- The script step is quiet for any URL other than its own target. -/
theorem quietA_jsHandler (env : Env) (pageUrl A : String) :
    ∀ s h a c, a ≠ A → lookupWeb env.web a = some c →
      QuietA A s (jsHandler env pageUrl s h a c) := by
  intro s h a c hne _
  refine ⟨rfl, ?_, ⟨[], by simp [jsHandler]⟩, ⟨[], by simp [jsHandler]⟩⟩
  exact fileCount_append A s.files
    [⟨"js/" ++ getLocalPath env.R h pageUrl, "js", c.length, some a⟩]
    (by intro f hf; simp at hf; subst hf; intro hcon; exact hne (Option.some.inj hcon))

/-- The image step is quiet for any URL other than its own target. -/
theorem quietA_imgHandler (env : Env) (pageUrl A : String) :
    ∀ s h a c, a ≠ A → lookupWeb env.web a = some c →
      QuietA A s (imgHandler env pageUrl s h a c) := by
  intro s h a c hne _
  refine ⟨rfl, ?_, ⟨[(h, "./images/" ++ getLocalPath env.R h pageUrl)], by
    simp [imgHandler]⟩, ⟨[], by simp [imgHandler]⟩⟩
  exact fileCount_append A s.files
    [⟨"images/" ++ getLocalPath env.R h pageUrl, "image", c.length, some a⟩]
    (by intro f hf; simp at hf; subst hf; intro hcon; exact hne (Option.some.inj hcon))

/-- Every URL `processCSS` can target from a web-served stylesheet is
a CSS reference of the web. -/
theorem cssTgt_web {env : Env} {a c : String} (hlk : lookupWeb env.web a = some c)
    (v : String) : CssTgt env c a v → WebCssRef env v := by
  intro h
  rcases h with h | ⟨r, hr, hres⟩
  · exact h
  · exact ⟨a, c, r, a, lookupWeb_mem hlk, hr, hres⟩

/-- The stylesheet step is quiet for any URL that is neither its own
target nor a CSS reference of the web. -/
theorem quietA_cssHandler (env : Env) (pageUrl A : String) (hA : ¬ WebCssRef env A) :
    ∀ s h a c, a ≠ A → lookupWeb env.web a = some c →
      QuietA A s (cssHandler env pageUrl s h a c) := by
  intro s h a c hne hlk
  obtain ⟨pres, -, ⟨te, hte, hte'⟩, ⟨tf, htf, htf'⟩⟩ :=
    ((processCSS_stepA env (cssFuel env)).1 s c a (getLocalPath env.R h pageUrl)).1
  have hteA : ∀ e ∈ te, e ≠ Ev.fetch A := by
    intro e he hcon
    obtain ⟨v, hv, htgt⟩ := hte' e he
    have hvA : v = A := Ev.fetch.inj (hv.symm.trans hcon)
    exact hA (hvA ▸ cssTgt_web hlk v htgt)
  have htfA : ∀ f ∈ tf, f.srcUrl ≠ some A := by
    intro f hf hcon
    obtain ⟨v, hv, htgt⟩ := htf' f hf
    rw [hcon] at hv
    have hvA : A = v := Option.some.inj hv
    exact hA (hvA ▸ cssTgt_web hlk v htgt)
  obtain ⟨p1, p2, p3, p4, p5, p6, p7, p8, p9⟩ := pres
  by_cases hw : (processCSS env (cssFuel env) s c a (getLocalPath env.R h pageUrl)).2 ≠ ""
  · have heq : cssHandler env pageUrl s h a c =
        { (processCSS env (cssFuel env) s c a (getLocalPath env.R h pageUrl)).1 with
          saves := (processCSS env (cssFuel env) s c a
              (getLocalPath env.R h pageUrl)).1.saves ++
            ["css/" ++ getLocalPath env.R h pageUrl],
          files := (processCSS env (cssFuel env) s c a
              (getLocalPath env.R h pageUrl)).1.files ++
            [⟨"css/" ++ getLocalPath env.R h pageUrl, "css",
              (processCSS env (cssFuel env) s c a
                (getLocalPath env.R h pageUrl)).2.length, some a⟩],
          cssWrites := (processCSS env (cssFuel env) s c a
              (getLocalPath env.R h pageUrl)).1.cssWrites ++ [a],
          linkRewrites := (processCSS env (cssFuel env) s c a
              (getLocalPath env.R h pageUrl)).1.linkRewrites ++
            [(h, "./css/" ++ getLocalPath env.R h pageUrl)] } := by
      simp [cssHandler, hw]
    rw [heq]
    refine ⟨?_, ?_, ⟨[], by simp [p7]⟩, ⟨[], by simp [p8]⟩⟩
    · show ((processCSS env (cssFuel env) s c a
          (getLocalPath env.R h pageUrl)).1.events).count (Ev.fetch A)
        = s.events.count (Ev.fetch A)
      rw [hte]
      exact count_fetch_append A s.events te hteA
    · show fileCount A ((processCSS env (cssFuel env) s c a
            (getLocalPath env.R h pageUrl)).1.files ++
          [⟨"css/" ++ getLocalPath env.R h pageUrl, "css",
            (processCSS env (cssFuel env) s c a
              (getLocalPath env.R h pageUrl)).2.length, some a⟩])
        = fileCount A s.files
      rw [fileCount_append A _ _
        (by intro f hf; simp at hf; subst hf; intro hcon; exact hne (Option.some.inj hcon))]
      rw [htf]
      exact fileCount_append A s.files tf htfA
  · have heq : cssHandler env pageUrl s h a c =
        { (processCSS env (cssFuel env) s c a (getLocalPath env.R h pageUrl)).1 with
          linkRewrites := (processCSS env (cssFuel env) s c a
              (getLocalPath env.R h pageUrl)).1.linkRewrites ++
            [(h, "./css/" ++ getLocalPath env.R h pageUrl)] } := by
      simp [cssHandler, hw]
    rw [heq]
    refine ⟨?_, ?_, ⟨[], by simp [p7]⟩, ⟨[], by simp [p8]⟩⟩
    · show ((processCSS env (cssFuel env) s c a
          (getLocalPath env.R h pageUrl)).1.events).count (Ev.fetch A)
        = s.events.count (Ev.fetch A)
      rw [hte]
      exact count_fetch_append A s.events te hteA
    · show fileCount A ((processCSS env (cssFuel env) s c a
          (getLocalPath env.R h pageUrl)).1.files) = fileCount A s.files
      rw [htf]
      exact fileCount_append A s.files tf htfA

/-- One non-pausing loop step whose item does not resolve to `A` is
quiet for `A` and hands the loop on to the rest. -/
theorem resourceLoop_step_quiet (env : Env) (pageUrl : String) (total base span : Nat)
    (failTag : String) (handle : RunState → String → String → String → RunState)
    (A href : String) (rest : List String) (s : RunState)
    (hb : env.pausedAt s.pauseChecks = false)
    (hq : ∀ B, resolveHref env.R href pageUrl = some B → B ≠ A)
    (Hh : ∀ s h a c, a ≠ A → lookupWeb env.web a = some c →
      QuietA A s (handle s h a c)) :
    ∃ s₂, resourceLoop env pageUrl total base span failTag handle (href :: rest) s
        = resourceLoop env pageUrl total base span failTag handle rest s₂ ∧
      QuietA A s s₂ := by
  have q1 : QuietA A s { s with events := s.events ++ [.check false], pauseChecks := s.pauseChecks + 1 } := by
    refine ⟨?_, rfl, ⟨[], by simp⟩, ⟨[], by simp⟩⟩
    exact count_fetch_append A s.events [.check false]
      (by intro e he; simp at he; subst he; intro hcon; exact Ev.noConfusion hcon)
  set s₁ : RunState := { s with events := s.events ++ [.check false], pauseChecks := s.pauseChecks + 1 } with hs₁
  cases hres : resolveHref env.R href pageUrl with
  | none =>
    refine ⟨addFailure s₁ (failTag ++ ": " ++ href), ?_, ?_⟩
    · simp [resourceLoop, pauseCheck, hb, hres, hs₁]
    · exact quietA_trans q1 ⟨rfl, rfl, ⟨[], by simp [addFailure]⟩, ⟨[], by simp [addFailure]⟩⟩
  | some B =>
    have hBA : B ≠ A := hq B hres
    cases hlook : lookupWeb env.web B with
    | none =>
      refine ⟨addFailure s₁ (failTag ++ ": " ++ href), ?_, ?_⟩
      · simp [resourceLoop, pauseCheck, hb, hres, hlook, hs₁]
      · exact quietA_trans q1 ⟨rfl, rfl, ⟨[], by simp [addFailure]⟩, ⟨[], by simp [addFailure]⟩⟩
    | some content =>
      have q2 : QuietA A s₁ (recordFetch s₁ B) := by
        refine ⟨?_, rfl, ⟨[], by simp [recordFetch]⟩, ⟨[], by simp [recordFetch]⟩⟩
        exact count_fetch_append A s₁.events [.fetch B]
          (by intro e he; simp at he; subst he; intro hcon
              exact hBA (Ev.fetch.inj hcon))
      have q3 : QuietA A (recordFetch s₁ B) (handle (recordFetch s₁ B) href B content) :=
        Hh (recordFetch s₁ B) href B content hBA hlook
      set sh := handle (recordFetch s₁ B) href B content with hsh
      have q4 : QuietA A sh (report { sh with downloadedCount := sh.downloadedCount + 1 }
          (base + (sh.downloadedCount + 1) * span / total)) :=
        ⟨rfl, rfl, ⟨[], by simp [report]⟩, ⟨[], by simp [report]⟩⟩
      refine ⟨report { sh with downloadedCount := sh.downloadedCount + 1 }
        (base + (sh.downloadedCount + 1) * span / total), ?_, ?_⟩
      · simp [resourceLoop, pauseCheck, hb, hres, hlook, hs₁, hsh, report]
      · exact quietA_trans (quietA_trans (quietA_trans q1 q2) q3) q4

/-- A resource loop none of whose items resolves to `A` is quiet for
`A`. -/
theorem resourceLoop_quietA (env : Env) (pageUrl : String) (total base span : Nat)
    (failTag : String) (handle : RunState → String → String → String → RunState)
    (A : String)
    (Hh : ∀ s h a c, a ≠ A → lookupWeb env.web a = some c →
      QuietA A s (handle s h a c)) :
    ∀ (items : List String) (s : RunState),
      (∀ href ∈ items, ∀ B, resolveHref env.R href pageUrl = some B → B ≠ A) →
      QuietA A s (resourceLoop env pageUrl total base span failTag handle items s) := by
  intro items
  induction items with
  | nil =>
    intro s _
    exact quietA_refl A s
  | cons href rest ih =>
    intro s hall
    cases hb : env.pausedAt s.pauseChecks with
    | true =>
      have heq : resourceLoop env pageUrl total base span failTag handle (href :: rest) s
          = markPaused { s with events := s.events ++ [.check true], pauseChecks := s.pauseChecks + 1 } := by
        simp [resourceLoop, pauseCheck, hb]
      rw [heq]
      refine ⟨?_, rfl, ⟨[], by simp [markPaused]⟩, ⟨[], by simp [markPaused]⟩⟩
      exact count_fetch_append A s.events [.check true]
        (by intro e he; simp at he; subst he; intro hcon; exact Ev.noConfusion hcon)
    | false =>
      obtain ⟨s₂, heq, hquiet⟩ := resourceLoop_step_quiet env pageUrl total base span
        failTag handle A href rest s hb
        (hall href (List.mem_cons_self _ _)) Hh
      rw [heq]
      exact quietA_trans hquiet
        (ih s₂ (fun h hm B hB => hall h (List.mem_cons_of_mem _ hm) B hB))

/-- The image loop over a work list containing `u` exactly once — `u`
resolving to the fetchable URL `A` and no other item resolving to `A`
— fetches `A` exactly once, records exactly one file sourced from
`A`, and appends the image rewrite of `u` to the canonical local
path. -/
theorem resourceLoop_imgOnce (env : Env) (pageUrl : String) (total base span : Nat)
    (failTag : String) (A u content : String)
    (hnp : NoPause env)
    (hres : resolveHref env.R u pageUrl = some A)
    (hlkA : lookupWeb env.web A = some content) :
    ∀ (items : List String) (s : RunState),
      items.count u = 1 →
      (∀ href ∈ items, href ≠ u → ∀ B, resolveHref env.R href pageUrl = some B → B ≠ A) →
      (resourceLoop env pageUrl total base span failTag (imgHandler env pageUrl)
          items s).events.count (Ev.fetch A)
        = s.events.count (Ev.fetch A) + 1 ∧
      fileCount A (resourceLoop env pageUrl total base span failTag
          (imgHandler env pageUrl) items s).files = fileCount A s.files + 1 ∧
      (∃ t, (resourceLoop env pageUrl total base span failTag (imgHandler env pageUrl)
          items s).imgRewrites = s.imgRewrites ++ t ∧
        (u, "./images/" ++ getLocalPath env.R u pageUrl) ∈ t) ∧
      (∃ t, (resourceLoop env pageUrl total base span failTag (imgHandler env pageUrl)
          items s).styleRewrites = s.styleRewrites ++ t) := by
  intro items
  induction items with
  | nil =>
    intro s hcount
    simp at hcount
  | cons href rest ih =>
    intro s hcount hall
    have hb : env.pausedAt s.pauseChecks = false := hnp _
    by_cases hhu : href = u
    · subst hhu
      have hrest0 : rest.count href = 0 := by
        rw [List.count_cons_self] at hcount
        omega
      have hnotin : href ∉ rest := List.count_eq_zero.mp hrest0
      have hallrest : ∀ h2 ∈ rest, ∀ B,
          resolveHref env.R h2 pageUrl = some B → B ≠ A := by
        intro h2 hmem B hB
        exact hall h2 (List.mem_cons_of_mem _ hmem)
          (fun he => hnotin (he ▸ hmem)) B hB
      set s₁ : RunState := { s with events := s.events ++ [.check false], pauseChecks := s.pauseChecks + 1 } with hs₁
      set sh := imgHandler env pageUrl (recordFetch s₁ A) href A content with hsh
      set s₂ := report { sh with downloadedCount := sh.downloadedCount + 1 }
        (base + (sh.downloadedCount + 1) * span / total) with hs₂
      have heq : resourceLoop env pageUrl total base span failTag
          (imgHandler env pageUrl) (href :: rest) s
          = resourceLoop env pageUrl total base span failTag
            (imgHandler env pageUrl) rest s₂ := by
        simp [resourceLoop, pauseCheck, hb, hres, hlkA, hs₁, hsh, hs₂, report]
      rw [heq]
      have hq := resourceLoop_quietA env pageUrl total base span failTag
        (imgHandler env pageUrl) A (quietA_imgHandler env pageUrl A) rest s₂ hallrest
      obtain ⟨qe, qf, ⟨ti, hti⟩, ⟨ts, hts⟩⟩ := hq
      have h2e : s₂.events = s.events ++ [.check false] ++ [.fetch A] := by
        simp [hs₂, hsh, imgHandler, report, recordFetch, hs₁]
      have h2f : s₂.files = s.files ++
          [⟨"images/" ++ getLocalPath env.R href pageUrl, "image",
            content.length, some A⟩] := by
        simp [hs₂, hsh, imgHandler, report, recordFetch, hs₁]
      have h2i : s₂.imgRewrites = s.imgRewrites ++
          [(href, "./images/" ++ getLocalPath env.R href pageUrl)] := by
        simp [hs₂, hsh, imgHandler, report, recordFetch, hs₁]
      have h2s : s₂.styleRewrites = s.styleRewrites := by
        simp [hs₂, hsh, imgHandler, report, recordFetch, hs₁]
      refine ⟨?_, ?_, ?_, ?_⟩
      · rw [qe, h2e]
        rw [List.append_assoc, List.count_append]
        have : ([Ev.check false] ++ [Ev.fetch A]).count (Ev.fetch A) = 1 := by
          simp [List.count_cons]
        omega
      · rw [qf, h2f]
        unfold fileCount
        rw [List.countP_append]
        simp
      · refine ⟨[(href, "./images/" ++ getLocalPath env.R href pageUrl)] ++ ti, ?_, ?_⟩
        · rw [hti, h2i, List.append_assoc]
        · exact List.mem_append_left ti (List.mem_singleton.mpr rfl)
      · exact ⟨ts, by rw [hts, h2s]⟩
    · have hcount2 : rest.count u = 1 := by
        rw [List.count_cons_of_ne (fun he => hhu he.symm)] at hcount
        exact hcount
      obtain ⟨s₂, heq, hquiet⟩ := resourceLoop_step_quiet env pageUrl total base span
        failTag (imgHandler env pageUrl) A href rest s hb
        (fun B hB => hall href (List.mem_cons_self _ _) hhu B hB)
        (quietA_imgHandler env pageUrl A)
      rw [heq]
      obtain ⟨ce, cf, ⟨ti, hti⟩, ⟨ts, hts⟩⟩ := hquiet
      obtain ⟨re, rf, ⟨ri, hri, hmem⟩, ⟨rs, hrs⟩⟩ := ih s₂ hcount2
        (fun h2 hm hne B hB => hall h2 (List.mem_cons_of_mem _ hm) hne B hB)
      refine ⟨?_, ?_, ?_, ?_⟩
      · rw [re, ce]
      · rw [rf, cf]
      · exact ⟨ti ++ ri, by rw [hri, hti, List.append_assoc],
          List.mem_append_right ti hmem⟩
      · exact ⟨ts ++ rs, by rw [hrs, hts, List.append_assoc]⟩

/-- The inline-style pass touches neither events, files nor the image
rewrites, and only appends style rewrites. -/
theorem rewriteStylePass_more (env : Env) (pageUrl : String) :
    ∀ (refs : List String) (s : RunState),
      (rewriteStylePass env pageUrl refs s).events = s.events ∧
      (rewriteStylePass env pageUrl refs s).files = s.files ∧
      (rewriteStylePass env pageUrl refs s).imgRewrites = s.imgRewrites ∧
      (∃ t, (rewriteStylePass env pageUrl refs s).styleRewrites
        = s.styleRewrites ++ t) := by
  intro refs
  induction refs with
  | nil =>
    intro s
    exact ⟨rfl, rfl, rfl, ⟨[], by simp [rewriteStylePass]⟩⟩
  | cons u rest ih =>
    intro s
    have key : rewriteStylePass env pageUrl (u :: rest) s =
        rewriteStylePass env pageUrl rest
          (if keepNonData u then
            match env.R u pageUrl with
            | none => s
            | some _ =>
              { s with styleRewrites := s.styleRewrites ++
                  [(u, "./images/" ++ getLocalPath env.R u pageUrl)] }
          else s) := rfl
    rw [key]
    by_cases hk : keepNonData u
    · cases hR : env.R u pageUrl with
      | none =>
        rw [if_pos hk]
        obtain ⟨h1, h2, h3, ⟨t, ht⟩⟩ := ih ((match env.R u pageUrl with
          | none => s
          | some _ =>
            { s with styleRewrites := s.styleRewrites ++
                [(u, "./images/" ++ getLocalPath env.R u pageUrl)] } : RunState))
        rw [hR] at h1 h2 h3 ht
        exact ⟨h1, h2, h3, ⟨t, ht⟩⟩
      | some w =>
        rw [if_pos hk]
        obtain ⟨h1, h2, h3, ⟨t, ht⟩⟩ := ih ((match env.R u pageUrl with
          | none => s
          | some _ =>
            { s with styleRewrites := s.styleRewrites ++
                [(u, "./images/" ++ getLocalPath env.R u pageUrl)] } : RunState))
        rw [hR] at h1 h2 h3 ht
        refine ⟨h1, h2, h3,
          ⟨[(u, "./images/" ++ getLocalPath env.R u pageUrl)] ++ t, ?_⟩⟩
        rw [ht]
        simp
    · rw [if_neg hk]
      exact ih s

/-- The inline-style pass rewrites every accepted, resolvable
background reference to `./images/` plus its canonical local path. -/
theorem rewriteStylePass_mem (env : Env) (pageUrl u : String) (W : URLParts)
    (hk : keepNonData u = true) (hR : env.R u pageUrl = some W) :
    ∀ (refs : List String) (s : RunState), u ∈ refs →
      (u, "./images/" ++ getLocalPath env.R u pageUrl)
        ∈ (rewriteStylePass env pageUrl refs s).styleRewrites := by
  intro refs
  induction refs with
  | nil =>
    intro s hmem
    simp at hmem
  | cons r rest ih =>
    intro s hmem
    have key : rewriteStylePass env pageUrl (r :: rest) s =
        rewriteStylePass env pageUrl rest
          (if keepNonData r then
            match env.R r pageUrl with
            | none => s
            | some _ =>
              { s with styleRewrites := s.styleRewrites ++
                  [(r, "./images/" ++ getLocalPath env.R r pageUrl)] }
          else s) := rfl
    rw [key]
    rcases List.mem_cons.mp hmem with rfl | hmem
    · have hstep : (u, "./images/" ++ getLocalPath env.R u pageUrl)
          ∈ (if keepNonData u then
            match env.R u pageUrl with
            | none => s
            | some _ =>
              { s with styleRewrites := s.styleRewrites ++
                  [(u, "./images/" ++ getLocalPath env.R u pageUrl)] }
          else s).styleRewrites := by
        rw [if_pos hk, hR]
        simp
      obtain ⟨-, -, -, ⟨t, ht⟩⟩ := rewriteStylePass_more env pageUrl rest
        (if keepNonData u then
          match env.R u pageUrl with
          | none => s
          | some _ =>
            { s with styleRewrites := s.styleRewrites ++
                [(u, "./images/" ++ getLocalPath env.R u pageUrl)] }
        else s)
      rw [ht]
      exact List.mem_append_left t hstep
    · exact ih _ hmem

/-- A bare report is quiet for any URL. -/
theorem quietA_report (A : String) (s : RunState) (v : Nat) :
    QuietA A s (report s v) :=
  ⟨rfl, rfl, ⟨[], by simp [report]⟩, ⟨[], by simp [report]⟩⟩

/-- A phase header is quiet for any URL. -/
theorem quietA_phaseHeader (A : String) (s : RunState) (b : Bool) (v : Nat) :
    QuietA A s (phaseHeader s b v) := by
  cases b with
  | false => exact quietA_refl A s
  | true => exact quietA_report A s v

/-- Writing the final document is quiet for any URL: the record it
adds has no source URL. -/
theorem quietA_saveIndexHtml (A : String) (htmlLen : Nat) (s : RunState) :
    QuietA A s (saveIndexHtml htmlLen s) := by
  refine ⟨rfl, ?_, ⟨[], by simp [saveIndexHtml]⟩, ⟨[], by simp [saveIndexHtml]⟩⟩
  exact fileCount_append A s.files [⟨"index.html", "html", htmlLen, none⟩]
    (by intro f hf; simp at hf; subst hf; intro hcon; exact Option.noConfusion hcon)

/-- The inline-style pass is quiet for any URL. -/
theorem quietA_rewriteStylePass (A : String) (env : Env) (pageUrl : String)
    (refs : List String) (s : RunState) :
    QuietA A s (rewriteStylePass env pageUrl refs s) := by
  obtain ⟨h1, h2, h3, ⟨t, ht⟩⟩ := rewriteStylePass_more env pageUrl refs s
  exact ⟨by rw [h1], by rw [h2], ⟨[], by rw [h3]; simp⟩, ⟨t, ht⟩⟩

/-- Through the whole phase chain of a no-crawl run on a document
that references the image `u` (resolving to the servable URL `A`)
once in its deduplicated image work list and also in an inline
background style — with no other reference of the document or of any
web stylesheet resolving to `A` — the image is fetched exactly once,
exactly one file record sourced from `A` is created, and both the img
rewrite map and the style rewrite map receive `u ↦ ./images/` plus
its canonical local path. -/
theorem clonePhases_imageOnce (env : Env) (url : String) (method : Method)
    (doc : Doc) (htmlLen : Nat) (s : RunState) (A u content : String) (W : URLParts)
    (hnp : NoPause env)
    (hret : s.returned = false)
    (hRu : env.R u url = some W)
    (hres : resolveHref env.R u url = some A)
    (hlkA : lookupWeb env.web A = some content)
    (hAweb : ¬ WebCssRef env A)
    (hkeep : keepNonData u = true)
    (hsty : u ∈ doc.styleBgRefs)
    (himg1 : (imagesSet doc).count u = 1)
    (himgo : ∀ href ∈ imagesSet doc, href ≠ u →
      ∀ B, resolveHref env.R href url = some B → B ≠ A)
    (hfont : ∀ href ∈ fontSet doc, ∀ B, resolveHref env.R href url = some B → B ≠ A)
    (hicon : ∀ href ∈ iconSet doc, ∀ B, resolveHref env.R href url = some B → B ≠ A)
    (hcss : ∀ href ∈ cssSet doc, ∀ B, resolveHref env.R href url = some B → B ≠ A)
    (hjs : ∀ href ∈ jsSet doc, ∀ B, resolveHref env.R href url = some B → B ≠ A) :
    (clonePhases env url method 0 doc htmlLen s).events.count (Ev.fetch A)
      = s.events.count (Ev.fetch A) + 1 ∧
    fileCount A (clonePhases env url method 0 doc htmlLen s).files
      = fileCount A s.files + 1 ∧
    (u, "./images/" ++ getLocalPath env.R u url)
      ∈ (clonePhases env url method 0 doc htmlLen s).imgRewrites ∧
    (u, "./images/" ++ getLocalPath env.R u url)
      ∈ (clonePhases env url method 0 doc htmlLen s).styleRewrites := by
  have hg : GoodRun env url 0 := ⟨hnp, fun h => absurd h (by omega)⟩
  set total := (cssSet doc).length + (jsSet doc).length + (imagesSet doc).length
      + (fontSet doc).length + (iconSet doc).length with htot
  set base := baseProgressOf method with hbase
  set s0 : RunState := { s with cssVisited := [], cssPathMap := [] } with hs0
  set s1 := seqRun s0 (fun t => phaseHeader t (!(fontSet doc).isEmpty) base) with hs1
  set s2 := seqRun s1
    (resourceLoop env url total base 5 "Font" (fontHandler env url) (fontSet doc)) with hs2
  set s3 := seqRun s2 (fun t => phaseHeader t (!(iconSet doc).isEmpty) (base + 5)) with hs3
  set s4 := seqRun s3
    (resourceLoop env url total (base + 5) 5 "Icon" (iconHandler env url)
      (iconSet doc)) with hs4
  set s5 := seqRun s4 (fun t => phaseHeader t (!(cssSet doc).isEmpty) (base + 10)) with hs5
  set s6 := seqRun s5
    (resourceLoop env url total (base + 10) 15 "CSS" (cssHandler env url)
      (cssSet doc)) with hs6
  set s7 := seqRun s6 (fun t => phaseHeader t (!(jsSet doc).isEmpty) (base + 25)) with hs7
  set s8 := seqRun s7
    (resourceLoop env url total (base + 25) 20 "JavaScript" (jsHandler env url)
      (jsSet doc)) with hs8
  set s9 := seqRun s8 (fun t => phaseHeader t (!(imagesSet doc).isEmpty) (base + 45)) with hs9
  set s10 := seqRun s9
    (resourceLoop env url total (base + 45) 25 "Image" (imgHandler env url)
      (imagesSet doc)) with hs10
  set s11 := seqRun s10 (fun t => report t 88) with hs11
  set s12 := seqRun s11 (rewriteStylePass env url doc.styleBgRefs) with hs12
  set s13 := seqRun s12 (fun t => report t 90) with hs13
  set s14 := seqRun s13 (saveIndexHtml htmlLen) with hs14
  set s15 := seqRun s14 (crawlPhase env url 0 doc) with hs15
  have hmain : clonePhases env url method 0 doc htmlLen s
      = seqRun s15 completeRun := rfl
  rw [hmain]
  have hr0 : s0.returned = false := hret
  have w1 : WeakOk (GoodRun env url 0) (CrawlErrCause env url 0) s0 s1 :=
    seqRun_weak _ (fun t ht => (phaseHeader_ok _ _ total base _ t ht).1) s0
  have w2 : WeakOk (GoodRun env url 0) (CrawlErrCause env url 0) s1 s2 :=
    seqRun_weak _ (fun t ht => (resourceLoop_ok _ _ env url total base 5 "Font" _
      (tame_fontHandler env url) _ (fun hp => hp.1) t ht).1) s1
  have w3 : WeakOk (GoodRun env url 0) (CrawlErrCause env url 0) s2 s3 :=
    seqRun_weak _ (fun t ht => (phaseHeader_ok _ _ total (base + 5) _ t ht).1) s2
  have w4 : WeakOk (GoodRun env url 0) (CrawlErrCause env url 0) s3 s4 :=
    seqRun_weak _ (fun t ht => (resourceLoop_ok _ _ env url total (base + 5) 5 "Icon" _
      (tame_iconHandler env url) _ (fun hp => hp.1) t ht).1) s3
  have w5 : WeakOk (GoodRun env url 0) (CrawlErrCause env url 0) s4 s5 :=
    seqRun_weak _ (fun t ht => (phaseHeader_ok _ _ total (base + 10) _ t ht).1) s4
  have w6 : WeakOk (GoodRun env url 0) (CrawlErrCause env url 0) s5 s6 :=
    seqRun_weak _ (fun t ht => (resourceLoop_ok _ _ env url total (base + 10) 15 "CSS" _
      (tame_cssHandler env url) _ (fun hp => hp.1) t ht).1) s5
  have w7 : WeakOk (GoodRun env url 0) (CrawlErrCause env url 0) s6 s7 :=
    seqRun_weak _ (fun t ht => (phaseHeader_ok _ _ total (base + 25) _ t ht).1) s6
  have w8 : WeakOk (GoodRun env url 0) (CrawlErrCause env url 0) s7 s8 :=
    seqRun_weak _ (fun t ht => (resourceLoop_ok _ _ env url total (base + 25) 20
      "JavaScript" _ (tame_jsHandler env url) _ (fun hp => hp.1) t ht).1) s7
  have w9 : WeakOk (GoodRun env url 0) (CrawlErrCause env url 0) s8 s9 :=
    seqRun_weak _ (fun t ht => (phaseHeader_ok _ _ total (base + 45) _ t ht).1) s8
  have w10 : WeakOk (GoodRun env url 0) (CrawlErrCause env url 0) s9 s10 :=
    seqRun_weak _ (fun t ht => (resourceLoop_ok _ _ env url total (base + 45) 25 "Image" _
      (tame_imgHandler env url) _ (fun hp => hp.1) t ht).1) s9
  have w11 : WeakOk (GoodRun env url 0) (CrawlErrCause env url 0) s10 s11 :=
    seqRun_weak _ (fun t ht => (report_ok _ _ total 88 t ht).1) s10
  have w12 : WeakOk (GoodRun env url 0) (CrawlErrCause env url 0) s11 s12 :=
    seqRun_weak _ (fun t ht => (rewriteStylePass_ok _ _ env url total 88
      doc.styleBgRefs t ht).1) s11
  have w13 : WeakOk (GoodRun env url 0) (CrawlErrCause env url 0) s12 s13 :=
    seqRun_weak _ (fun t ht => (report_ok _ _ total 90 t ht).1) s12
  have w14 : WeakOk (GoodRun env url 0) (CrawlErrCause env url 0) s13 s14 :=
    seqRun_weak _ (fun t ht => (saveIndexHtml_ok _ _ htmlLen total 90 t ht).1) s13
  have hr1 : s1.returned = false := ((w1.2.1 hg).1).trans hr0
  have hr2 : s2.returned = false := ((w2.2.1 hg).1).trans hr1
  have hr3 : s3.returned = false := ((w3.2.1 hg).1).trans hr2
  have hr4 : s4.returned = false := ((w4.2.1 hg).1).trans hr3
  have hr5 : s5.returned = false := ((w5.2.1 hg).1).trans hr4
  have hr6 : s6.returned = false := ((w6.2.1 hg).1).trans hr5
  have hr7 : s7.returned = false := ((w7.2.1 hg).1).trans hr6
  have hr8 : s8.returned = false := ((w8.2.1 hg).1).trans hr7
  have hr9 : s9.returned = false := ((w9.2.1 hg).1).trans hr8
  have hr10 : s10.returned = false := ((w10.2.1 hg).1).trans hr9
  have hr11 : s11.returned = false := ((w11.2.1 hg).1).trans hr10
  have hr12 : s12.returned = false := ((w12.2.1 hg).1).trans hr11
  have hr13 : s13.returned = false := ((w13.2.1 hg).1).trans hr12
  have hr14 : s14.returned = false := ((w14.2.1 hg).1).trans hr13
  have heq1 : s1 = phaseHeader s0 (!(fontSet doc).isEmpty) base := by
    rw [hs1]; simp [seqRun, hr0, hret]
  have heq2 : s2 = resourceLoop env url total base 5 "Font" (fontHandler env url)
      (fontSet doc) s1 := by
    rw [hs2]; simp [seqRun, hr1]
  have heq3 : s3 = phaseHeader s2 (!(iconSet doc).isEmpty) (base + 5) := by
    rw [hs3]; simp [seqRun, hr2]
  have heq4 : s4 = resourceLoop env url total (base + 5) 5 "Icon" (iconHandler env url)
      (iconSet doc) s3 := by
    rw [hs4]; simp [seqRun, hr3]
  have heq5 : s5 = phaseHeader s4 (!(cssSet doc).isEmpty) (base + 10) := by
    rw [hs5]; simp [seqRun, hr4]
  have heq6 : s6 = resourceLoop env url total (base + 10) 15 "CSS" (cssHandler env url)
      (cssSet doc) s5 := by
    rw [hs6]; simp [seqRun, hr5]
  have heq7 : s7 = phaseHeader s6 (!(jsSet doc).isEmpty) (base + 25) := by
    rw [hs7]; simp [seqRun, hr6]
  have heq8 : s8 = resourceLoop env url total (base + 25) 20 "JavaScript"
      (jsHandler env url) (jsSet doc) s7 := by
    rw [hs8]; simp [seqRun, hr7]
  have heq9 : s9 = phaseHeader s8 (!(imagesSet doc).isEmpty) (base + 45) := by
    rw [hs9]; simp [seqRun, hr8]
  have heq10 : s10 = resourceLoop env url total (base + 45) 25 "Image"
      (imgHandler env url) (imagesSet doc) s9 := by
    rw [hs10]; simp [seqRun, hr9]
  have heq11 : s11 = report s10 88 := by
    rw [hs11]; simp [seqRun, hr10]
  have heq12 : s12 = rewriteStylePass env url doc.styleBgRefs s11 := by
    rw [hs12]; simp [seqRun, hr11]
  have heq13 : s13 = report s12 90 := by
    rw [hs13]; simp [seqRun, hr12]
  have heq14 : s14 = saveIndexHtml htmlLen s13 := by
    rw [hs14]; simp [seqRun, hr13]
  have heq15 : s15 = s14 := by
    rw [hs15]
    cases h14 : s14.returned with
    | true => simp [seqRun, h14]
    | false => simp [seqRun, h14, crawlPhase]
  have hr15 : s15.returned = false := by rw [heq15]; exact hr14
  have heq16 : seqRun s15 completeRun
      = report { s15 with status := "complete" } 100 := by
    simp [seqRun, hr15, completeRun]
  have q1 : QuietA A s0 s1 := by
    rw [heq1]; exact quietA_phaseHeader A s0 _ base
  have q2 : QuietA A s1 s2 := by
    rw [heq2]
    exact resourceLoop_quietA env url total base 5 "Font" _ A
      (quietA_fontHandler env url A) (fontSet doc) s1 hfont
  have q3 : QuietA A s2 s3 := by
    rw [heq3]; exact quietA_phaseHeader A s2 _ (base + 5)
  have q4 : QuietA A s3 s4 := by
    rw [heq4]
    exact resourceLoop_quietA env url total (base + 5) 5 "Icon" _ A
      (quietA_iconHandler env url A) (iconSet doc) s3 hicon
  have q5 : QuietA A s4 s5 := by
    rw [heq5]; exact quietA_phaseHeader A s4 _ (base + 10)
  have q6 : QuietA A s5 s6 := by
    rw [heq6]
    exact resourceLoop_quietA env url total (base + 10) 15 "CSS" _ A
      (quietA_cssHandler env url A hAweb) (cssSet doc) s5 hcss
  have q7 : QuietA A s6 s7 := by
    rw [heq7]; exact quietA_phaseHeader A s6 _ (base + 25)
  have q8 : QuietA A s7 s8 := by
    rw [heq8]
    exact resourceLoop_quietA env url total (base + 25) 20 "JavaScript" _ A
      (quietA_jsHandler env url A) (jsSet doc) s7 hjs
  have q9 : QuietA A s8 s9 := by
    rw [heq9]; exact quietA_phaseHeader A s8 _ (base + 45)
  have Qpre : QuietA A s0 s9 :=
    (quietA_trans (quietA_trans (quietA_trans (quietA_trans (quietA_trans (quietA_trans (quietA_trans (quietA_trans q1 q2) q3) q4) q5) q6) q7) q8) q9)
  have O := resourceLoop_imgOnce env url total (base + 45) 25 "Image" A u content
    hnp hres hlkA (imagesSet doc) s9 himg1 himgo
  rw [← heq10] at O
  obtain ⟨oe, ofi, ⟨ti, hti, himem⟩, ⟨ts10, hts10⟩⟩ := O
  have q11 : QuietA A s10 s11 := by
    rw [heq11]; exact quietA_report A s10 88
  have q12 : QuietA A s11 s12 := by
    rw [heq12]; exact quietA_rewriteStylePass A env url doc.styleBgRefs s11
  have q13 : QuietA A s12 s13 := by
    rw [heq13]; exact quietA_report A s12 90
  have q14 : QuietA A s13 s14 := by
    rw [heq14]; exact quietA_saveIndexHtml A htmlLen s13
  have q15 : QuietA A s14 s15 := by
    rw [heq15]; exact quietA_refl A s14
  have q16 : QuietA A s15 (seqRun s15 completeRun) := by
    rw [heq16]; exact quietA_report A s15 100
  have Qpost : QuietA A s10 (seqRun s15 completeRun) :=
    (quietA_trans (quietA_trans (quietA_trans (quietA_trans (quietA_trans q11 q12) q13) q14) q15) q16)
  have Qpost12 : QuietA A s12 (seqRun s15 completeRun) :=
    (quietA_trans (quietA_trans (quietA_trans q13 q14) q15) q16)
  have hmem12 : (u, "./images/" ++ getLocalPath env.R u url) ∈ s12.styleRewrites := by
    rw [heq12]
    exact rewriteStylePass_mem env url u W hkeep hRu doc.styleBgRefs s11 hsty
  refine ⟨?_, ?_, ?_, ?_⟩
  · rw [Qpost.1, oe, Qpre.1]
  · rw [Qpost.2.1, ofi, Qpre.2.1]
  · obtain ⟨tp, htp⟩ := Qpost.2.2.1
    rw [htp, hti]
    exact List.mem_append_left tp
      (List.mem_append_right s9.imgRewrites himem)
  · obtain ⟨tp, htp⟩ := Qpost12.2.2.2
    rw [htp]
    exact List.mem_append_left tp hmem12

/-! ## Claim C2 -/

/-- C2: on every stylesheet import graph — cyclic ones included —
`processCSS` terminates (the fuel `cloneWebsite` supplies is never
exhausted), each distinct stylesheet URL is fetched at most once and
written at most once within one run (the ghost fetch and write logs
stay duplicate-free), and a repeated visit returns the empty result
so the caller does not write again. -/
theorem processCSS_terminates_at_most_once (env : Env) (s : RunState) (c u p : String)
    (hgood : CssGood s) :
    (processCSS env (cssFuel env) s c u p).1.ranOut = s.ranOut ∧
    (processCSS env (cssFuel env) s c u p).1.cssFetches.Nodup ∧
    (processCSS env (cssFuel env) s c u p).1.cssWrites.Nodup ∧
    (u ∈ s.cssVisited → processCSS env (cssFuel env) s c u p = (s, "")) := by
  have hfuel : cssFuel env ≥ 1 + unvisitedExcl env s u := by
    unfold cssFuel
    have h1 : unvisitedExcl env s u ≤ (webDomain env).card := Finset.card_filter_le _ _
    have h2 : (webDomain env).card ≤ env.web.length := by
      unfold webDomain
      calc (env.web.map Prod.fst).toFinset.card
          ≤ (env.web.map Prod.fst).length := (env.web.map Prod.fst).toFinset_card_le
        _ = env.web.length := List.length_map _ _
    omega
  have hq := (processCSS_invariants env (cssFuel env)).1 s c u p hfuel
  have hpre : CssPre s u :=
    ⟨hgood.1, fun v hv => Or.inl (hgood.2.1 v hv), hgood.2.2.1, hgood.2.2.2⟩
  have hgood' := hq.2.1 hpre
  have hA := (processCSS_stepA env (cssFuel env)).1 s c u p
  exact ⟨hq.1, hgood'.1, hgood'.2.2.1,
    fun hvv => hA.2.2 hvv (by unfold cssFuel; omega)⟩

/-- Witness for C2: the cyclic graph A ↔ B started at A terminates
without exhausting fuel, fetches and writes B exactly once, and a
repeated activation on A returns the empty result. -/
theorem processCSS_terminates_at_most_once_witness :
    (processCSS cycEnv (cssFuel cycEnv) initState "ACSS"
        "http://e.com/a.css" "a.css").1.ranOut = initState.ranOut ∧
    (processCSS cycEnv (cssFuel cycEnv) initState "ACSS"
        "http://e.com/a.css" "a.css").1.cssFetches.Nodup ∧
    (processCSS cycEnv (cssFuel cycEnv) initState "ACSS"
        "http://e.com/a.css" "a.css").1.cssWrites.Nodup ∧
    ("http://e.com/a.css" ∈
        ((processCSS cycEnv (cssFuel cycEnv) initState "ACSS"
          "http://e.com/a.css" "a.css").1).cssVisited →
      processCSS cycEnv (cssFuel cycEnv)
        ((processCSS cycEnv (cssFuel cycEnv) initState "ACSS"
          "http://e.com/a.css" "a.css").1) "ACSS" "http://e.com/a.css" "a.css" =
        (((processCSS cycEnv (cssFuel cycEnv) initState "ACSS"
          "http://e.com/a.css" "a.css").1), "")) ∧
    (processCSS cycEnv (cssFuel cycEnv) initState "ACSS"
        "http://e.com/a.css" "a.css").1.cssFetches = ["http://e.com/b.css"] ∧
    (processCSS cycEnv (cssFuel cycEnv) initState "ACSS"
        "http://e.com/a.css" "a.css").1.cssWrites = ["http://e.com/b.css"] := by
  have hrun := processCSS_terminates_at_most_once cycEnv initState "ACSS"
    "http://e.com/a.css" "a.css" (by constructor <;> simp [initState])
  have hgood₂ : CssGood (processCSS cycEnv (cssFuel cycEnv) initState "ACSS"
      "http://e.com/a.css" "a.css").1 := by
    constructor
    · exact hrun.2.1
    refine ⟨?_, hrun.2.2.1, ?_⟩ <;> decide
  have hrerun := processCSS_terminates_at_most_once cycEnv
    (processCSS cycEnv (cssFuel cycEnv) initState "ACSS"
      "http://e.com/a.css" "a.css").1 "ACSS" "http://e.com/a.css" "a.css" hgood₂
  exact ⟨hrun.1, hrun.2.1, hrun.2.2.1, fun hm => hrerun.2.2.2 hm, by decide, by decide⟩

/-! ## Claims C8 and C10 -/

/-- C8: when the initial fetch succeeds, `estimateClone` returns a
`resourceCount` equal to the number of distinct stylesheet link
hrefs, plus the number of distinct script src values, plus the number
of distinct non-data-URI img src values, plus 1 for the HTML document
itself. -/
theorem estimateClone_resourceCount (env : Env) (url : String) (method : Method)
    (crawlDepth : Nat) (html : String) (h : lookupWeb env.web url = some html) :
    (estimateClone env url method crawlDepth).resourceCount =
      ((env.parseDoc html).cssLinks.filter keepSome).toFinset.card
      + ((env.parseDoc html).jsScripts.filter keepSome).toFinset.card
      + ((env.parseDoc html).imgSrcs.filter keepNonData).toFinset.card + 1 := by
  simp only [estimateClone, h]
  simp only [cssSet, jsSet, imgSetEst, addAll_length_eq_card]

/-- Witness for C8: the fixture document with 3 stylesheets, 2
scripts and 5 images yields `resourceCount = 11`. -/
theorem estimateClone_resourceCount_witness :
    lookupWeb estEnv.web "http://e.com/" = some "page" ∧
    (estimateClone estEnv "http://e.com/" .static 0).resourceCount = 11 := by
  refine ⟨rfl, ?_⟩
  rw [estimateClone_resourceCount estEnv "http://e.com/" .static 0 "page" rfl]
  decide

/-- C10: `estimateClone` never propagates an error: when the initial
fetch fails it returns the fixed default estimate — 30 seconds for
the playwright method, 15 for static, 2 MiB, resource count 10 —
instead of raising. -/
theorem estimateClone_default_on_failure (env : Env) (url : String) (method : Method)
    (crawlDepth : Nat) (h : lookupWeb env.web url = none) :
    estimateClone env url method crawlDepth =
      { estimatedTime := if method = .playwright then 30 else 15
        estimatedSize := 2 * 1024 * 1024
        resourceCount := 10 } := by
  simp only [estimateClone, h]

/-- Witness for C10: an unfetchable URL yields the default estimate
for both methods. -/
theorem estimateClone_default_on_failure_witness :
    lookupWeb estEnv.web "http://x.test/" = none ∧
    estimateClone estEnv "http://x.test/" .playwright 0 =
      { estimatedTime := 30, estimatedSize := 2097152, resourceCount := 10 } ∧
    estimateClone estEnv "http://x.test/" .static 2 =
      { estimatedTime := 15, estimatedSize := 2097152, resourceCount := 10 } := by
  refine ⟨rfl, ?_, ?_⟩
  · rw [estimateClone_default_on_failure estEnv "http://x.test/" .playwright 0 rfl]
    decide
  · rw [estimateClone_default_on_failure estEnv "http://x.test/" .static 2 rfl]
    decide

/-! ## Claims C6 and C7 -/

/-- C6: `getLocalPath` resolves the reference against the base and
derives the relative path from the absolute URL's path component: the
root path (`/` or empty) maps to `index.html`; the leading slash is
stripped; a path whose final segment has no file extension gets
`index.html` appended as if it were a directory; and on any input on
which URL resolution fails the function returns `index.html` instead
of throwing. -/
theorem getLocalPath_branches (R : Resolver) (url baseUrl : String) :
    (R url baseUrl = none → getLocalPath R url baseUrl = "index.html") ∧
    (∀ u, R url baseUrl = some u → (u.pathname = "/" ∨ u.pathname = "") →
      getLocalPath R url baseUrl = "index.html") ∧
    (∀ u, R url baseUrl = some u → ¬(u.pathname = "/" ∨ u.pathname = "") →
      extname (stripLeadingSlash u.pathname) = "" →
      getLocalPath R url baseUrl = joinPath (stripLeadingSlash u.pathname) "index.html") ∧
    (∀ u, R url baseUrl = some u → ¬(u.pathname = "/" ∨ u.pathname = "") →
      extname (stripLeadingSlash u.pathname) ≠ "" →
      getLocalPath R url baseUrl = stripLeadingSlash u.pathname) := by
  refine ⟨fun h => ?_, fun u h hroot => ?_, fun u h hroot hext => ?_, fun u h hroot hext => ?_⟩
  · simp only [getLocalPath, h]
  · simp only [getLocalPath, h]
    simp [hroot]
  · simp only [getLocalPath, h]
    simp [hroot, hext]
  · simp only [getLocalPath, h]
    simp [hroot, hext]

/-- Witness for C6: each branch of `getLocalPath_branches` applied at
a concrete input. -/
theorem getLocalPath_branches_witness :
    getLocalPath wRes "%%" "b" = "index.html" ∧
    getLocalPath wRes "root" "b" = "index.html" ∧
    getLocalPath wRes "guide" "b" = joinPath (stripLeadingSlash "/docs/guide") "index.html" ∧
    getLocalPath wRes "app" "b" = stripLeadingSlash "/a/app.css" :=
  ⟨(getLocalPath_branches wRes "%%" "b").1 rfl,
   (getLocalPath_branches wRes "root" "b").2.1 _ rfl (by decide),
   (getLocalPath_branches wRes "guide" "b").2.2.1 _ rfl (by decide) (by decide),
   (getLocalPath_branches wRes "app" "b").2.2.2 _ rfl (by decide) (by decide)⟩

/-- C7: after `processCSS` rewrites a stylesheet, a resolved
`@import` is replaced by a relative path whose leading segment has
one `../` per directory level of the parent stylesheet's local path
(`./` at depth 0), and a resolved `url()` reference gets one extra
`../` level and a folder chosen by extension: `fonts/` for
woff, woff2, ttf, otf, eot; `images/` for png, jpg, jpeg, gif, svg,
webp, ico; `css/` otherwise. -/
theorem processCSS_rewrite_paths :
    (∀ p, dirDepth p > 0 →
      importRelStart p = String.join (List.replicate (dirDepth p) "../")) ∧
    (∀ p, dirDepth p = 0 → importRelStart p = "./") ∧
    (∀ p, urlRelStart p = String.join (List.replicate (dirDepth p + 1) "../")) ∧
    (∀ e, e ∈ fontExts → cssResFolder e = "fonts") ∧
    (∀ e, e ∈ imgExts → cssResFolder e = "images") ∧
    (∀ e, e ∉ fontExts → e ∉ imgExts → cssResFolder e = "css") ∧
    (∀ css ip lp parent, rewriteImportStmt css ip lp parent =
      replaceAll css (importPattern ip)
        ("@import url(" ++ sq ++ importRelStart parent ++ lp ++ sq ++ ");")) ∧
    (∀ css up folder lp parent, rewriteUrlRef css up folder lp parent =
      replaceAll css (urlPattern up)
        ("url(" ++ sq ++ urlRelStart parent ++ folder ++ "/" ++ lp ++ sq ++ ")")) := by
  refine ⟨fun p hp => ?_, fun p hp => ?_, fun p => ?_, fun e he => ?_, fun e he => ?_,
    fun e he1 he2 => ?_, fun _ _ _ _ => rfl, fun _ _ _ _ _ => rfl⟩
  · simp [importRelStart, hp]
  · simp [importRelStart, hp]
  · by_cases hp : dirDepth p > 0
    · simp [urlRelStart, hp]
    · have h0 : dirDepth p = 0 := by omega
      simp only [urlRelStart, h0]
      norm_num
      rfl
  · simp [cssResFolder, he]
  · have hne : e ∉ fontExts := by
      simp only [imgExts, List.mem_cons, List.not_mem_nil, or_false] at he
      rcases he with rfl | rfl | rfl | rfl | rfl | rfl | rfl <;> decide
    simp [cssResFolder, hne, he]
  · simp [cssResFolder, he1, he2]

/-- Witness for C7: the rewrite-path facts applied at concrete
inputs (a parent stylesheet two directories deep, and the `woff`,
`png`, `js` extensions). -/
theorem processCSS_rewrite_paths_witness :
    importRelStart "a/b/x.css" = String.join (List.replicate 2 "../") ∧
    importRelStart "x.css" = "./" ∧
    urlRelStart "a/b/x.css" = String.join (List.replicate 3 "../") ∧
    cssResFolder "woff" = "fonts" ∧
    cssResFolder "png" = "images" ∧
    cssResFolder "js" = "css" :=
  ⟨by
    have h := processCSS_rewrite_paths.1 "a/b/x.css" (by decide)
    rw [show dirDepth "a/b/x.css" = 2 from rfl] at h
    exact h,
   processCSS_rewrite_paths.2.1 "x.css" (by decide),
   by
    have h := processCSS_rewrite_paths.2.2.1 "a/b/x.css"
    rw [show dirDepth "a/b/x.css" + 1 = 3 from rfl] at h
    exact h,
   processCSS_rewrite_paths.2.2.2.1 "woff" (by decide),
   processCSS_rewrite_paths.2.2.2.2.1 "png" (by decide),
   processCSS_rewrite_paths.2.2.2.2.2.1 "js" (by decide) (by decide)⟩

/-! ## Claim C1 -/

/-- C1 counterexample: on a one-image site mirrored with the static
method, the reported progress reaches 90 inside the image band and
then drops to 88 at finalization, so the sequence of reported values
is not monotonically non-decreasing even though the run completes. -/
theorem progress_monotonicity_counterexample :
    (cloneWebsite envC1 "http://e.com/" .static 0).status = "complete" ∧
    (cloneWebsite envC1 "http://e.com/" .static 0).progressLog
      = [10, 20, 65, 90, 88, 90, 100] ∧
    ¬ List.Chain' (· ≤ ·) (cloneWebsite envC1 "http://e.com/" .static 0).progressLog := by
  refine ⟨rfl, rfl, ?_⟩
  intro h
  rw [show (cloneWebsite envC1 "http://e.com/" .static 0).progressLog
    = [10, 20, 65, 90, 88, 90, 100] from rfl] at h
  simp [List.chain'_cons] at h

/-- C1 amended: every run that reaches status `complete` reports
exactly 100 last; and under the playwright method with no crawl, a
fetchable document and monotone render emissions the whole reported
sequence is monotonically non-decreasing (the static method violates
this, see the counterexample). -/
theorem cloneWebsite_progress_amended (env : Env) (url : String) (method : Method)
    (crawlDepth : Nat) :
    ((cloneWebsite env url method crawlDepth).status = "complete" →
      (cloneWebsite env url method crawlDepth).progressLog.getLast? = some 100) ∧
    (method = .playwright → crawlDepth = 0 → (lookupWeb env.web url).isSome →
      List.Chain' (· ≤ ·) (renderEmits env.renderEvents) →
      List.Chain' (· ≤ ·) (cloneWebsite env url method crawlDepth).progressLog) := by
  obtain ⟨c1, -, -, -, c5⟩ := cloneWebsite_spec env url method crawlDepth
  exact ⟨c1, c5⟩

/-- C1 amended, witnessed on a concrete playwright run. -/
theorem cloneWebsite_progress_amended_witness :
    (cloneWebsite envCW "http://e.com/" .playwright 0).status = "complete" ∧
    (lookupWeb envCW.web "http://e.com/").isSome ∧
    List.Chain' (· ≤ ·) (renderEmits envCW.renderEvents) ∧
    (cloneWebsite envCW "http://e.com/" .playwright 0).progressLog.getLast? = some 100 ∧
    List.Chain' (· ≤ ·) (cloneWebsite envCW "http://e.com/" .playwright 0).progressLog := by
  have hch : List.Chain' (· ≤ ·) (renderEmits envCW.renderEvents) := by
    rw [show renderEmits envCW.renderEvents = [1, 9, 10] from rfl]
    simp [List.chain'_cons]
  refine ⟨rfl, rfl, hch, ?_, ?_⟩
  · exact (cloneWebsite_progress_amended envCW "http://e.com/" .playwright 0).1 rfl
  · exact (cloneWebsite_progress_amended envCW "http://e.com/" .playwright 0).2
      rfl rfl rfl hch

/-! ## Claim C4 -/

/-- C4: once the document is obtained (and the run is not paused, and
any requested crawl has a parsable job URL), the run always ends with
status `complete`, however many individual resource fetches fail; and
status `error` certifies that a message was recorded and that either
the document fetch itself failed or a crawl was requested on an
unparsable job URL — the two exceptions that reach the top level. -/
theorem cloneWebsite_error_handling (env : Env) (url : String) (method : Method)
    (crawlDepth : Nat) :
    (env.pausedAt 0 = false → (lookupWeb env.web url).isSome →
      GoodRun env url crawlDepth →
      (cloneWebsite env url method crawlDepth).status = "complete") ∧
    ((cloneWebsite env url method crawlDepth).status = "error" →
      (cloneWebsite env url method crawlDepth).errorMessage ≠ none ∧
      (lookupWeb env.web url = none ∨ CrawlErrCause env url crawlDepth)) := by
  obtain ⟨-, c2, c3, -, -⟩ := cloneWebsite_spec env url method crawlDepth
  exact ⟨c2, c3⟩

/-- C4 witnessed: a failing image fetch still completes (one failure
is counted), and a missing document errors with a recorded message. -/
theorem cloneWebsite_error_handling_witness :
    envC4.pausedAt 0 = false ∧
    (lookupWeb envC4.web "http://e.com/").isSome ∧
    GoodRun envC4 "http://e.com/" 0 ∧
    (cloneWebsite envC4 "http://e.com/" .static 0).status = "complete" ∧
    (cloneWebsite envC4 "http://e.com/" .static 0).failedCount = 1 ∧
    (cloneWebsite envC4 "http://e.com/missing" .static 0).status = "error" ∧
    (cloneWebsite envC4 "http://e.com/missing" .static 0).errorMessage ≠ none := by
  refine ⟨rfl, rfl, ⟨fun n => rfl, fun h => absurd h (by decide)⟩, ?_, rfl, rfl, ?_⟩
  · exact (cloneWebsite_error_handling envC4 "http://e.com/" .static 0).1 rfl rfl
      ⟨fun n => rfl, fun h => absurd h (by decide)⟩
  · exact ((cloneWebsite_error_handling envC4 "http://e.com/missing" .static 0).2 rfl).1

/-! ## Claim C5 -/

/-- C5 counterexample: the pause flag is NOT checked immediately
before each individual resource fetch — a stylesheet import is
fetched by `processCSS` right after the fetch of its parent
stylesheet, with no pause check in between, in a run that completes
normally. -/
theorem pause_check_before_fetch_counterexample :
    (cloneWebsite envC5 "http://e.com/" .static 0).status = "complete" ∧
    (cloneWebsite envC5 "http://e.com/" .static 0).events
      = [.check false, .fetch "http://e.com/", .check false,
         .fetch "http://e.com/s.css", .fetch "http://e.com/b.css"] ∧
    guardedEvents (cloneWebsite envC5 "http://e.com/" .static 0).events = false :=
  ⟨rfl, rfl, rfl⟩

/-- C5 amended: the pause flag is checked before each phase item (not
before the nested stylesheet-import fetches), and whenever a run ends
paused it returned immediately at the triggering check: the check
that observed the raised flag is the last event of the run, so no
fetch was started after it. -/
theorem cloneWebsite_pause_amended (env : Env) (url : String) (method : Method)
    (crawlDepth : Nat) :
    (cloneWebsite env url method crawlDepth).status = "paused" →
    (cloneWebsite env url method crawlDepth).returned = true ∧
    (cloneWebsite env url method crawlDepth).events.getLast? = some (.check true) := by
  obtain ⟨-, -, -, c4, -⟩ := cloneWebsite_spec env url method crawlDepth
  exact c4

/-- C5 amended, witnessed on a run paused at the very first check. -/
theorem cloneWebsite_pause_amended_witness :
    (cloneWebsite envPaused "http://e.com/" .static 0).status = "paused" ∧
    (cloneWebsite envPaused "http://e.com/" .static 0).returned = true ∧
    (cloneWebsite envPaused "http://e.com/" .static 0).events.getLast?
      = some (.check true) :=
  ⟨rfl, cloneWebsite_pause_amended envPaused "http://e.com/" .static 0 rfl⟩

/-! ## Claim C9 -/

/-- Soundness of the `extractLinks` accumulator: everything collected
is the resolution of some anchor with the job URL's hostname and a
different pathname. -/
theorem extractLinks_acc (env : Env) (baseUrl : String) (base : URLParts) :
    ∀ (l acc : List String),
      (∀ u ∈ acc, ∃ href A, env.R href baseUrl = some A ∧
        A.hostname = base.hostname ∧ A.pathname ≠ base.pathname ∧ u = A.href) →
      ∀ u ∈ l.foldl (fun links href =>
          if href ≠ "" ∧ ¬strStarts href "#" ∧ ¬strStarts href "mailto:" ∧
              ¬strStarts href "tel:" then
            match env.R href baseUrl with
            | none => links
            | some v =>
              if v.hostname = base.hostname ∧ v.pathname ≠ base.pathname then
                dedupAdd links v.href
              else links
          else links) acc,
        ∃ href A, env.R href baseUrl = some A ∧ A.hostname = base.hostname ∧
          A.pathname ≠ base.pathname ∧ u = A.href := by
  intro l
  induction l with
  | nil =>
    intro acc hacc u hu
    exact hacc u hu
  | cons href rest ih =>
    intro acc hacc u hu
    rw [List.foldl_cons] at hu
    refine ih _ ?_ u hu
    intro v hv
    by_cases hc : href ≠ "" ∧ ¬strStarts href "#" ∧ ¬strStarts href "mailto:" ∧
        ¬strStarts href "tel:"
    · rw [if_pos hc] at hv
      cases hR : env.R href baseUrl with
      | none =>
        rw [hR] at hv
        exact hacc v hv
      | some A =>
        rw [hR] at hv
        have hv' : v ∈ (if A.hostname = base.hostname ∧ A.pathname ≠ base.pathname then
            dedupAdd acc A.href else acc) := hv
        by_cases hs : A.hostname = base.hostname ∧ A.pathname ≠ base.pathname
        · rw [if_pos hs] at hv'
          rcases mem_dedupAdd.mp hv' with hv2 | rfl
          · exact hacc v hv2
          · exact ⟨href, A, hR, hs.1, hs.2, rfl⟩
        · rw [if_neg hs] at hv'
          exact hacc v hv' 
    · rw [if_neg hc] at hv
      exact hacc v hv

/-- C9: with crawl depth over 0, only anchors resolving to the job
URL's hostname with a different pathname are selected; at most ten of
them are mirrored; and each sub-page is one independent fetch saved as
its own HTML file, with no resource download and no rewrite shared
with the main page. -/
theorem crawl_same_domain_capped (env : Env) (url : String) (crawlDepth : Nat)
    (doc : Doc) (s : RunState) (base : URLParts) (links : List String)
    (hcd : crawlDepth > 0)
    (hpa : env.parseAbs url = some base)
    (hex : extractLinks env doc.anchorHrefs url = some links) :
    (∀ u ∈ links, ∃ href A, env.R href url = some A ∧
      A.hostname = base.hostname ∧ A.pathname ≠ base.pathname ∧ u = A.href) ∧
    (links.take 10).length ≤ 10 ∧
    crawlPhase env url crawlDepth doc s
      = subLoop env (links.take 10) (links.take 10).length 0 (report (report s 88) 90) ∧
    (∀ u t, (cloneSinglePage env u t).1.events = t.events ++ [.fetch u] ∧
      (cloneSinglePage env u t).1.linkRewrites = t.linkRewrites ∧
      (cloneSinglePage env u t).1.imgRewrites = t.imgRewrites ∧
      (cloneSinglePage env u t).1.styleRewrites = t.styleRewrites ∧
      (cloneSinglePage env u t).1.downloadedCount = t.downloadedCount ∧
      ((cloneSinglePage env u t).2 = true →
        ∃ A html, env.parseAbs u = some A ∧ lookupWeb env.web u = some html ∧
          (cloneSinglePage env u t).1.saves = t.saves ++ [pagePathOf A ++ ".html"] ∧
          (cloneSinglePage env u t).1.files
            = t.files ++ [⟨pagePathOf A ++ ".html", "html", html.length, none⟩])) := by
  refine ⟨?_, ?_, ?_, ?_⟩
  · unfold extractLinks at hex
    rw [hpa] at hex
    simp only [Option.some.injEq] at hex
    intro u hu
    rw [← hex] at hu
    exact extractLinks_acc env url base doc.anchorHrefs [] (by simp) u hu
  · rw [List.length_take]
    omega
  · simp [crawlPhase, hcd, hex]
  · intro u t
    unfold cloneSinglePage
    cases hlk : lookupWeb env.web u with
    | none =>
      refine ⟨rfl, rfl, rfl, rfl, rfl, ?_⟩
      intro h
      cases h
    | some html =>
      cases hA : env.parseAbs u with
      | none =>
        refine ⟨rfl, rfl, rfl, rfl, rfl, ?_⟩
        intro h
        cases h
      | some A =>
        exact ⟨rfl, rfl, rfl, rfl, rfl, fun _ => ⟨A, html, rfl, rfl, rfl, rfl⟩⟩

/-- C9 witnessed: the foreign-domain, empty, fragment and self links
are dropped, the one same-domain link is mirrored as its own file. -/
theorem crawl_same_domain_capped_witness :
    (0:Nat) < 1 ∧
    envC9.parseAbs "http://e.com/" = some ⟨"http://e.com/", "e.com", "/"⟩ ∧
    extractLinks envC9 docC9.anchorHrefs "http://e.com/" = some ["http://e.com/a"] ∧
    (∀ u ∈ ["http://e.com/a"], ∃ href A, envC9.R href "http://e.com/" = some A ∧
      A.hostname = "e.com" ∧ A.pathname ≠ "/" ∧ u = A.href) ∧
    (cloneSinglePage envC9 "http://e.com/a" initState).1.saves = ["a.html"] := by
  have h := crawl_same_domain_capped envC9 "http://e.com/" 1 docC9 initState
    ⟨"http://e.com/", "e.com", "/"⟩ ["http://e.com/a"] (by decide) rfl rfl
  refine ⟨by decide, rfl, rfl, h.1, ?_⟩
  obtain ⟨A, html, hA, hlk, hsaves, -⟩ := (h.2.2.2 "http://e.com/a" initState).2.2.2.2.2 rfl
  rw [hsaves]
  rw [show A = ⟨"http://e.com/a", "e.com", "/a"⟩ from by
    have : some A = some (⟨"http://e.com/a", "e.com", "/a"⟩ : URLParts) := by
      rw [← hA]; rfl
    exact Option.some.inj this]
  rfl

/-! ## Claim C3 -/

/-- C3: a document that references the same image URL both via an
`img[src]` attribute and inside an inline background style causes
exactly one fetch of that URL over the whole run and exactly one file
record sourced from it, and both the img reference and the inline
style reference are rewritten to the same local path
`./images/<canonical path>` — provided the run is undisturbed
(no pause, no crawl) and no other reference of the document or of a
web stylesheet resolves to that URL. -/
theorem image_dedup_single_fetch (env : Env) (url : String) (method : Method)
    (html A u content : String) (W : URLParts)
    (hnp : NoPause env)
    (hdoc : lookupWeb env.web url = some html)
    (hAurl : A ≠ url)
    (hRu : env.R u url = some W)
    (hres : resolveHref env.R u url = some A)
    (hlkA : lookupWeb env.web A = some content)
    (hAweb : ¬ WebCssRef env A)
    (hkeep : keepNonData u = true)
    (himgref : u ∈ (env.parseDoc html).imgSrcs)
    (hsty : u ∈ (env.parseDoc html).styleBgRefs)
    (himgo : ∀ href ∈ imagesSet (env.parseDoc html), href ≠ u →
      ∀ B, resolveHref env.R href url = some B → B ≠ A)
    (hfont : ∀ href ∈ fontSet (env.parseDoc html),
      ∀ B, resolveHref env.R href url = some B → B ≠ A)
    (hicon : ∀ href ∈ iconSet (env.parseDoc html),
      ∀ B, resolveHref env.R href url = some B → B ≠ A)
    (hcss : ∀ href ∈ cssSet (env.parseDoc html),
      ∀ B, resolveHref env.R href url = some B → B ≠ A)
    (hjs : ∀ href ∈ jsSet (env.parseDoc html),
      ∀ B, resolveHref env.R href url = some B → B ≠ A) :
    (cloneWebsite env url method 0).events.count (Ev.fetch A) = 1 ∧
    fileCount A (cloneWebsite env url method 0).files = 1 ∧
    (u, "./images/" ++ getLocalPath env.R u url)
      ∈ (cloneWebsite env url method 0).imgRewrites ∧
    (u, "./images/" ++ getLocalPath env.R u url)
      ∈ (cloneWebsite env url method 0).styleRewrites := by
  have hb : env.pausedAt 0 = false := hnp 0
  have hmemI : u ∈ imagesSet (env.parseDoc html) :=
    (mem_addAll _ _ _ _).mpr (Or.inr ⟨hsty, hkeep⟩)
  have hnd : (imagesSet (env.parseDoc html)).Nodup :=
    nodup_addAll _ _ (nodup_addAll _ _ List.nodup_nil)
  have himg1 : (imagesSet (env.parseDoc html)).count u = 1 :=
    List.count_eq_one_of_mem hnd hmemI
  have hc0 : ([Ev.check false, Ev.fetch url] : List Ev).count (Ev.fetch A) = 0 := by
    rw [List.count_eq_zero]
    intro hmem
    simp at hmem
    exact hAurl hmem
  cases method with
  | static =>
    have heq : cloneWebsite env url .static 0 =
        clonePhases env url .static 0 (env.parseDoc html) html.length
          (report (recordFetch (report startedState 10) url) 20) := by
      simp [cloneWebsite, pauseCheck, initState, startedState, hb, hdoc]
    rw [heq]
    obtain ⟨e1, f1, m1, m2⟩ := clonePhases_imageOnce env url .static
      (env.parseDoc html) html.length
      (report (recordFetch (report startedState 10) url) 20) A u content W
      hnp rfl hRu hres hlkA hAweb hkeep hsty himg1 himgo hfont hicon hcss hjs
    refine ⟨?_, ?_, m1, m2⟩
    · rw [e1]
      rw [show (report (recordFetch (report startedState 10) url) 20).events
        = [Ev.check false, Ev.fetch url] from rfl]
      rw [hc0]
    · rw [f1]
      rfl
  | playwright =>
    have heq : cloneWebsite env url .playwright 0 =
        clonePhases env url .playwright 0 (env.parseDoc html) html.length
          (report ((renderEmits env.renderEvents).foldl (fun t v => report t (5 + v))
            (recordFetch (report (report startedState 2) 5) url)) 15) := by
      simp [cloneWebsite, pauseCheck, initState, startedState, renderPageModel, hb, hdoc]
    rw [foldl_report (fun v => 5 + v) (renderEmits env.renderEvents)
      (recordFetch (report (report startedState 2) 5) url)] at heq
    rw [heq]
    obtain ⟨e1, f1, m1, m2⟩ := clonePhases_imageOnce env url .playwright
      (env.parseDoc html) html.length
      (report { recordFetch (report (report startedState 2) 5) url with
        progressLog :=
          (recordFetch (report (report startedState 2) 5) url).progressLog ++
          (renderEmits env.renderEvents).map (fun v => 5 + v) } 15) A u content W
      hnp rfl hRu hres hlkA hAweb hkeep hsty himg1 himgo hfont hicon hcss hjs
    refine ⟨?_, ?_, m1, m2⟩
    · rw [e1]
      rw [show (report { recordFetch (report (report startedState 2) 5) url with
        progressLog :=
          (recordFetch (report (report startedState 2) 5) url).progressLog ++
          (renderEmits env.renderEvents).map (fun v => 5 + v) } 15).events
        = [Ev.check false, Ev.fetch url] from rfl]
      rw [hc0]
    · rw [f1]
      rfl

/-- C3 witnessed on a concrete two-resource site. -/
theorem image_dedup_single_fetch_witness :
    NoPause envC3 ∧
    lookupWeb envC3.web "http://e.com/" = some "<html>" ∧
    "i.png" ∈ (envC3.parseDoc "<html>").imgSrcs ∧
    "i.png" ∈ (envC3.parseDoc "<html>").styleBgRefs ∧
    (cloneWebsite envC3 "http://e.com/" .static 0).events.count
      (Ev.fetch "http://e.com/i.png") = 1 ∧
    fileCount "http://e.com/i.png"
      (cloneWebsite envC3 "http://e.com/" .static 0).files = 1 ∧
    ("i.png", "./images/" ++ getLocalPath envC3.R "i.png" "http://e.com/")
      ∈ (cloneWebsite envC3 "http://e.com/" .static 0).imgRewrites ∧
    ("i.png", "./images/" ++ getLocalPath envC3.R "i.png" "http://e.com/")
      ∈ (cloneWebsite envC3 "http://e.com/" .static 0).styleRewrites := by
  have hAweb : ¬ WebCssRef envC3 "http://e.com/i.png" := by
    intro h
    obtain ⟨w, c, r, b, hmem, hr, hres⟩ := h
    rcases hr with hr | hr
    · exact absurd hr (List.not_mem_nil r)
    · exact absurd hr (List.not_mem_nil r)
  have h := image_dedup_single_fetch envC3 "http://e.com/" .static "<html>"
    "http://e.com/i.png" "i.png" "IMG" ⟨"http://e.com/i.png", "e.com", "/i.png"⟩
    (fun _ => rfl) rfl (by decide) rfl rfl rfl hAweb rfl (by decide) (by decide)
    (by intro href hmem hne B hB
        have : href = "i.png" := by
          rcases List.mem_cons.mp hmem with h1 | h1
          · exact h1
          · exact absurd h1 (List.not_mem_nil href)
        exact absurd this hne)
    (fun href hmem => absurd hmem (List.not_mem_nil href))
    (fun href hmem => absurd hmem (List.not_mem_nil href))
    (fun href hmem => absurd hmem (List.not_mem_nil href))
    (fun href hmem => absurd hmem (List.not_mem_nil href))
  exact ⟨fun _ => rfl, rfl, by decide, by decide, h.1, h.2.1, h.2.2.1, h.2.2.2⟩

end SiteSnapshot
